import Mathlib

/-!
Verification of the navigation/asset patcher scripts (`fix_navigation.py`,
`update_structure.py`) of the python_automation repository.

The development shallowly embeds the two scripts:

* strings are `List Char` (via `String.toList`) or `String`; Python's
  `x in s` substring test is list-infix `<:+:`;
* `re.sub(pat, repl, s, count=1)` for the concrete patterns of
  `update_structure.update_html_file` is modelled as "find the leftmost
  occurrence of the anchor, insert the fixed replacement text before/after
  it" (each replacement is `\1` plus literal text, so it is an insertion);
* the BeautifulSoup document used by `fix_navigation.update_html_file` is
  a rose tree (`Node`/`Forest`); `soup.find` is the first match in
  document (preorder) order, `replace_with` replaces that node,
  `body.insert(0, x)` / `body.append(x)` / `head.append(x)` modify the
  first matching element's children;
* file reads/writes and raised exceptions are explicit data
  (`Option`-valued reads, boolean "this write raises" flags);
* Python's `list.index` (which raises `ValueError` on a missing element,
  caught by the callers) is `pyIndex : List α → α → Option Nat`;
* Python's stable `sorted` on strings is an insertion sort under
  code-point lexicographic order.
-/

set_option maxHeartbeats 4000000
set_option maxRecDepth 100000

/-! ## Generic string helpers (Python `str` operations) -/

/-- Python `s.endswith(suf)`. -/
def sEnds (s suf : String) : Bool := List.isSuffixOf suf.toList s.toList

/-- Python `s.startswith(p)`. -/
def sStarts (s p : String) : Bool := List.isPrefixOf p.toList s.toList

/-- Code-point lexicographic order on char lists, Python's `str <=`. -/
def lexLe : List Char → List Char → Bool
  | [], _ => true
  | _ :: _, [] => false
  | a :: as, b :: bs => if a = b then lexLe as bs else decide (a < b)

/-- Python `str <=` on strings. -/
def sLe (a b : String) : Bool := lexLe a.toList b.toList

theorem lexLe_total : ∀ a b, lexLe a b = true ∨ lexLe b a = true := by
  intro a
  induction a with
  | nil => intro b; left; rfl
  | cons x xs ih =>
    intro b
    cases b with
    | nil => right; rfl
    | cons y ys =>
      by_cases hxy : x = y
      · subst hxy
        simp only [lexLe, if_pos rfl]
        exact ih ys
      · rcases lt_or_ge x y with h | h
        · left; simp [lexLe, hxy, h]
        · right
          have hyx : y ≠ x := fun h2 => hxy h2.symm
          have : y < x := lt_of_le_of_ne h (fun h2 => hxy h2.symm)
          simp [lexLe, hyx, this]

theorem lexLe_trans :
    ∀ a b c, lexLe a b = true → lexLe b c = true → lexLe a c = true := by
  intro a
  induction a with
  | nil => intro b c _ _; rfl
  | cons x xs ih =>
    intro b c hab hbc
    cases b with
    | nil => simp [lexLe] at hab
    | cons y ys =>
      cases c with
      | nil => simp [lexLe] at hbc
      | cons z zs =>
        by_cases hxy : x = y
        · subst hxy
          by_cases hyz : x = z
          · subst hyz
            simp only [lexLe, if_pos rfl] at hab hbc ⊢
            exact ih ys zs hab hbc
          · simp only [lexLe, if_pos rfl] at hab
            simp only [lexLe, if_neg hyz] at hbc ⊢
            exact hbc
        · by_cases hyz : y = z
          · subst hyz
            simp only [lexLe, if_neg hxy] at hab ⊢
            exact hab
          · simp only [lexLe, if_neg hxy] at hab
            simp only [lexLe, if_neg hyz] at hbc
            have hxz : x < z := lt_trans (of_decide_eq_true hab) (of_decide_eq_true hbc)
            have : x ≠ z := ne_of_lt hxz
            simp [lexLe, this, hxz]

theorem sLe_total (a b : String) : sLe a b = true ∨ sLe b a = true :=
  lexLe_total a.toList b.toList

theorem sLe_trans {a b c : String} (h1 : sLe a b = true) (h2 : sLe b c = true) :
    sLe a c = true :=
  lexLe_trans a.toList b.toList c.toList h1 h2

/-- Stable insertion of one string into an already-sorted accumulator:
the inserted element goes after all elements `≤` it. -/
def sInsert (x : String) : List String → List String
  | [] => [x]
  | y :: ys => if sLe y x then y :: sInsert x ys else x :: y :: ys

/-- Python `sorted` on strings (a stable sort under `sLe`). -/
def pySorted (l : List String) : List String := l.foldl (fun acc x => sInsert x acc) []

theorem mem_sInsert (a x : String) : ∀ l, a ∈ sInsert x l ↔ a = x ∨ a ∈ l := by
  intro l
  induction l with
  | nil => simp [sInsert]
  | cons y ys ih =>
    by_cases h : sLe y x = true
    · simp only [sInsert, if_pos h, List.mem_cons, ih]
      tauto
    · simp only [sInsert, if_neg h, List.mem_cons]

theorem sorted_sInsert (x : String) :
    ∀ l, List.Pairwise (fun a b => sLe a b = true) l →
      List.Pairwise (fun a b => sLe a b = true) (sInsert x l) := by
  intro l
  induction l with
  | nil => intro _; simp [sInsert]
  | cons y ys ih =>
    intro hp
    rcases List.pairwise_cons.1 hp with ⟨hy, hys⟩
    by_cases h : sLe y x = true
    · rw [sInsert, if_pos h]
      refine List.pairwise_cons.2 ⟨?_, ih hys⟩
      intro b hb
      rcases (mem_sInsert b x ys).1 hb with hbx | hbm
      · subst hbx; exact h
      · exact hy b hbm
    · rw [sInsert, if_neg h]
      have hxy : sLe x y = true := by
        rcases sLe_total y x with h1 | h1
        · exact absurd h1 h
        · exact h1
      refine List.pairwise_cons.2 ⟨?_, hp⟩
      intro b hb
      rcases List.mem_cons.1 hb with hby | hbm
      · subst hby; exact hxy
      · exact sLe_trans hxy (hy b hbm)

theorem sorted_pySorted_aux :
    ∀ (l : List String) (acc : List String),
      List.Pairwise (fun a b => sLe a b = true) acc →
      List.Pairwise (fun a b => sLe a b = true) (l.foldl (fun acc x => sInsert x acc) acc) := by
  intro l
  induction l with
  | nil => intro acc h; exact h
  | cons x xs ih =>
    intro acc h
    exact ih (sInsert x acc) (sorted_sInsert x acc h)

/-- `pySorted` output is sorted under `sLe`. -/
theorem sorted_pySorted (l : List String) :
    List.Pairwise (fun a b => sLe a b = true) (pySorted l) :=
  sorted_pySorted_aux l [] (List.Pairwise.nil)

theorem mem_foldl_sInsert :
    ∀ (l : List String) (acc : List String) (a : String),
      a ∈ l.foldl (fun acc x => sInsert x acc) acc ↔ a ∈ l ∨ a ∈ acc := by
  intro l
  induction l with
  | nil => intro acc a; simp
  | cons x xs ih =>
    intro acc a
    rw [List.foldl_cons, ih (sInsert x acc) a]
    simp only [List.mem_cons, mem_sInsert]
    tauto

/-- Membership in `pySorted` is membership in the input. -/
theorem mem_pySorted (l : List String) (a : String) : a ∈ pySorted l ↔ a ∈ l := by
  rw [pySorted, mem_foldl_sInsert]
  simp

/-! ## Python `list.index` (raises on a missing element) -/

/-- Python `l.index(x)`: index of the first element equal to `x`, or
`none` where Python raises `ValueError`. -/
def pyIndex {α : Type} [DecidableEq α] : List α → α → Option Nat
  | [], _ => none
  | a :: as, x => if a = x then some 0 else (pyIndex as x).map (· + 1)

theorem pyIndex_eq_none_of_not_mem {α : Type} [DecidableEq α] :
    ∀ (l : List α) (x : α), x ∉ l → pyIndex l x = none := by
  intro l
  induction l with
  | nil => intro x _; rfl
  | cons a as ih =>
    intro x hx
    have h1 : a ≠ x := fun h => hx (h ▸ List.mem_cons_self a as)
    have h2 : x ∉ as := fun h => hx (List.mem_cons_of_mem a h)
    simp [pyIndex, h1, ih x h2]

theorem pyIndex_get {α : Type} [DecidableEq α] :
    ∀ (l : List α), l.Nodup → ∀ (i : Nat) (h : i < l.length),
      pyIndex l (l.get ⟨i, h⟩) = some i := by
  intro l
  induction l with
  | nil => intro _ i h; exact absurd h (Nat.not_lt_zero i)
  | cons a as ih =>
    intro hnd i h
    rcases List.nodup_cons.1 hnd with ⟨ha, has⟩
    cases i with
    | zero => simp [pyIndex]
    | succ n =>
      have hn : n < as.length := Nat.lt_of_succ_lt_succ h
      have hget : (a :: as).get ⟨n + 1, h⟩ = as.get ⟨n, hn⟩ := rfl
      have hne : a ≠ as.get ⟨n, hn⟩ := by
        intro he
        exact ha (he ▸ List.get_mem as n hn)
      rw [hget, pyIndex, if_neg hne, ih has n hn]
      rfl

/-! ## Lesson registry (`fix_navigation.py`, `Lesson`, `_define_course_structure`) -/

/-- One lesson of the course (`@dataclass Lesson`). -/
structure Lesson where
  module_num : Nat
  lesson_num : Nat
  filename : String
  title : String
  module_name : String
deriving DecidableEq, Repr

/-- The hardcoded course catalog (`CourseNavigationFixer._define_course_structure`). -/
def lessons : List Lesson := [
  ⟨1, 1, "filesystem_advanced_file_operations.html", "Advanced File Operations", "File and System Automation"⟩,
  ⟨1, 2, "filesystem_batch_renaming.html", "Batch Renaming", "File and System Automation"⟩,
  ⟨1, 3, "filesystem_directory_watching.html", "Directory Watching", "File and System Automation"⟩,
  ⟨1, 4, "filesystem_file_organization_scripts.html", "File Organization Scripts", "File and System Automation"⟩,
  ⟨1, 5, "filesystem_backup_automation.html", "Backup Automation", "File and System Automation"⟩,
  ⟨2, 1, "webscraping_html_css_selectors.html", "HTML & CSS Selectors", "Web Scraping"⟩,
  ⟨2, 2, "webscraping_beautifulsoup_mastery.html", "BeautifulSoup Mastery", "Web Scraping"⟩,
  ⟨2, 3, "webscraping_forms_cookies.html", "Forms and Cookies", "Web Scraping"⟩,
  ⟨2, 4, "webscraping_session_management.html", "Session Management", "Web Scraping"⟩,
  ⟨2, 5, "webscraping_ethics_robots.html", "Ethics and Robots.txt", "Web Scraping"⟩,
  ⟨3, 1, "browser_automation_webdriver_setup.html", "WebDriver Setup", "Browser Automation"⟩,
  ⟨3, 2, "browser_automation_element_interaction.html", "Element Interaction", "Browser Automation"⟩,
  ⟨3, 3, "browser_automation_waiting_strategies.html", "Waiting Strategies", "Browser Automation"⟩,
  ⟨3, 4, "browser_automation_page_object_model.html", "Page Object Model", "Browser Automation"⟩,
  ⟨3, 5, "browser_automation_headless_browsing.html", "Headless Browsing", "Browser Automation"⟩,
  ⟨4, 1, "workingwithdata_csv_processing.html", "CSV Processing", "Data Processing"⟩,
  ⟨4, 2, "workingwithdata_excel_automation.html", "Excel Automation", "Data Processing"⟩,
  ⟨4, 3, "workingwithdata_json_xml_parsing.html", "JSON & XML Parsing", "Data Processing"⟩,
  ⟨4, 4, "workingwithdata_pdf_manipulation.html", "PDF Manipulation", "Data Processing"⟩,
  ⟨4, 5, "workingwithdata_database_automation.html", "Database Automation", "Data Processing"⟩,
  ⟨5, 1, "email_automation_sending_emails.html", "Sending Emails", "Email Automation"⟩,
  ⟨5, 2, "email_automation_reading_emails.html", "Reading Emails", "Email Automation"⟩,
  ⟨5, 3, "email_automation_attachments.html", "Email Attachments", "Email Automation"⟩,
  ⟨5, 4, "email_automation_html_emails.html", "HTML Emails", "Email Automation"⟩,
  ⟨5, 5, "email_automation_filtering_rules.html", "Email Filtering Rules", "Email Automation"⟩,
  ⟨6, 1, "api_automation_restful_consumption.html", "RESTful API Consumption", "API Automation"⟩,
  ⟨6, 2, "api_automation_authentication_methods.html", "Authentication Methods", "API Automation"⟩,
  ⟨6, 3, "api_automation_rate_limiting.html", "Rate Limiting", "API Automation"⟩,
  ⟨6, 4, "api_automation_webhook_implementation.html", "Webhook Implementation", "API Automation"⟩,
  ⟨6, 5, "api_automation_api_testing.html", "API Testing", "API Automation"⟩,
  ⟨7, 1, "cloud_automation_aws_boto3.html", "AWS with Boto3", "Cloud Automation"⟩,
  ⟨7, 2, "cloud_automation_google_cloud.html", "Google Cloud Platform", "Cloud Automation"⟩,
  ⟨7, 3, "cloud_automation_storage.html", "Cloud Storage", "Cloud Automation"⟩,
  ⟨7, 4, "cloud_automation_serverless.html", "Serverless Functions", "Cloud Automation"⟩,
  ⟨7, 5, "cloud_automation_deploying.html", "Deployment Automation", "Cloud Automation"⟩,
  ⟨8, 1, "task_orchestration_airflow_basics.html", "Apache Airflow Basics", "Task Orchestration"⟩,
  ⟨8, 2, "task_orchestration_creating_dags.html", "Creating DAGs", "Task Orchestration"⟩,
  ⟨8, 3, "task_orchestration_dependencies.html", "Task Dependencies", "Task Orchestration"⟩,
  ⟨8, 4, "task_orchestration_error_handling.html", "Error Handling", "Task Orchestration"⟩,
  ⟨8, 5, "task_orchestration_monitoring.html", "Monitoring and Alerts", "Task Orchestration"⟩,
  ⟨9, 1, "testing_automation_unit.html", "Unit Test Automation", "Testing Automation"⟩,
  ⟨9, 2, "testing_automation_integration.html", "Integration Testing", "Testing Automation"⟩,
  ⟨9, 3, "testing_automation_ui_selenium.html", "UI Testing with Selenium", "Testing Automation"⟩,
  ⟨9, 4, "testing_automation_api.html", "API Testing", "Testing Automation"⟩,
  ⟨9, 5, "testing_automation_ci.html", "Continuous Integration", "Testing Automation"⟩,
  ⟨10, 1, "systemadmin_scheduled_tasks.html", "Scheduled Tasks", "System Administration"⟩,
  ⟨10, 2, "systemadmin_process_management.html", "Process Management", "System Administration"⟩,
  ⟨10, 3, "systemadmin_log_analysis.html", "Log Analysis", "System Administration"⟩,
  ⟨10, 4, "systemadmin_system_monitoring.html", "System Monitoring", "System Administration"⟩,
  ⟨10, 5, "systemadmin_environment_management.html", "Environment Management", "System Administration"⟩,
  ⟨11, 1, "gui_automation_pyautogui.html", "PyAutoGUI Basics", "GUI Automation"⟩,
  ⟨11, 2, "gui_automation_mouse_keyboard.html", "Mouse and Keyboard Control", "GUI Automation"⟩,
  ⟨11, 3, "gui_automation_screen_capture.html", "Screen Capture", "GUI Automation"⟩,
  ⟨11, 4, "gui_automation_window_management.html", "Window Management", "GUI Automation"⟩,
  ⟨11, 5, "gui_automation_cross_platform.html", "Cross-Platform GUI", "GUI Automation"⟩,
  ⟨12, 1, "chatbot_telegram_bots.html", "Telegram Bots", "Chatbot Development"⟩,
  ⟨12, 2, "chatbot_discord_bots.html", "Discord Bots", "Chatbot Development"⟩,
  ⟨12, 3, "chatbot_slack_integration.html", "Slack Integration", "Chatbot Development"⟩,
  ⟨12, 4, "chatbot_command_handling.html", "Command Handling", "Chatbot Development"⟩,
  ⟨12, 5, "chatbot_nlp.html", "Natural Language Processing", "Chatbot Development"⟩,
  ⟨13, 1, "advanced_scraping_selenium.html", "Advanced Selenium", "Advanced Web Scraping"⟩,
  ⟨13, 2, "advanced_scraping_scrapy.html", "Scrapy Framework", "Advanced Web Scraping"⟩,
  ⟨13, 3, "advanced_scraping_captcha.html", "CAPTCHA Handling", "Advanced Web Scraping"⟩,
  ⟨13, 4, "advanced_scraping_proxy_rotation.html", "Proxy Rotation", "Advanced Web Scraping"⟩,
  ⟨13, 5, "advanced_scraping_data_pipelines.html", "Data Pipelines", "Advanced Web Scraping"⟩,
  ⟨14, 1, "rpa_enterprise_concepts.html", "RPA Concepts", "RPA and Enterprise Automation"⟩,
  ⟨14, 2, "rpa_enterprise_uipath_integration.html", "UiPath/Python Integration", "RPA and Enterprise Automation"⟩,
  ⟨14, 3, "rpa_enterprise_business_process.html", "Business Process Automation", "RPA and Enterprise Automation"⟩,
  ⟨14, 4, "rpa_enterprise_document_processing.html", "Document Processing", "RPA and Enterprise Automation"⟩,
  ⟨14, 5, "rpa_enterprise_reporting.html", "Reporting Automation", "RPA and Enterprise Automation"⟩]

theorem lessons_nodup : lessons.Nodup := by decide

theorem lessons_filenames_nodup : (lessons.map Lesson.filename).Nodup := by decide

/-- `CourseNavigationFixer.get_lesson_by_filename`: first catalog entry with
the given filename. -/
def get_lesson_by_filename (filename : String) : Option Lesson :=
  lessons.find? (fun lesson => lesson.filename = filename)

/-- `CourseNavigationFixer.get_previous_lesson`: `lessons.index(current)`
(`ValueError` caught as `none`), then the entry one position earlier. -/
def get_previous_lesson (current : Lesson) : Option Lesson :=
  match pyIndex lessons current with
  | none => none
  | some i => if 0 < i then lessons.get? (i - 1) else none

/-- `CourseNavigationFixer.get_next_lesson`. -/
def get_next_lesson (current : Lesson) : Option Lesson :=
  match pyIndex lessons current with
  | none => none
  | some i => if i < lessons.length - 1 then lessons.get? (i + 1) else none

theorem get_previous_lesson_at :
    ∀ (i : Nat) (h : i < lessons.length),
      get_previous_lesson (lessons.get ⟨i, h⟩)
        = if 0 < i then lessons.get? (i - 1) else none := by
  intro i h
  rw [get_previous_lesson, pyIndex_get lessons lessons_nodup i h]

theorem get_next_lesson_at :
    ∀ (i : Nat) (h : i < lessons.length),
      get_next_lesson (lessons.get ⟨i, h⟩)
        = if i < lessons.length - 1 then lessons.get? (i + 1) else none := by
  intro i h
  rw [get_next_lesson, pyIndex_get lessons lessons_nodup i h]

/-- C2: the first catalog entry has no previous lesson and the last has no
next lesson; every interior entry's previous/next are the catalog entries
one position earlier/later (adjacency is positional in catalog order). -/
theorem C2_navigator_boundary :
    (∀ h0 : 0 < lessons.length, get_previous_lesson (lessons.get ⟨0, h0⟩) = none)
    ∧ (∀ hl : lessons.length - 1 < lessons.length,
        get_next_lesson (lessons.get ⟨lessons.length - 1, hl⟩) = none)
    ∧ (∀ (i : Nat) (h : i < lessons.length) (hi : 0 < i),
        get_previous_lesson (lessons.get ⟨i, h⟩)
          = some (lessons.get ⟨i - 1, by omega⟩))
    ∧ (∀ (i : Nat) (h : i < lessons.length) (hi : i < lessons.length - 1),
        get_next_lesson (lessons.get ⟨i, h⟩)
          = some (lessons.get ⟨i + 1, by omega⟩)) := by
  refine ⟨?_, ?_, ?_, ?_⟩
  · intro h0
    rw [get_previous_lesson_at 0 h0]
    simp
  · intro hl
    rw [get_next_lesson_at _ hl]
    simp
  · intro i h hi
    rw [get_previous_lesson_at i h, if_pos hi, List.get?_eq_get (by omega)]
  · intro i h hi
    rw [get_next_lesson_at i h, if_pos hi, List.get?_eq_get (by omega)]

/-- Witness for C2 at concrete positions 0, 1 and the last entry. -/
theorem C2_navigator_boundary_witness :
    get_previous_lesson (lessons.get ⟨0, by decide⟩) = none
    ∧ get_next_lesson (lessons.get ⟨69, by decide⟩) = none
    ∧ get_previous_lesson (lessons.get ⟨1, by decide⟩)
        = some (lessons.get ⟨0, by decide⟩)
    ∧ get_next_lesson (lessons.get ⟨1, by decide⟩)
        = some (lessons.get ⟨2, by decide⟩) :=
  ⟨C2_navigator_boundary.1 (by decide),
   C2_navigator_boundary.2.1 (by decide),
   C2_navigator_boundary.2.2.1 1 (by decide) (by decide),
   C2_navigator_boundary.2.2.2 1 (by decide) (by decide)⟩

theorem find_by_filename :
    ∀ (l : List Lesson), (l.map Lesson.filename).Nodup →
      ∀ e ∈ l, l.find? (fun x => x.filename = e.filename) = some e := by
  intro l
  induction l with
  | nil => intro _ e he; exact absurd he (List.not_mem_nil e)
  | cons a as ih =>
    intro hnd e he
    have hnd2 : (a.filename :: as.map Lesson.filename).Nodup := by
      simpa using hnd
    rcases List.nodup_cons.1 hnd2 with ⟨ha, has⟩
    rcases List.mem_cons.1 he with rfl | hmem
    · exact List.find?_cons_of_pos as (by simp)
    · have hne : a.filename ≠ e.filename := by
        intro hEq
        exact ha (hEq ▸ List.mem_map_of_mem Lesson.filename hmem)
      rw [List.find?_cons_of_neg as (by simpa using hne)]
      exact ih has e hmem

/-- C7: looking a catalog entry up by its own filename returns that entry,
and looking up any filename outside the catalog returns none. -/
theorem C7_registry_round_trip :
    (∀ e ∈ lessons, get_lesson_by_filename e.filename = some e)
    ∧ (∀ s : String, s ∉ lessons.map Lesson.filename →
        get_lesson_by_filename s = none) := by
  constructor
  · intro e he
    exact find_by_filename lessons lessons_filenames_nodup e he
  · intro s hs
    rw [get_lesson_by_filename, List.find?_eq_none]
    intro l hl
    simp only [decide_eq_true_eq]
    intro hEq
    exact hs (hEq ▸ List.mem_map_of_mem Lesson.filename hl)

/-- Witness for C7: the first catalog entry round-trips, and the absent
filename "unknown.html" yields none. -/
theorem C7_registry_round_trip_witness :
    get_lesson_by_filename "filesystem_advanced_file_operations.html"
      = some ⟨1, 1, "filesystem_advanced_file_operations.html",
              "Advanced File Operations", "File and System Automation"⟩
    ∧ get_lesson_by_filename "unknown.html" = none :=
  ⟨C7_registry_round_trip.1
    ⟨1, 1, "filesystem_advanced_file_operations.html",
     "Advanced File Operations", "File and System Automation"⟩ (by decide),
   C7_registry_round_trip.2 "unknown.html" (by decide)⟩

/-- C8: for a Lesson value not in the catalog, both neighbor lookups
return none instead of raising (the `ValueError` of `list.index` is
caught and turned into `None`). -/
theorem C8_unknown_lesson_lenient (current : Lesson) (h : current ∉ lessons) :
    get_previous_lesson current = none ∧ get_next_lesson current = none := by
  rw [get_previous_lesson, get_next_lesson, pyIndex_eq_none_of_not_mem lessons current h]
  exact ⟨rfl, rfl⟩

/-- Witness for C8 at a concrete non-catalog lesson. -/
theorem C8_unknown_lesson_lenient_witness :
    get_previous_lesson ⟨99, 1, "mystery.html", "Mystery", "Nowhere"⟩ = none
    ∧ get_next_lesson ⟨99, 1, "mystery.html", "Mystery", "Nowhere"⟩ = none :=
  C8_unknown_lesson_lenient ⟨99, 1, "mystery.html", "Mystery", "Nowhere"⟩ (by decide)

/-! ## Fragment builder (`create_footer_navigation`) -/

/-- The previous-lesson slot of the footer: a link when a previous lesson
exists, an empty placeholder span otherwise. -/
def nav_prev_part (lesson : Lesson) : String :=
  match get_previous_lesson lesson with
  | some prev =>
      "<a href=\"" ++ prev.filename ++ "\" class=\"nav-prev\">&larr; Previous: "
        ++ prev.title ++ "</a>"
  | none => "<span class=\"nav-prev\"></span>"

/-- The always-present home slot of the footer. -/
def nav_home_part : String := "<a href=\"index.html\" class=\"nav-home\">🏠 Course Home</a>"

/-- The next-lesson slot of the footer. -/
def nav_next_part (lesson : Lesson) : String :=
  match get_next_lesson lesson with
  | some next =>
      "<a href=\"" ++ next.filename ++ "\" class=\"nav-next\">Next: "
        ++ next.title ++ " &rarr;</a>"
  | none => "<span class=\"nav-next\"></span>"

/-- The `footer_parts` list built by `create_footer_navigation` before the
final `'\n    '.join`. -/
def footer_parts (lesson : Lesson) : List String :=
  ["<footer>", "<div class=\"navigation-links\">"]
    ++ [nav_prev_part lesson]
    ++ [nav_home_part]
    ++ [nav_next_part lesson]
    ++ ["</div>", "</footer>"]

/-- `CourseNavigationFixer.create_footer_navigation`. -/
def create_footer_navigation (lesson : Lesson) : String :=
  String.intercalate "\n    " (footer_parts lesson)

/-- C6: the footer markup of every catalog entry has exactly three
navigation slots in order (previous / home / next) between the wrapper
parts; missing neighbors yield empty placeholder spans, never omissions. -/
theorem C6_footer_slots (lesson : Lesson) (hmem : lesson ∈ lessons) :
    footer_parts lesson
      = ["<footer>", "<div class=\"navigation-links\">",
         nav_prev_part lesson, nav_home_part, nav_next_part lesson,
         "</div>", "</footer>"]
    ∧ ((∃ prev, get_previous_lesson lesson = some prev
          ∧ nav_prev_part lesson
            = "<a href=\"" ++ prev.filename ++ "\" class=\"nav-prev\">&larr; Previous: "
                ++ prev.title ++ "</a>")
        ∨ (get_previous_lesson lesson = none
            ∧ nav_prev_part lesson = "<span class=\"nav-prev\"></span>"))
    ∧ nav_home_part = "<a href=\"index.html\" class=\"nav-home\">🏠 Course Home</a>"
    ∧ ((∃ next, get_next_lesson lesson = some next
          ∧ nav_next_part lesson
            = "<a href=\"" ++ next.filename ++ "\" class=\"nav-next\">Next: "
                ++ next.title ++ " &rarr;</a>")
        ∨ (get_next_lesson lesson = none
            ∧ nav_next_part lesson = "<span class=\"nav-next\"></span>"))
    ∧ create_footer_navigation lesson
        = String.intercalate "\n    " (footer_parts lesson) := by
  refine ⟨rfl, ?_, rfl, ?_, rfl⟩
  · cases hprev : get_previous_lesson lesson with
    | none => exact Or.inr ⟨rfl, by rw [nav_prev_part, hprev]⟩
    | some prev => exact Or.inl ⟨prev, rfl, by rw [nav_prev_part, hprev]⟩
  · cases hnext : get_next_lesson lesson with
    | none => exact Or.inr ⟨rfl, by rw [nav_next_part, hnext]⟩
    | some next => exact Or.inl ⟨next, rfl, by rw [nav_next_part, hnext]⟩

/-- Witness for C6 at the first catalog entry. -/
theorem C6_footer_slots_witness :
    footer_parts ⟨1, 1, "filesystem_advanced_file_operations.html",
                  "Advanced File Operations", "File and System Automation"⟩
      = ["<footer>", "<div class=\"navigation-links\">",
         nav_prev_part ⟨1, 1, "filesystem_advanced_file_operations.html",
                        "Advanced File Operations", "File and System Automation"⟩,
         nav_home_part,
         nav_next_part ⟨1, 1, "filesystem_advanced_file_operations.html",
                        "Advanced File Operations", "File and System Automation"⟩,
         "</div>", "</footer>"] :=
  (C6_footer_slots
    ⟨1, 1, "filesystem_advanced_file_operations.html",
     "Advanced File Operations", "File and System Automation"⟩ (by decide)).1

/-! ## Startup validation (`CourseNavigationFixer.verify_structure`) -/

/-- Result of `glob("*.html")` (dotfiles hidden) in the target directory,
as a filter over the directory listing. -/
def glob_html (listing : List String) : List String :=
  listing.filter (fun n => sEnds n ".html" && !sStarts n ".")

/-- The navigation pass's target files: `glob("*.html")` minus
`index.html` and underscore-prefixed names. -/
def fixer_target_files (listing : List String) : List String :=
  (glob_html listing).filter (fun n => !(n = "index.html") && !sStarts n "_")

/-- Outcome of `verify_structure`: the files it warns about (a sorted
set), and whether the operator is asked to confirm (`input(...)`). -/
structure VerifyResult where
  warned : List String
  prompted : Bool
deriving DecidableEq, Repr

/-- `CourseNavigationFixer.verify_structure`: compares the on-disk HTML
file set against the catalog's filename set, in the disk-minus-catalog
direction only; a nonempty difference is printed sorted and the operator
is prompted (a refusal exits, modelled by the `prompted` flag). -/
def verify_structure (listing : List String) : VerifyResult :=
  let all_html_files := fixer_target_files listing
  let mapped_files := lessons.map Lesson.filename
  let unmapped := (all_html_files.filter (fun f => decide (f ∉ mapped_files))).dedup
  if unmapped.isEmpty then ⟨[], false⟩ else ⟨pySorted unmapped, true⟩

/-- C3 counterexample: with an empty target directory every catalog entry
is a catalog-without-disk-file mismatch, yet `verify_structure` reports
nothing and never asks the operator to confirm — the claimed
"every mismatch in either direction is reported" is false. -/
theorem C3_counterexample :
    (verify_structure []).warned = []
    ∧ (verify_structure []).prompted = false
    ∧ "filesystem_advanced_file_operations.html" ∈ lessons.map Lesson.filename
    ∧ "filesystem_advanced_file_operations.html" ∉ fixer_target_files [] := by
  refine ⟨rfl, rfl, by decide, by decide⟩

/-- C3 (amended): at construction the registry compares the on-disk HTML
set (excluding `index.html` and underscore-prefixed files) against the
catalog in the disk-minus-catalog direction only: each disk file with no
catalog entry is reported and triggers the confirmation prompt without
hard-failing, while catalog entries with no disk file are never
detected (everything warned about is an on-disk file). -/
theorem C3_verify_structure_amended (listing : List String) :
    (∀ f, f ∈ (verify_structure listing).warned
        ↔ f ∈ fixer_target_files listing ∧ f ∉ lessons.map Lesson.filename)
    ∧ ((verify_structure listing).prompted = true
        ↔ ∃ f ∈ fixer_target_files listing, f ∉ lessons.map Lesson.filename) := by
  have hmem : ∀ f,
      f ∈ ((fixer_target_files listing).filter
            (fun f => decide (f ∉ lessons.map Lesson.filename))).dedup
        ↔ f ∈ fixer_target_files listing ∧ f ∉ lessons.map Lesson.filename := by
    intro f
    rw [List.mem_dedup, List.mem_filter]
    simp
  by_cases hempty :
      ((fixer_target_files listing).filter
        (fun f => decide (f ∉ lessons.map Lesson.filename))).dedup.isEmpty = true
  · have hres : verify_structure listing = ⟨[], false⟩ := by
      rw [verify_structure]
      simp only [hempty, if_pos]
    rw [hres]
    constructor
    · intro f
      simp only [List.not_mem_nil, false_iff]
      intro ⟨h1, h2⟩
      have : f ∈ ((fixer_target_files listing).filter
          (fun f => decide (f ∉ lessons.map Lesson.filename))).dedup := (hmem f).2 ⟨h1, h2⟩
      rw [List.isEmpty_iff] at hempty
      rw [hempty] at this
      exact List.not_mem_nil f this
    · simp only [Bool.false_eq_true, false_iff]
      intro ⟨f, h1, h2⟩
      have : f ∈ ((fixer_target_files listing).filter
          (fun f => decide (f ∉ lessons.map Lesson.filename))).dedup := (hmem f).2 ⟨h1, h2⟩
      rw [List.isEmpty_iff] at hempty
      rw [hempty] at this
      exact List.not_mem_nil f this
  · have hres : verify_structure listing
        = ⟨pySorted ((fixer_target_files listing).filter
            (fun f => decide (f ∉ lessons.map Lesson.filename))).dedup, true⟩ := by
      rw [verify_structure]
      simp only [hempty, if_neg, Bool.false_eq_true, not_false_iff]
    rw [hres]
    constructor
    · intro f
      rw [mem_pySorted]
      exact hmem f
    · simp only [true_iff]
      rcases List.isEmpty_iff.not.1 hempty with h
      rcases List.exists_mem_of_ne_nil _ h with ⟨f, hf⟩
      exact ⟨f, (hmem f).1 hf⟩

/-- Witness for C3's amended theorem: one extra on-disk file is both
warned about and triggers the prompt. -/
theorem C3_verify_structure_amended_witness :
    ("extra.html" ∈ (verify_structure ["extra.html"]).warned
      ↔ "extra.html" ∈ fixer_target_files ["extra.html"]
          ∧ "extra.html" ∉ lessons.map Lesson.filename)
    ∧ ((verify_structure ["extra.html"]).prompted = true
      ↔ ∃ f ∈ fixer_target_files ["extra.html"], f ∉ lessons.map Lesson.filename) :=
  ⟨(C3_verify_structure_amended ["extra.html"]).1 "extra.html",
   (C3_verify_structure_amended ["extra.html"]).2⟩

/-! ## Batch driver file enumeration (C5) -/

namespace UpdateStructure

/-- File enumeration of `update_structure.process_all_html_files`:
`os.listdir` filtered by `filename.endswith('.html')`, then `.sort()`. -/
def html_files (listing : List String) : List String :=
  pySorted (listing.filter (fun n => sEnds n ".html"))

end UpdateStructure

namespace FixNavigation

/-- File enumeration of `CourseNavigationFixer.process_all_files`:
`glob("*.html")` minus `index.html` and underscore-prefixed names,
iterated as `sorted(html_files)`. -/
def html_files (listing : List String) : List String :=
  pySorted (fixer_target_files listing)

end FixNavigation

/-- C5 counterexample: the asset-injection pass enumerates `index.html`
and underscore-prefixed files too, contradicting the claimed exclusion. -/
theorem C5_counterexample :
    "index.html" ∈ UpdateStructure.html_files ["index.html", "_draft.html", "a.html"]
    ∧ "_draft.html" ∈ UpdateStructure.html_files ["index.html", "_draft.html", "a.html"] := by
  constructor <;> decide

/-- C5 (amended): the navigation pass enumerates exactly the HTML files
of the directory minus the landing page, underscore-prefixed and
dot-hidden names, in lexicographic filename order; the asset-injection
pass enumerates every name ending in `.html` (including `index.html` and
underscore-prefixed files), also in lexicographic filename order. -/
theorem C5_enumeration_amended (listing : List String) :
    (∀ n, n ∈ FixNavigation.html_files listing
        ↔ n ∈ listing ∧ sEnds n ".html" = true ∧ sStarts n "." = false
            ∧ n ≠ "index.html" ∧ sStarts n "_" = false)
    ∧ List.Pairwise (fun a b => sLe a b = true) (FixNavigation.html_files listing)
    ∧ (∀ n, n ∈ UpdateStructure.html_files listing
        ↔ n ∈ listing ∧ sEnds n ".html" = true)
    ∧ List.Pairwise (fun a b => sLe a b = true) (UpdateStructure.html_files listing) := by
  refine ⟨?_, sorted_pySorted _, ?_, sorted_pySorted _⟩
  · intro n
    rw [FixNavigation.html_files, mem_pySorted, fixer_target_files, glob_html,
      List.mem_filter, List.mem_filter]
    simp only [Bool.and_eq_true, Bool.not_eq_true', decide_eq_true_eq,
      decide_eq_false_iff_not]
    constructor
    · rintro ⟨⟨h1, h2, h3⟩, h4, h5⟩
      exact ⟨h1, h2, h3, h4, h5⟩
    · rintro ⟨h1, h2, h3, h4, h5⟩
      exact ⟨⟨h1, h2, h3⟩, h4, h5⟩
  · intro n
    rw [UpdateStructure.html_files, mem_pySorted, List.mem_filter]

/-- Witness for C5's amended theorem at a concrete listing. -/
theorem C5_enumeration_amended_witness :
    ("a.html" ∈ FixNavigation.html_files ["index.html", "_draft.html", "a.html"]
      ↔ "a.html" ∈ ["index.html", "_draft.html", "a.html"]
          ∧ sEnds "a.html" ".html" = true ∧ sStarts "a.html" "." = false
          ∧ "a.html" ≠ "index.html" ∧ sStarts "a.html" "_" = false)
    ∧ ("index.html" ∈ UpdateStructure.html_files ["index.html", "_draft.html", "a.html"]
      ↔ "index.html" ∈ ["index.html", "_draft.html", "a.html"]
          ∧ sEnds "index.html" ".html" = true) :=
  ⟨(C5_enumeration_amended ["index.html", "_draft.html", "a.html"]).1 "a.html",
   (C5_enumeration_amended ["index.html", "_draft.html", "a.html"]).2.2.1 "index.html"⟩

/-! ## String toolkit for the textual edits of `update_structure.py` -/

/-- Character-list strings (Python `str` content). -/
abbrev Str := List Char

/-- Literal string to char list. -/
def lit (s : String) : Str := s.toList

/-- An occurrence of `w` in `s` starting at index `i`. -/
def occAt (w s : Str) (i : Nat) : Prop := w <+: s.drop i

theorem infx_iff_occ (w s : Str) : w <:+: s ↔ ∃ i, occAt w s i := by
  constructor
  · rintro ⟨u, v, huv⟩
    refine ⟨u.length, ?_⟩
    rw [occAt, ← huv, List.append_assoc, List.drop_left]
    exact ⟨v, rfl⟩
  · rintro ⟨i, hv⟩
    rcases hv with ⟨v, hv⟩
    exact ⟨s.take i, v, by rw [List.append_assoc, hv, List.take_append_drop]⟩

theorem pref_total {p q s : Str} (hp : p <+: s) (hq : q <+: s) :
    p <+: q ∨ q <+: p := by
  have hp2 := List.prefix_iff_eq_take.1 hp
  have hq2 := List.prefix_iff_eq_take.1 hq
  rcases le_total p.length q.length with h | h
  · left
    rw [List.prefix_iff_eq_take, hq2, List.take_take]
    have hmin : p.length ⊓ q.length = p.length := by omega
    rw [hmin, ← hp2]
  · right
    rw [List.prefix_iff_eq_take, hp2, List.take_take]
    have hmin : q.length ⊓ p.length = q.length := by omega
    rw [hmin, ← hq2]

theorem suff_total {p q s : Str} (hp : p <:+ s) (hq : q <:+ s) :
    p <:+ q ∨ q <:+ p := by
  have h1 : p.reverse <+: s.reverse := List.reverse_prefix.2 hp
  have h2 : q.reverse <+: s.reverse := List.reverse_prefix.2 hq
  rcases pref_total h1 h2 with h | h
  · exact Or.inl (List.reverse_prefix.1 h)
  · exact Or.inr (List.reverse_prefix.1 h)

theorem pref_append_of_le {w a b : Str} (h : w <+: a ++ b) (hl : w.length ≤ a.length) :
    w <+: a := by
  have h2 := List.prefix_iff_eq_take.1 h
  rw [List.take_append_of_le_length hl] at h2
  exact List.prefix_iff_eq_take.2 h2

theorem pref_append_cases {p t b : Str} (h : p <+: t ++ b) : p <+: t ∨ t <+: p :=
  pref_total h ⟨b, rfl⟩

theorem pref_take_eq {w z : Str} (h : w <+: z) (k : Nat) (hk : k ≤ w.length) :
    w.take k = z.take k := by
  have h2 := List.prefix_iff_eq_take.1 h
  rw [h2, List.take_take]
  congr 1
  omega

/-- Decomposition of one occurrence inside an append: it lies in the left
part, in the right part, or spans the junction. -/
theorem occAt_append_cases {w x y : Str} {i : Nat} (h : occAt w (x ++ y) i) :
    (i + w.length ≤ x.length ∧ occAt w x i)
    ∨ (x.length ≤ i ∧ occAt w y (i - x.length))
    ∨ (i < x.length ∧ x.length < i + w.length
        ∧ w.take (x.length - i) <:+ x ∧ w.drop (x.length - i) <+: y) := by
  rcases le_or_lt x.length i with hi | hi
  · refine Or.inr (Or.inl ⟨hi, ?_⟩)
    rw [occAt] at h ⊢
    have : i = x.length + (i - x.length) := by omega
    rw [this, List.drop_append] at h
    exact h
  · have hdrop : (x ++ y).drop i = x.drop i ++ y :=
      List.drop_append_of_le_length (le_of_lt hi)
    rw [occAt, hdrop] at h
    rcases le_or_lt (i + w.length) x.length with hlen | hlen
    · refine Or.inl ⟨hlen, ?_⟩
      rw [occAt]
      exact pref_append_of_le h (by rw [List.length_drop]; omega)
    · refine Or.inr (Or.inr ⟨hi, hlen, ?_, ?_⟩)
      · have hk : x.length - i ≤ w.length := by omega
        have h1 : w.take (x.length - i) = (x.drop i ++ y).take (x.length - i) :=
          pref_take_eq h _ hk
        have h2 : (x.drop i ++ y).take (x.length - i) = x.drop i := by
          have : x.length - i = (x.drop i).length := by
            rw [List.length_drop]
          rw [this, List.take_left]
        rw [h1, h2]
        exact List.drop_suffix i x
      · rcases h with ⟨r, hr⟩
        have hsplit : w = w.take (x.length - i) ++ w.drop (x.length - i) :=
          (List.take_append_drop _ w).symm
        have htk : w.take (x.length - i) = x.drop i := by
          have hk : x.length - i ≤ w.length := by omega
          have h1 : w.take (x.length - i) = (x.drop i ++ y).take (x.length - i) :=
            pref_take_eq ⟨r, hr⟩ _ hk
          have h2 : (x.drop i ++ y).take (x.length - i) = x.drop i := by
            have : x.length - i = (x.drop i).length := by
              rw [List.length_drop]
            rw [this, List.take_left]
          rw [h1, h2]
        rw [hsplit, htk, List.append_assoc] at hr
        exact ⟨r, List.append_cancel_left hr⟩

/-- Insertion of `t` into `s` at position `p`. -/
def insAt (s t : Str) (p : Nat) : Str := s.take p ++ t ++ s.drop p

theorem insAt_length {s t : Str} {p : Nat} (hp : p ≤ s.length) :
    (insAt s t p).length = s.length + t.length := by
  rw [insAt]
  simp only [List.length_append, List.length_take, List.length_drop]
  omega

theorem insAt_ne {s t : Str} {p : Nat} (hp : p ≤ s.length) (ht : t ≠ []) :
    insAt s t p ≠ s := by
  intro hEq
  have h1 : (insAt s t p).length = s.length + t.length := insAt_length hp
  rw [hEq] at h1
  have h2 : 0 < t.length := List.length_pos.2 ht
  omega

theorem infx_append_left {w a : Str} (h : w <:+: a) (b : Str) : w <:+: a ++ b := by
  rcases h with ⟨u, v, huv⟩
  exact ⟨u, v ++ b, by rw [← huv]; simp [List.append_assoc]⟩

theorem infx_append_right (a : Str) {w b : Str} (h : w <:+: b) : w <:+: a ++ b := by
  rcases h with ⟨u, v, huv⟩
  exact ⟨a ++ u, v, by rw [← huv]; simp [List.append_assoc]⟩

theorem pref_drop_infx {t w : Str} {k : Nat} (h : t <+: w.drop k) : t <:+: w := by
  rcases h with ⟨r, hr⟩
  exact ⟨w.take k, r, by rw [List.append_assoc, hr, List.take_append_drop]⟩

/-- Occurrences of `w` in `a ++ b` survive an insertion at the junction
provided no proper split of `w` straddles the junction. -/
theorem pres_insert {w a b t : Str}
    (hspan : ∀ k, 0 < k → k < w.length → w.take k <:+ a → w.drop k <+: b → False)
    (h : w <:+: a ++ b) : w <:+: a ++ (t ++ b) := by
  rcases (infx_iff_occ w (a ++ b)).1 h with ⟨i, hocc⟩
  rcases occAt_append_cases hocc with ⟨hle, ho⟩ | ⟨hge, ho⟩ | ⟨h1, h2, htake, hdrop⟩
  · exact infx_append_left ((infx_iff_occ w a).2 ⟨i, ho⟩) _
  · exact infx_append_right _ (infx_append_right _ ((infx_iff_occ w b).2 ⟨i - a.length, ho⟩))
  · exact absurd hdrop (fun hd => hspan (a.length - i) (by omega) (by omega) htake hd)

theorem pres_insert_after {w a b t A : Str} (hA : A <:+ a)
    (hcond : ∀ k, 0 < k → k < w.length → ¬ (w.take k <:+ A) ∧ ¬ (A <:+ w.take k))
    (h : w <:+: a ++ b) : w <:+: a ++ (t ++ b) := by
  refine pres_insert (fun k hk0 hk1 htk _ => ?_) h
  rcases suff_total htk hA with hc | hc
  · exact (hcond k hk0 hk1).1 hc
  · exact (hcond k hk0 hk1).2 hc

theorem pres_insert_before {w a b t A : Str} (hA : A <+: b)
    (hcond : ∀ k, 0 < k → k < w.length → ¬ (w.drop k <+: A) ∧ ¬ (A <+: w.drop k))
    (h : w <:+: a ++ b) : w <:+: a ++ (t ++ b) := by
  refine pres_insert (fun k hk0 hk1 _ hdk => ?_) h
  rcases pref_total hdk hA with hc | hc
  · exact (hcond k hk0 hk1).1 hc
  · exact (hcond k hk0 hk1).2 hc

/-- Localization of an occurrence in `a ++ t ++ b` to `a` or to `b`,
when `w` can neither sit inside `t` nor straddle either junction. -/
theorem occAt_ins_cases {w a t b : Str} {i : Nat}
    (hwt : ¬ w <:+: t) (htw : ¬ t <:+: w)
    (hdrop : ∀ k, 0 < k → k < w.length → ¬ (w.drop k <+: t))
    (hspan : ∀ k, 0 < k → k < w.length → w.take k <:+ t → w.drop k <+: b → False)
    (h : occAt w (a ++ (t ++ b)) i) :
    (i + w.length ≤ a.length ∧ occAt w a i)
    ∨ (∃ j, i = a.length + t.length + j ∧ occAt w b j) := by
  rcases occAt_append_cases h with ⟨hle, ho⟩ | ⟨hge, ho⟩ | ⟨h1, h2, htake, hdropA⟩
  · exact Or.inl ⟨hle, ho⟩
  · rcases occAt_append_cases ho with ⟨hle2, ho2⟩ | ⟨hge2, ho2⟩ | ⟨g1, g2, gtake, gdrop⟩
    · exact absurd ((infx_iff_occ w t).2 ⟨_, ho2⟩) hwt
    · exact Or.inr ⟨i - a.length - t.length, by omega, ho2⟩
    · exact absurd gdrop
        (fun hd => hspan (t.length - (i - a.length)) (by omega) (by omega) gtake hd)
  · rcases pref_append_cases hdropA with hc | hc
    · exact absurd hc (hdrop (a.length - i) (by omega) (by omega))
    · exact absurd (pref_drop_infx hc) htw

/-- Absence of `w` is preserved by an insertion `w` cannot interact with. -/
theorem abs_insert {w a t b : Str}
    (hwt : ¬ w <:+: t) (htw : ¬ t <:+: w)
    (hdrop : ∀ k, 0 < k → k < w.length → ¬ (w.drop k <+: t))
    (hspan : ∀ k, 0 < k → k < w.length → w.take k <:+ t → w.drop k <+: b → False)
    (h : ¬ w <:+: a ++ b) : ¬ w <:+: a ++ (t ++ b) := by
  intro hc
  rcases (infx_iff_occ _ _).1 hc with ⟨i, hocc⟩
  rcases occAt_ins_cases hwt htw hdrop hspan hocc with ⟨_, ho⟩ | ⟨j, _, ho⟩
  · exact h (infx_append_left ((infx_iff_occ w a).2 ⟨i, ho⟩) _)
  · exact h (infx_append_right _ ((infx_iff_occ w b).2 ⟨j, ho⟩))

theorem abs_insert_plain {w a t b : Str}
    (hwt : ¬ w <:+: t) (htw : ¬ t <:+: w)
    (hdrop : ∀ k, 0 < k → k < w.length → ¬ (w.drop k <+: t))
    (htake : ∀ k, 0 < k → k < w.length → ¬ (w.take k <:+ t))
    (h : ¬ w <:+: a ++ b) : ¬ w <:+: a ++ (t ++ b) :=
  abs_insert hwt htw hdrop (fun k hk0 hk1 htk _ => htake k hk0 hk1 htk) h

theorem abs_insert_before {w a t b A : Str} (hA : A <+: b)
    (hwt : ¬ w <:+: t) (htw : ¬ t <:+: w)
    (hdrop : ∀ k, 0 < k → k < w.length → ¬ (w.drop k <+: t))
    (hcond : ∀ k, 0 < k → k < w.length → w.take k <:+ t →
        ¬ (w.drop k <+: A) ∧ ¬ (A <+: w.drop k))
    (h : ¬ w <:+: a ++ b) : ¬ w <:+: a ++ (t ++ b) := by
  refine abs_insert hwt htw hdrop (fun k hk0 hk1 htk hdk => ?_) h
  rcases pref_total hdk hA with hc | hc
  · exact (hcond k hk0 hk1 htk).1 hc
  · exact (hcond k hk0 hk1 htk).2 hc

/-! ## The six textual edits of `update_structure.update_html_file` -/

namespace UpdateStructure

/-- Marker of edit 1 (`'enhanced.css' in content`). -/
def mEnh : Str := lit "enhanced.css"
/-- Marker of edits 2 and 3 (`'course-enhancements.js' in content`). -/
def mCour : Str := lit "course-enhancements.js"
/-- Marker of edit 3 (`'clipboard.js' in content`). -/
def mClip : Str := lit "clipboard.js"
/-- Marker of edits 4 and 5 (`'skip-to-main' in content`). -/
def mSkip : Str := lit "skip-to-main"
/-- Marker of edit 5 (`'progress-indicator' in content`). -/
def mProg : Str := lit "progress-indicator"
/-- Marker of edit 6 (`'<main' in content`). -/
def mMain : Str := lit "<main"
/-- Guard word of edit 6 (`'<h1>' in content`). -/
def wH1 : Str := lit "<h1>"

/-- Anchor `</head>` of edits 2 and 3. -/
def aHead : Str := lit "</head>"
/-- Anchor `<body>` of edit 4. -/
def aBody : Str := lit "<body>"
/-- Anchor `</body>` of edit 6. -/
def aBodyClose : Str := lit "</body>"
/-- The literal part `<h1` of edit 6's pattern `<h1[^>]*>`. -/
def aH1 : Str := lit "<h1"
/-- The literal head of edit 1's pattern, before `[^"]*`. -/
def linkPre : Str := lit "<link href=\""
/-- The literal tail of edit 1's pattern, after `[^"]*` (the `\.` is a
literal dot). -/
def linkSuf : Str := lit "styles/main.css\" rel=\"stylesheet\"/>"
/-- Edit 3's anchor pattern up to its unescaped `.` (which `re` treats as
any-character-but-newline). -/
def scriptA : Str := lit "    <script src=\"/js/course-enhancements"
/-- Edit 3's anchor pattern after its unescaped `.`. -/
def scriptB : Str := lit "js\" defer></script>"
/-- Edit 5's anchor line (no metacharacters, a pure literal). -/
def skipLine : Str := lit "    <a href=\"#main-content\" class=\"skip-to-main\">Skip to main content</a>"

/-- Text inserted after the `main.css` link by edit 1. -/
def tCss : Str := lit "\n    <link href=\"/styles/enhanced.css\" rel=\"stylesheet\"/>"
/-- Text inserted before `</head>` by edit 2. -/
def tCour : Str := lit "    <script src=\"/js/course-enhancements.js\" defer></script>\n"
/-- Text inserted after the course-enhancements script line by edit 3. -/
def tClipA : Str := lit "\n    <script src=\"/js/clipboard.js\" defer></script>"
/-- Text inserted before `</head>` by edit 3's fallback branch. -/
def tClipB : Str := lit "    <script src=\"/js/clipboard.js\" defer></script>\n"
/-- Text inserted after `<body>` by edit 4. -/
def tSkip : Str := lit "\n    <!-- Skip to main content for accessibility -->\n    <a href=\"#main-content\" class=\"skip-to-main\">Skip to main content</a>"
/-- Text inserted after the skip link by edit 5. -/
def tProg : Str := lit "\n    \n    <!-- Progress indicator -->\n    <div class=\"progress-indicator\" role=\"progressbar\" aria-label=\"Page scroll progress\">\n        <div class=\"progress-bar\"></div>\n    </div>"
/-- Text inserted before the first `<h1...>` by edit 6. -/
def tMainOpen : Str := lit "    \n    <main id=\"main-content\">\n    "
/-- Text inserted before `</body>` by edit 6. -/
def tMainClose : Str := lit "    </main>\n"

end UpdateStructure

/-- Python's `w in s` substring test on char lists. -/
def containsSub (w : Str) : Str → Bool
  | [] => List.isPrefixOf w []
  | c :: rest => List.isPrefixOf w (c :: rest) || containsSub w rest

theorem infx_nil {w : Str} (h : w <:+: ([] : Str)) : w = [] := by
  rcases h with ⟨u, v, huv⟩
  rcases List.append_eq_nil.1 huv with ⟨h1, _⟩
  exact (List.append_eq_nil.1 h1).2

theorem containsSub_iff (w : Str) : ∀ s, containsSub w s = true ↔ w <:+: s := by
  intro s
  induction s with
  | nil =>
    rw [containsSub, List.isPrefixOf_iff_prefix]
    constructor
    · intro h; exact h.isInfix
    · intro h; rw [infx_nil h]
  | cons c rest ih =>
    rw [containsSub, Bool.or_eq_true, List.isPrefixOf_iff_prefix, ih, List.infix_cons_iff]

/-- Leftmost occurrence index of `w` in `s` (`re` scanning order). -/
def firstOcc (w : Str) : Str → Option Nat
  | [] => if List.isPrefixOf w [] then some 0 else none
  | c :: rest =>
      if List.isPrefixOf w (c :: rest) then some 0
      else (firstOcc w rest).map (· + 1)

theorem firstOcc_none_iff (w : Str) : ∀ s, firstOcc w s = none ↔ ¬ w <:+: s := by
  intro s
  induction s with
  | nil =>
    rw [firstOcc]
    by_cases h : List.isPrefixOf w ([] : Str) = true
    · rw [if_pos h]
      have hw : w = [] := List.prefix_nil.1 (List.isPrefixOf_iff_prefix.1 h)
      constructor
      · intro hc; cases hc
      · intro hc
        exact absurd ⟨[], [], by simp [hw]⟩ hc
    · rw [if_neg h]
      have h2 : ¬ w <+: ([] : Str) := fun hc => h (List.isPrefixOf_iff_prefix.2 hc)
      have hw : w ≠ [] := fun hEq => h2 (hEq ▸ List.nil_prefix)
      constructor
      · intro _ hc; exact hw (infx_nil hc)
      · intro _; rfl
  | cons c rest ih =>
    rw [firstOcc, List.infix_cons_iff]
    by_cases h : List.isPrefixOf w (c :: rest) = true
    · rw [if_pos h]
      have hp := List.isPrefixOf_iff_prefix.1 h
      constructor
      · intro hc; cases hc
      · intro hc; exact absurd (Or.inl hp) hc
    · rw [if_neg h]
      have h2 : ¬ w <+: c :: rest := fun hc => h (List.isPrefixOf_iff_prefix.2 hc)
      rw [Option.map_eq_none', ih]
      constructor
      · intro hn hc
        rcases hc with hc | hc
        · exact h2 hc
        · exact hn hc
      · intro hn hc
        exact hn (Or.inr hc)

theorem firstOcc_some_occ (w : Str) :
    ∀ s i, firstOcc w s = some i → occAt w s i := by
  intro s
  induction s with
  | nil =>
    intro i h
    rw [firstOcc] at h
    by_cases hp : List.isPrefixOf w ([] : Str) = true
    · rw [if_pos hp] at h
      cases h
      rw [occAt]
      exact List.isPrefixOf_iff_prefix.1 hp
    · rw [if_neg hp] at h
      cases h
  | cons c rest ih =>
    intro i h
    rw [firstOcc] at h
    by_cases hp : List.isPrefixOf w (c :: rest) = true
    · rw [if_pos hp] at h
      cases h
      rw [occAt, List.drop_zero]
      exact List.isPrefixOf_iff_prefix.1 hp
    · rw [if_neg hp] at h
      rcases Option.map_eq_some'.1 h with ⟨j, hj, rfl⟩
      have := ih j hj
      rw [occAt] at this ⊢
      simpa using this

theorem occAt_bounds {w s : Str} {i : Nat} (h : occAt w s i) (hw : w ≠ []) :
    i + w.length ≤ s.length := by
  rw [occAt] at h
  have h1 : w.length ≤ (s.drop i).length := h.length_le
  rw [List.length_drop] at h1
  rcases le_or_lt i s.length with h2 | h2
  · omega
  · exfalso
    have : s.drop i = [] := List.drop_eq_nil_of_le (le_of_lt h2)
    rw [this] at h
    exact hw (List.prefix_nil.1 h)

/-- `re.sub(anchor, repl ++ anchor, s, count=1)` when the replacement puts
text before the (literal) anchor. -/
def subBefore (anchor t s : Str) : Str :=
  match firstOcc anchor s with
  | none => s
  | some i => insAt s t i

/-- `re.sub(anchor, anchor ++ repl, s, count=1)` when the replacement puts
text after the (literal) anchor. -/
def subAfter (anchor t s : Str) : Str :=
  match firstOcc anchor s with
  | none => s
  | some i => insAt s t (i + anchor.length)

theorem subBefore_eq_self_iff {anchor t s : Str} (ha : anchor ≠ []) (ht : t ≠ []) :
    subBefore anchor t s = s ↔ firstOcc anchor s = none := by
  rw [subBefore]
  cases hf : firstOcc anchor s with
  | none => simp
  | some i =>
    simp only [iff_false, reduceCtorEq]
    have hocc := firstOcc_some_occ anchor s i hf
    have hb := occAt_bounds hocc ha
    exact fun hc => insAt_ne (by omega) ht hc

theorem subAfter_eq_self_iff {anchor t s : Str} (ha : anchor ≠ []) (ht : t ≠ []) :
    subAfter anchor t s = s ↔ firstOcc anchor s = none := by
  rw [subAfter]
  cases hf : firstOcc anchor s with
  | none => simp
  | some i =>
    simp only [iff_false, reduceCtorEq]
    have hocc := firstOcc_some_occ anchor s i hf
    have hb := occAt_bounds hocc ha
    exact fun hc => insAt_ne (by omega) ht hc

theorem occAt_split {w s : Str} {i : Nat} (h : occAt w s i) (hw : w ≠ []) :
    s = s.take i ++ (w ++ s.drop (i + w.length))
    ∧ s.take (i + w.length) = s.take i ++ w
    ∧ s.drop (i + w.length) = (s.drop i).drop w.length := by
  rw [occAt] at h
  rcases h with ⟨r, hr⟩
  have hb : i + w.length ≤ s.length := occAt_bounds (w := w) (by rw [occAt]; exact ⟨r, hr⟩) hw
  have hi : i ≤ s.length := by omega
  have htl : (s.take i).length = i := by
    rw [List.length_take]; omega
  have hs : s = s.take i ++ (w ++ r) := by
    conv_lhs => rw [← List.take_append_drop i s]
    rw [hr]
  have hdrop2 : s.drop (i + w.length) = r := by
    conv_lhs => rw [hs]
    have : i + w.length = (s.take i).length + w.length := by omega
    rw [this, ← List.append_assoc, ← List.length_append, List.drop_left]
  refine ⟨by rw [hdrop2]; exact hs, ?_, ?_⟩
  · conv_lhs => rw [hs]
    have : i + w.length = ((s.take i) ++ w).length := by
      rw [List.length_append]; omega
    rw [← List.append_assoc, this, List.take_left]
  · rw [← hr, hdrop2, List.drop_left]

theorem subBefore_shape (anchor t s : Str) (ha : anchor ≠ []) :
    subBefore anchor t s = s
    ∨ ∃ a b, s = a ++ b ∧ subBefore anchor t s = a ++ (t ++ b) ∧ anchor <+: b := by
  rw [subBefore]
  cases hf : firstOcc anchor s with
  | none => exact Or.inl rfl
  | some i =>
    have hocc := firstOcc_some_occ anchor s i hf
    refine Or.inr ⟨s.take i, s.drop i, (List.take_append_drop i s).symm, ?_, hocc⟩
    show s.take i ++ t ++ s.drop i = s.take i ++ (t ++ s.drop i)
    rw [List.append_assoc]

theorem subAfter_shape (anchor t s : Str) (ha : anchor ≠ []) :
    subAfter anchor t s = s
    ∨ ∃ a b, s = a ++ b ∧ subAfter anchor t s = a ++ (t ++ b) ∧ anchor <:+ a := by
  rw [subAfter]
  cases hf : firstOcc anchor s with
  | none => exact Or.inl rfl
  | some i =>
    have hocc := firstOcc_some_occ anchor s i hf
    rcases occAt_split hocc ha with ⟨hs, htake, hdrop⟩
    refine Or.inr ⟨s.take (i + anchor.length), s.drop (i + anchor.length), ?_, ?_, ?_⟩
    · rw [List.take_append_drop]
    · show s.take (i + anchor.length) ++ t ++ s.drop (i + anchor.length)
          = s.take (i + anchor.length) ++ (t ++ s.drop (i + anchor.length))
      rw [List.append_assoc]
    · rw [htake]
      exact ⟨s.take i, rfl⟩

/-- Scan start positions left to right, as `re` does for leftmost match. -/
def findFirstIdx (p : Nat → Bool) : Str → Nat → Option Nat
  | [], _ => none
  | _ :: rest, i => if p i then some i else findFirstIdx p rest (i + 1)

theorem findFirstIdx_none (p : Nat → Bool) :
    ∀ (l : Str) (i : Nat), findFirstIdx p l i = none →
      ∀ k, k < l.length → p (i + k) = false := by
  intro l
  induction l with
  | nil =>
    intro i _ k hk
    exact absurd hk (by simp)
  | cons c rest ih =>
    intro i h k hk
    rw [findFirstIdx] at h
    by_cases hp : p i = true
    · rw [if_pos hp] at h; cases h
    · rw [if_neg hp] at h
      cases k with
      | zero => simpa using hp
      | succ n =>
        have h2 : i + (n + 1) = i + 1 + n := by omega
        rw [h2]
        refine ih (i + 1) h n ?_
        simp only [List.length_cons] at hk
        omega

theorem findFirstIdx_some (p : Nat → Bool) :
    ∀ (l : Str) (i j : Nat), findFirstIdx p l i = some j → p j = true := by
  intro l
  induction l with
  | nil => intro i j h; cases h
  | cons c rest ih =>
    intro i j h
    rw [findFirstIdx] at h
    by_cases hp : p i = true
    · rw [if_pos hp] at h
      cases h
      exact hp
    · rw [if_neg hp] at h
      exact ih (i + 1) j h

namespace UpdateStructure

/-! ### Edit 6's pattern `<h1[^>]*>` -/

/-- Whether `<h1[^>]*>` matches at position `i`: the literal `<h1` there,
and some later `>` to end the match. -/
def matchH1At (s : Str) (i : Nat) : Bool :=
  List.isPrefixOf aH1 (s.drop i) && (s.drop (i + 3)).contains '>'

/-- Leftmost match position of `<h1[^>]*>`. -/
def findH1 (s : Str) : Option Nat := findFirstIdx (fun i => matchH1At s i) s 0

/-- Insertion of `t` before the leftmost `<h1[^>]*>` match
(edit 6's replacement is new text followed by `\1`). -/
def subH1Before (t s : Str) : Str :=
  match findH1 s with
  | none => s
  | some i => insAt s t i

theorem matchH1At_occ {s : Str} {i : Nat} (h : matchH1At s i = true) :
    occAt aH1 s i := by
  rw [matchH1At, Bool.and_eq_true] at h
  rw [occAt]
  exact List.isPrefixOf_iff_prefix.1 h.1

theorem matchH1At_of_wH1 {s : Str} {i : Nat} (h : occAt wH1 s i) :
    matchH1At s i = true := by
  rw [occAt] at h
  rcases h with ⟨r, hr⟩
  rw [matchH1At, Bool.and_eq_true]
  constructor
  · rw [List.isPrefixOf_iff_prefix, ← hr]
    exact ⟨'>' :: r, rfl⟩
  · have h3 : s.drop (i + 3) = '>' :: r := by
      have h4 : s.drop (i + 3) = (s.drop i).drop 3 := by
        rw [List.drop_drop]
      rw [h4, ← hr]
      rfl
    rw [h3]
    simp

theorem findH1_isSome_of_wH1 {s : Str} (h : wH1 <:+: s) : findH1 s ≠ none := by
  rcases (infx_iff_occ wH1 s).1 h with ⟨i, hocc⟩
  have hm := matchH1At_of_wH1 hocc
  have hb := occAt_bounds hocc (by decide)
  intro hc
  have := findFirstIdx_none (fun i => matchH1At s i) s 0 hc i
    (by
      have : wH1.length = 4 := by decide
      omega)
  simp only [Nat.zero_add] at this
  rw [hm] at this
  cases this

theorem subH1Before_eq_self_iff {t s : Str} (ht : t ≠ []) :
    subH1Before t s = s ↔ findH1 s = none := by
  rw [subH1Before]
  cases hf : findH1 s with
  | none => simp
  | some i =>
    simp only [iff_false, reduceCtorEq]
    have hm := findFirstIdx_some (fun i => matchH1At s i) s 0 i hf
    have hocc := matchH1At_occ hm
    have hb := occAt_bounds hocc (by decide)
    exact fun hc => insAt_ne (by omega) ht hc

theorem subH1Before_shape (t s : Str) :
    subH1Before t s = s
    ∨ ∃ a b, s = a ++ b ∧ subH1Before t s = a ++ (t ++ b) ∧ aH1 <+: b := by
  rw [subH1Before]
  cases hf : findH1 s with
  | none => exact Or.inl rfl
  | some i =>
    have hm := findFirstIdx_some (fun i => matchH1At s i) s 0 i hf
    have hocc := matchH1At_occ hm
    refine Or.inr ⟨s.take i, s.drop i, (List.take_append_drop i s).symm, ?_, hocc⟩
    show s.take i ++ t ++ s.drop i = s.take i ++ (t ++ s.drop i)
    rw [List.append_assoc]

/-! ### Edit 3's pattern (one unescaped `.` wildcard) -/

/-- Whether edit 3's script-line pattern matches at position `i`: the
literal parts around one any-char-but-newline wildcard. -/
def matchScriptAt (s : Str) (i : Nat) : Bool :=
  List.isPrefixOf scriptA (s.drop i)
    && (match s.drop (i + scriptA.length) with
        | [] => false
        | c :: rest2 => !(c = '\n') && List.isPrefixOf scriptB rest2)

/-- Leftmost match position of edit 3's script-line pattern. -/
def findScript (s : Str) : Option Nat := findFirstIdx (fun i => matchScriptAt s i) s 0

/-- Insertion of `t` after the leftmost script-line match. -/
def subScriptAfter (t s : Str) : Str :=
  match findScript s with
  | none => s
  | some i => insAt s t (i + scriptA.length + 1 + scriptB.length)

/-- Existence of a match of edit 3's script-line pattern. -/
def HasScript (s : Str) : Prop :=
  ∃ u c v, s = u ++ (scriptA ++ ([c] ++ (scriptB ++ v))) ∧ c ≠ '\n'

theorem matchScriptAt_iff (s : Str) (i : Nat) :
    matchScriptAt s i = true
      ↔ ∃ c v, s.drop i = scriptA ++ ([c] ++ (scriptB ++ v)) ∧ c ≠ '\n' := by
  rw [matchScriptAt, Bool.and_eq_true, List.isPrefixOf_iff_prefix]
  constructor
  · rintro ⟨⟨r, hr⟩, h2⟩
    have hdrop : s.drop (i + scriptA.length) = r := by
      have h4 : s.drop (i + scriptA.length) = (s.drop i).drop scriptA.length := by
        rw [List.drop_drop]
      rw [h4, ← hr, List.drop_left]
    rw [hdrop] at h2
    cases r with
    | nil => cases h2
    | cons c rest2 =>
      rw [Bool.and_eq_true, List.isPrefixOf_iff_prefix] at h2
      rcases h2 with ⟨hc, ⟨v, hv⟩⟩
      refine ⟨c, v, ?_, ?_⟩
      · rw [← hr, ← hv]
        rfl
      · intro hEq
        rw [hEq] at hc
        simp at hc
  · rintro ⟨c, v, hd, hc⟩
    constructor
    · exact ⟨[c] ++ (scriptB ++ v), hd.symm⟩
    · have hdrop : s.drop (i + scriptA.length) = c :: (scriptB ++ v) := by
        have h4 : s.drop (i + scriptA.length) = (s.drop i).drop scriptA.length := by
          rw [List.drop_drop]
        rw [h4, hd, List.drop_left]
        rfl
      rw [hdrop]
      simp only [Bool.and_eq_true, List.isPrefixOf_iff_prefix]
      exact ⟨by simpa using hc, ⟨v, rfl⟩⟩

theorem hasScript_iff (s : Str) : HasScript s ↔ ∃ i, matchScriptAt s i = true := by
  constructor
  · rintro ⟨u, c, v, hs, hc⟩
    refine ⟨u.length, (matchScriptAt_iff s u.length).2 ⟨c, v, ?_, hc⟩⟩
    rw [hs, List.drop_left]
  · rintro ⟨i, hm⟩
    rcases (matchScriptAt_iff s i).1 hm with ⟨c, v, hd, hc⟩
    exact ⟨s.take i, c, v, by rw [← hd, List.take_append_drop], hc⟩

theorem findScript_none {s : Str} (h : findScript s = none) : ¬ HasScript s := by
  intro hc
  rcases (hasScript_iff s).1 hc with ⟨i, hm⟩
  have hib : i < s.length := by
    rcases (matchScriptAt_iff s i).1 hm with ⟨c, v, hd, _⟩
    have : (s.drop i).length = scriptA.length + (1 + (scriptB.length + v.length)) := by
      rw [hd]
      simp [List.length_append]
      omega
    rw [List.length_drop] at this
    have hA : 0 < scriptA.length := by decide
    omega
  have := findFirstIdx_none (fun i => matchScriptAt s i) s 0 h i hib
  simp only [Nat.zero_add] at this
  rw [hm] at this
  cases this

theorem subScriptAfter_eq_self_iff {t s : Str} (ht : t ≠ []) :
    subScriptAfter t s = s ↔ findScript s = none := by
  rw [subScriptAfter]
  cases hf : findScript s with
  | none => simp
  | some i =>
    simp only [iff_false, reduceCtorEq]
    have hm := findFirstIdx_some (fun i => matchScriptAt s i) s 0 i hf
    rcases (matchScriptAt_iff s i).1 hm with ⟨c, v, hd, _⟩
    have hlen : (s.drop i).length = scriptA.length + (1 + (scriptB.length + v.length)) := by
      rw [hd]
      simp [List.length_append]
      omega
    rw [List.length_drop] at hlen
    exact fun hc => insAt_ne (by omega) ht hc

theorem subScriptAfter_shape (t s : Str) :
    subScriptAfter t s = s
    ∨ ∃ a b, s = a ++ b ∧ subScriptAfter t s = a ++ (t ++ b) ∧ scriptB <:+ a := by
  rw [subScriptAfter]
  cases hf : findScript s with
  | none => exact Or.inl rfl
  | some i =>
    have hm := findFirstIdx_some (fun i => matchScriptAt s i) s 0 i hf
    rcases (matchScriptAt_iff s i).1 hm with ⟨c, v, hd, _⟩
    have hocc : occAt scriptB s (i + scriptA.length + 1) := by
      rw [occAt]
      have h5 : s.drop (i + scriptA.length + 1) = (s.drop i).drop (scriptA.length + 1) := by
        rw [List.drop_drop]
        congr 1
      rw [h5, hd]
      have h2 : scriptA ++ ([c] ++ (scriptB ++ v))
          = (scriptA ++ [c]) ++ (scriptB ++ v) := by
        rw [List.append_assoc]
      rw [h2]
      have h3 : scriptA.length + 1 = (scriptA ++ [c]).length := by
        simp
      rw [h3, List.drop_left]
      exact ⟨v, rfl⟩
    rcases occAt_split hocc (by decide) with ⟨hs, htake, hdrop⟩
    have hpos : i + scriptA.length + 1 + scriptB.length
        = (i + scriptA.length + 1) + scriptB.length := by omega
    refine Or.inr ⟨s.take (i + scriptA.length + 1 + scriptB.length),
      s.drop (i + scriptA.length + 1 + scriptB.length), ?_, ?_, ?_⟩
    · rw [List.take_append_drop]
    · show s.take (i + scriptA.length + 1 + scriptB.length) ++ t
            ++ s.drop (i + scriptA.length + 1 + scriptB.length)
          = s.take (i + scriptA.length + 1 + scriptB.length)
            ++ (t ++ s.drop (i + scriptA.length + 1 + scriptB.length))
      rw [List.append_assoc]
    · rw [hpos, htake]
      exact ⟨s.take (i + scriptA.length + 1), rfl⟩

end UpdateStructure

theorem le_takeWhile_of_take (p : Char → Bool) :
    ∀ (l : Str) (k : Nat), k ≤ l.length → (∀ c ∈ l.take k, p c = true) →
      k ≤ (l.takeWhile p).length := by
  intro l
  induction l with
  | nil => intro k hk _; simpa using hk
  | cons c rest ih =>
    intro k hk hall
    cases k with
    | zero => exact Nat.zero_le _
    | succ n =>
      have hc : p c = true := hall c (by simp [List.take_succ_cons])
      rw [List.takeWhile_cons_of_pos hc]
      simp only [List.length_cons]
      have := ih n (by simpa using hk)
        (fun d hd => hall d (by simp [List.take_succ_cons, hd]))
      omega

theorem take_of_le_takeWhile (p : Char → Bool) :
    ∀ (l : Str) (k : Nat), k ≤ (l.takeWhile p).length →
      ∀ c ∈ l.take k, p c = true := by
  intro l
  induction l with
  | nil => intro k _ c hc; simp at hc
  | cons x rest ih =>
    intro k hk c hc
    by_cases hx : p x = true
    · rw [List.takeWhile_cons_of_pos hx] at hk
      simp only [List.length_cons] at hk
      cases k with
      | zero => simp at hc
      | succ n =>
        rw [List.take_succ_cons, List.mem_cons] at hc
        rcases hc with rfl | hc
        · exact hx
        · exact ih n (by omega) c hc
    · rw [List.takeWhile_cons_of_neg hx] at hk
      simp only [List.length_nil, Nat.le_zero] at hk
      subst hk
      simp at hc

namespace UpdateStructure

/-! ### Edit 1's pattern `<link href="[^"]*styles/main\.css" rel="stylesheet"/>` -/

/-- Length of the greedy `[^"]*` run. -/
def nonQuoteLen (s : Str) : Nat := (s.takeWhile (fun c => !(c = '"'))).length

/-- End position (exclusive) of a greedy match of edit 1's pattern
starting at `i`: `re` first consumes the maximal non-quote run, then
backtracks until the literal tail fits. -/
def linkEndAt (s : Str) (i : Nat) : Option Nat :=
  if List.isPrefixOf linkPre (s.drop i) then
    match (List.range (nonQuoteLen (s.drop (i + linkPre.length)) + 1)).reverse.find?
        (fun k => List.isPrefixOf linkSuf (s.drop (i + linkPre.length + k))) with
    | none => none
    | some k => some (i + linkPre.length + k + linkSuf.length)
  else none

/-- End position of the leftmost match of edit 1's pattern. -/
def findLink (s : Str) : Option Nat :=
  match findFirstIdx (fun i => (linkEndAt s i).isSome) s 0 with
  | none => none
  | some i => linkEndAt s i

/-- Insertion of `t` after the leftmost match of edit 1's pattern. -/
def subLink (t s : Str) : Str :=
  match findLink s with
  | none => s
  | some e => insAt s t e

/-- A match of edit 1's pattern at position `i`. -/
def MatchLinkAt (s : Str) (i : Nat) : Prop :=
  ∃ mid v, s.drop i = linkPre ++ (mid ++ (linkSuf ++ v)) ∧ ∀ c ∈ mid, c ≠ '"'

/-- Existence of a match of edit 1's pattern anywhere in `s`. -/
def HasLink (s : Str) : Prop :=
  ∃ u mid v, s = u ++ (linkPre ++ (mid ++ (linkSuf ++ v))) ∧ ∀ c ∈ mid, c ≠ '"'

theorem linkEndAt_some_decomp {s : Str} {i e : Nat} (h : linkEndAt s i = some e) :
    ∃ mid v, s.drop i = linkPre ++ (mid ++ (linkSuf ++ v)) ∧ (∀ c ∈ mid, c ≠ '"')
      ∧ e = i + linkPre.length + mid.length + linkSuf.length := by
  rw [linkEndAt] at h
  by_cases hp : List.isPrefixOf linkPre (s.drop i) = true
  · rw [if_pos hp] at h
    cases hfind : (List.range (nonQuoteLen (s.drop (i + linkPre.length)) + 1)).reverse.find?
        (fun k => List.isPrefixOf linkSuf (s.drop (i + linkPre.length + k))) with
    | none => rw [hfind] at h; cases h
    | some k =>
      rw [hfind] at h
      cases h
      have hkp0 := List.find?_some hfind
      have hkp : List.isPrefixOf linkSuf (s.drop (i + linkPre.length + k)) = true := hkp0
      have hkmem : k ∈ (List.range (nonQuoteLen (s.drop (i + linkPre.length)) + 1)).reverse :=
        List.mem_of_find?_eq_some hfind
      rw [List.mem_reverse, List.mem_range] at hkmem
      have hkR : k ≤ nonQuoteLen (s.drop (i + linkPre.length)) := by omega
      rw [List.isPrefixOf_iff_prefix] at hkp
      rcases hkp with ⟨v, hv⟩
      set r : Str := s.drop (i + linkPre.length) with hr
      have hdr : s.drop (i + linkPre.length) = (s.drop i).drop linkPre.length := by
        rw [List.drop_drop]
      have hrs : r.drop k = linkSuf ++ v := by
        rw [hr]
        have h7 : s.drop (i + linkPre.length + k) = (s.drop (i + linkPre.length)).drop k := by
          rw [List.drop_drop]
        rw [← h7, ← hv]
      have hklen : k ≤ r.length := by
        have h2 : (r.drop k).length = r.length - k := by rw [List.length_drop]
        have h3 : (linkSuf ++ v).length = linkSuf.length + v.length := by
          rw [List.length_append]
        have hls : 0 < linkSuf.length := by decide
        rcases le_or_lt k r.length with hle | hlt
        · exact hle
        · exfalso
          have : r.drop k = [] := List.drop_eq_nil_of_le (le_of_lt hlt)
          rw [this] at hrs
          have := congrArg List.length hrs
          simp only [List.length_nil, List.length_append] at this
          omega
      refine ⟨r.take k, v, ?_, ?_, ?_⟩
      · rcases List.isPrefixOf_iff_prefix.1 hp with ⟨r2, hr2⟩
        have hrr : r2 = r := by
          rw [hr, hdr, ← hr2, List.drop_left]
        rw [← hr2, hrr]
        have : r = r.take k ++ (linkSuf ++ v) := by
          conv_lhs => rw [← List.take_append_drop k r]
          rw [hrs]
        rw [← this]
      · intro c hc
        have := take_of_le_takeWhile (fun c => !(c = '"')) r k hkR c hc
        simpa using this
      · have hlen : (r.take k).length = k := by
          rw [List.length_take]
          omega
        rw [hlen]
  · rw [if_neg hp] at h
    cases h

theorem linkEndAt_isSome_of_match {s : Str} {i : Nat} (h : MatchLinkAt s i) :
    (linkEndAt s i).isSome = true := by
  rcases h with ⟨mid, v, hd, hmid⟩
  rw [linkEndAt]
  have hp : List.isPrefixOf linkPre (s.drop i) = true := by
    rw [List.isPrefixOf_iff_prefix, hd]
    exact ⟨mid ++ (linkSuf ++ v), rfl⟩
  rw [if_pos hp]
  have hdr : s.drop (i + linkPre.length) = mid ++ (linkSuf ++ v) := by
    have h4 : s.drop (i + linkPre.length) = (s.drop i).drop linkPre.length := by
      rw [List.drop_drop]
    rw [h4, hd, List.drop_left]
  have hkR : mid.length ≤ nonQuoteLen (s.drop (i + linkPre.length)) := by
    rw [nonQuoteLen]
    refine le_takeWhile_of_take _ _ _ ?_ ?_
    · rw [hdr, List.length_append]
      omega
    · intro c hc
      rw [hdr] at hc
      have : c ∈ mid := by
        have h5 : (mid ++ (linkSuf ++ v)).take mid.length = mid := List.take_left mid _
        rw [h5] at hc
        exact hc
      simpa using hmid c this
  have hkp : List.isPrefixOf linkSuf (s.drop (i + linkPre.length + mid.length)) = true := by
    rw [List.isPrefixOf_iff_prefix]
    have h6 : s.drop (i + linkPre.length + mid.length)
        = (s.drop (i + linkPre.length)).drop mid.length := by
      rw [List.drop_drop]
    rw [h6, hdr, List.drop_left]
    exact ⟨v, rfl⟩
  have hex : ∃ k ∈ (List.range (nonQuoteLen (s.drop (i + linkPre.length)) + 1)).reverse,
      List.isPrefixOf linkSuf (s.drop (i + linkPre.length + k)) = true := by
    exact ⟨mid.length, by rw [List.mem_reverse, List.mem_range]; omega, hkp⟩
  have := List.find?_isSome.2 hex
  cases hfind : (List.range (nonQuoteLen (s.drop (i + linkPre.length)) + 1)).reverse.find?
      (fun k => List.isPrefixOf linkSuf (s.drop (i + linkPre.length + k))) with
  | none => rw [hfind] at this; cases this
  | some k => rfl

theorem hasLink_iff (s : Str) : HasLink s ↔ ∃ i, MatchLinkAt s i := by
  constructor
  · rintro ⟨u, mid, v, hs, hmid⟩
    refine ⟨u.length, mid, v, ?_, hmid⟩
    rw [hs, List.drop_left]
  · rintro ⟨i, mid, v, hd, hmid⟩
    exact ⟨s.take i, mid, v, by rw [← hd, List.take_append_drop], hmid⟩

theorem findLink_none {s : Str} (h : findLink s = none) : ¬ HasLink s := by
  intro hc
  rcases (hasLink_iff s).1 hc with ⟨i, hm⟩
  have hib : i < s.length := by
    rcases hm with ⟨mid, v, hd, _⟩
    have h1 : (s.drop i).length = linkPre.length + (mid.length + (linkSuf.length + v.length)) := by
      rw [hd]
      simp [List.length_append]
    rw [List.length_drop] at h1
    have hA : 0 < linkPre.length := by decide
    omega
  rw [findLink] at h
  cases hout : findFirstIdx (fun i => (linkEndAt s i).isSome) s 0 with
  | none =>
    have := findFirstIdx_none (fun i => (linkEndAt s i).isSome) s 0 hout i hib
    simp only [Nat.zero_add] at this
    rw [linkEndAt_isSome_of_match hm] at this
    cases this
  | some j =>
    rw [hout] at h
    have hj := findFirstIdx_some (fun i => (linkEndAt s i).isSome) s 0 j hout
    simp only [Option.isSome_iff_exists] at hj
    rcases hj with ⟨e, he⟩
    have h2 : linkEndAt s j = none := h
    rw [he] at h2
    cases h2

theorem findLink_some_decomp {s : Str} {e : Nat} (h : findLink s = some e) :
    ∃ i mid v, s.drop i = linkPre ++ (mid ++ (linkSuf ++ v)) ∧ (∀ c ∈ mid, c ≠ '"')
      ∧ e = i + linkPre.length + mid.length + linkSuf.length := by
  rw [findLink] at h
  cases hout : findFirstIdx (fun i => (linkEndAt s i).isSome) s 0 with
  | none => rw [hout] at h; cases h
  | some i =>
    rw [hout] at h
    rcases linkEndAt_some_decomp h with ⟨mid, v, hd, hmid, he⟩
    exact ⟨i, mid, v, hd, hmid, he⟩

theorem subLink_eq_self_iff {t s : Str} (ht : t ≠ []) :
    subLink t s = s ↔ findLink s = none := by
  rw [subLink]
  cases hf : findLink s with
  | none => simp
  | some e =>
    simp only [iff_false, reduceCtorEq]
    rcases findLink_some_decomp hf with ⟨i, mid, v, hd, hmid, he⟩
    have h1 : (s.drop i).length = linkPre.length + (mid.length + (linkSuf.length + v.length)) := by
      rw [hd]
      simp [List.length_append]
    rw [List.length_drop] at h1
    have hA : 0 < linkPre.length := by decide
    exact fun hc => insAt_ne (by omega) ht hc

theorem subLink_shape (t s : Str) :
    subLink t s = s
    ∨ ∃ a b, s = a ++ b ∧ subLink t s = a ++ (t ++ b) ∧ linkSuf <:+ a := by
  rw [subLink]
  cases hf : findLink s with
  | none => exact Or.inl rfl
  | some e =>
    rcases findLink_some_decomp hf with ⟨i, mid, v, hd, hmid, he⟩
    have hocc : occAt linkSuf s (i + linkPre.length + mid.length) := by
      rw [occAt]
      have h6 : s.drop (i + linkPre.length + mid.length)
          = (s.drop i).drop (linkPre.length + mid.length) := by
        rw [List.drop_drop]
        congr 1
        omega
      rw [h6, hd, ← List.append_assoc, ← List.length_append, List.drop_left]
      exact ⟨v, rfl⟩
    rcases occAt_split hocc (by decide) with ⟨hs, htake, hdrop⟩
    refine Or.inr ⟨s.take e, s.drop e, ?_, ?_, ?_⟩
    · rw [List.take_append_drop]
    · show s.take e ++ t ++ s.drop e = s.take e ++ (t ++ s.drop e)
      rw [List.append_assoc]
    · have he2 : e = (i + linkPre.length + mid.length) + linkSuf.length := by omega
      rw [he2, htake]
      exact ⟨s.take (i + linkPre.length + mid.length), rfl⟩

end UpdateStructure

namespace UpdateStructure

/-- In-memory state of `update_html_file`: the current `content` string
and the `changes_made` list. -/
structure UsState where
  content : Str
  changes : List String
deriving DecidableEq, Repr

/-- Edit 1: add `enhanced.css` after the `main.css` link. -/
def step1 (st : UsState) : UsState :=
  if containsSub mEnh st.content then st
  else if subLink tCss st.content = st.content then st
  else ⟨subLink tCss st.content, st.changes ++ ["added enhanced.css"]⟩

/-- Edit 2: add `course-enhancements.js` before `</head>`. -/
def step2 (st : UsState) : UsState :=
  if containsSub mCour st.content then st
  else
    if containsSub aHead st.content then
      if subBefore aHead tCour st.content = st.content then st
      else ⟨subBefore aHead tCour st.content,
            st.changes ++ ["added course-enhancements.js"]⟩
    else st

/-- The substitution chosen by edit 3: after the course-enhancements
script line, or before `</head>` when that marker is absent. -/
def step3sub (c : Str) : Str :=
  if containsSub mCour c then subScriptAfter tClipA c else subBefore aHead tClipB c

/-- Edit 3: add `clipboard.js`. -/
def step3 (st : UsState) : UsState :=
  if containsSub mClip st.content then st
  else if step3sub st.content = st.content then st
  else ⟨step3sub st.content, st.changes ++ ["added clipboard.js"]⟩

/-- Edit 4: add the skip-to-main link after `<body>`. -/
def step4 (st : UsState) : UsState :=
  if !containsSub mSkip st.content && containsSub aBody st.content then
    if subAfter aBody tSkip st.content = st.content then st
    else ⟨subAfter aBody tSkip st.content,
          st.changes ++ ["added skip-to-main link"]⟩
  else st

/-- Edit 5: add the progress indicator after the skip link. -/
def step5 (st : UsState) : UsState :=
  if !containsSub mProg st.content && containsSub mSkip st.content then
    if subAfter skipLine tProg st.content = st.content then st
    else ⟨subAfter skipLine tProg st.content,
          st.changes ++ ["added progress indicator"]⟩
  else st

/-- Edit 6: wrap from the first `<h1...>` in a `<main>` tag, closing it
before `</body>`. -/
def step6 (st : UsState) : UsState :=
  if !containsSub mMain st.content && containsSub wH1 st.content then
    if subH1Before tMainOpen st.content = st.content then st
    else ⟨subBefore aBodyClose tMainClose (subH1Before tMainOpen st.content),
          st.changes ++ ["added main wrapper"]⟩
  else st

/-- The in-memory transformation of `update_structure.update_html_file`:
the six edits applied in order to the file content. -/
def update_html_content (c : Str) : UsState :=
  step6 (step5 (step4 (step3 (step2 (step1 ⟨c, []⟩)))))

end UpdateStructure

theorem ballSwap {n : Nat} {P : Nat → Prop} (h : ∀ k, k < n → 0 < k → P k) :
    ∀ k, 0 < k → k < n → P k := fun k h0 h1 => h k h1 h0

theorem occAt_append_l {w a : Str} {i : Nat} (h : occAt w a i) (x : Str) :
    occAt w (a ++ x) i := by
  rcases h with ⟨r, hr⟩
  rcases le_or_lt i a.length with hi | hi
  · rw [occAt, List.drop_append_of_le_length hi, ← hr, List.append_assoc]
    exact ⟨r ++ x, rfl⟩
  · have : a.drop i = [] := List.drop_eq_nil_of_le (le_of_lt hi)
    rw [this] at hr
    have hw : w = [] := (List.append_eq_nil.1 hr).1
    rw [occAt, hw]
    exact List.nil_prefix

theorem occAt_append_r {w b : Str} {j : Nat} (a : Str) (h : occAt w b j) :
    occAt w (a ++ b) (a.length + j) := by
  rw [occAt, List.drop_append]
  exact h

namespace UpdateStructure

/-- A match of edit 1's pattern located by the positions of its two
literal parts, with a quote-free gap between them. -/
def LinkPair (s : Str) (p q : Nat) : Prop :=
  occAt linkPre s p ∧ occAt linkSuf s q ∧ p + linkPre.length ≤ q
  ∧ ∀ j, p + linkPre.length ≤ j → j < q → s.get? j ≠ some '"'

theorem hasLink_iff_pair (s : Str) : HasLink s ↔ ∃ p q, LinkPair s p q := by
  constructor
  · rintro ⟨u, mid, v, hs, hmid⟩
    refine ⟨u.length, u.length + linkPre.length + mid.length, ?_, ?_, by omega, ?_⟩
    · rw [occAt, hs, List.drop_left]
      exact ⟨mid ++ (linkSuf ++ v), rfl⟩
    · rw [occAt, hs]
      have h1 : u.length + linkPre.length + mid.length
          = (u ++ linkPre ++ mid).length := by
        simp [List.length_append]
        omega
      have h2 : u ++ (linkPre ++ (mid ++ (linkSuf ++ v)))
          = (u ++ linkPre ++ mid) ++ (linkSuf ++ v) := by
        simp [List.append_assoc]
      rw [h2, h1, List.drop_left]
      exact ⟨v, rfl⟩
    · intro j hj1 hj2 hc
      have h2 : u ++ (linkPre ++ (mid ++ (linkSuf ++ v)))
          = (u ++ linkPre) ++ (mid ++ (linkSuf ++ v)) := by
        simp [List.append_assoc]
      rw [hs, h2] at hc
      have hul : (u ++ linkPre).length = u.length + linkPre.length := by
        rw [List.length_append]
      have hge : (u ++ linkPre).length ≤ j := by omega
      rw [List.get?_append_right hge] at hc
      have hlt : j - (u ++ linkPre).length < mid.length := by omega
      rw [List.get?_append hlt] at hc
      have : '"' ∈ mid := List.mem_iff_get?.2 ⟨_, hc⟩
      exact hmid '"' this rfl
  · rintro ⟨p, q, hp, hq, hpq, hgap⟩
    rcases occAt_split hp (by decide) with ⟨hs1, htake1, hdrop1⟩
    set mid : Str := (s.drop (p + linkPre.length)).take (q - (p + linkPre.length)) with hmid
    have hqb := occAt_bounds hq (by decide)
    have hpb := occAt_bounds hp (by decide)
    rcases hq with ⟨v, hv⟩
    have hq_decomp : s.drop q = linkSuf ++ v := hv.symm ▸ rfl
    refine ⟨s.take p, mid, v, ?_, ?_⟩
    · have hd2 : s.drop (p + linkPre.length) = mid ++ (linkSuf ++ v) := by
        conv_lhs => rw [← List.take_append_drop (q - (p + linkPre.length))
          (s.drop (p + linkPre.length))]
        rw [← hmid]
        have h3 : (s.drop (p + linkPre.length)).drop (q - (p + linkPre.length))
            = s.drop q := by
          rw [List.drop_drop]
          congr 1
          omega
        rw [h3, ← hv]
      conv_lhs => rw [hs1]
      rw [hd2]
    · intro c hc hcq
      subst hcq
      rw [hmid] at hc
      rcases List.mem_iff_get?.1 hc with ⟨n, hn⟩
      have hnlt : n < q - (p + linkPre.length) := by
        have := List.get?_eq_some.1 hn
        rcases this with ⟨hlen, _⟩
        rw [List.length_take] at hlen
        omega
      rw [List.get?_take hnlt, List.get?_drop] at hn
      exact hgap (p + linkPre.length + n) (by omega) (by omega) hn

/-- A match of edit 3's pattern located by the position of its first
literal part; the wildcard is the single character between the parts. -/
def ScriptPair (s : Str) (p : Nat) : Prop :=
  occAt scriptA s p ∧ occAt scriptB s (p + scriptA.length + 1)
  ∧ ∃ c, s.get? (p + scriptA.length) = some c ∧ c ≠ '\n'

theorem hasScript_iff_pair (s : Str) : HasScript s ↔ ∃ p, ScriptPair s p := by
  constructor
  · rintro ⟨u, c, v, hs, hc⟩
    refine ⟨u.length, ?_, ?_, c, ?_, hc⟩
    · rw [occAt, hs, List.drop_left]
      exact ⟨[c] ++ (scriptB ++ v), rfl⟩
    · rw [occAt, hs]
      have h1 : u.length + scriptA.length + 1 = (u ++ (scriptA ++ [c])).length := by
        simp [List.length_append]
        omega
      have h2 : u ++ (scriptA ++ ([c] ++ (scriptB ++ v)))
          = (u ++ (scriptA ++ [c])) ++ (scriptB ++ v) := by
        simp [List.append_assoc]
      rw [h2, h1, List.drop_left]
      exact ⟨v, rfl⟩
    · rw [hs]
      have h2 : u ++ (scriptA ++ ([c] ++ (scriptB ++ v)))
          = (u ++ scriptA) ++ ([c] ++ (scriptB ++ v)) := by
        simp [List.append_assoc]
      rw [h2]
      have hge : (u ++ scriptA).length ≤ u.length + scriptA.length := by
        rw [List.length_append]
      rw [List.get?_append_right hge]
      have : u.length + scriptA.length - (u ++ scriptA).length = 0 := by
        rw [List.length_append]
        omega
      rw [this]
      rfl
  · rintro ⟨p, hA, hB, c, hget, hc⟩
    rcases occAt_split hA (by decide) with ⟨hs1, _, _⟩
    have hpb := occAt_bounds hA (by decide)
    have hcdrop : s.drop (p + scriptA.length) = c :: s.drop (p + scriptA.length + 1) := by
      have h1 : s.get? (p + scriptA.length) = some c := hget
      rcases List.get?_eq_some.1 h1 with ⟨hlen, hgetc⟩
      have := List.drop_eq_get_cons (l := s) (n := p + scriptA.length) hlen
      rw [this, hgetc]
    rcases hB with ⟨v, hv⟩
    refine ⟨s.take p, c, v, ?_, hc⟩
    conv_lhs => rw [hs1]
    rw [hcdrop, ← hv]
    rfl

end UpdateStructure

theorem get?_ins_low {a t b : Str} {j : Nat} (hj : j < a.length) :
    (a ++ (t ++ b)).get? j = (a ++ b).get? j := by
  rw [List.get?_append hj, List.get?_append hj]

theorem get?_ins_high {a t b : Str} {j : Nat} (hj : a.length ≤ j) :
    (a ++ (t ++ b)).get? (j + t.length) = (a ++ b).get? j := by
  rw [← List.append_assoc]
  rw [List.get?_append_right (by rw [List.length_append]; omega),
    List.get?_append_right hj]
  congr 1
  rw [List.length_append]
  omega

namespace UpdateStructure

/-- Absence of a match of edit 1's pattern is preserved by an insertion
whose text cannot host or straddle either literal part of the pattern. -/
theorem hasLink_abs_insert {a t b : Str} (ht2 : 2 ≤ t.length)
    (locP : ∀ i, occAt linkPre (a ++ (t ++ b)) i →
      (i + linkPre.length ≤ a.length ∧ occAt linkPre a i)
      ∨ (∃ j, i = a.length + t.length + j ∧ occAt linkPre b j))
    (locS : ∀ i, occAt linkSuf (a ++ (t ++ b)) i →
      (i + linkSuf.length ≤ a.length ∧ occAt linkSuf a i)
      ∨ (∃ j, i = a.length + t.length + j ∧ occAt linkSuf b j))
    (h : ¬ HasLink (a ++ b)) : ¬ HasLink (a ++ (t ++ b)) := by
  intro hc
  rcases (hasLink_iff_pair _).1 hc with ⟨p, q, hp, hq, hpq, hgap⟩
  apply h
  rw [hasLink_iff_pair]
  have hLP : 0 < linkPre.length := by decide
  have hLS : 0 < linkSuf.length := by decide
  rcases locP p hp with ⟨hpa, hpo⟩ | ⟨p0, rfl, hpo⟩
  · rcases locS q hq with ⟨hqa, hqo⟩ | ⟨q0, rfl, hqo⟩
    · refine ⟨p, q, occAt_append_l hpo b, occAt_append_l hqo b, hpq, ?_⟩
      intro j hj1 hj2
      have hjlt : j < a.length := by omega
      rw [← get?_ins_low (t := t) hjlt]
      exact hgap j hj1 hj2
    · refine ⟨p, a.length + q0, occAt_append_l hpo b, occAt_append_r a hqo,
        by omega, ?_⟩
      intro j hj1 hj2
      rcases lt_or_ge j a.length with hja | hja
      · rw [← get?_ins_low (t := t) hja]
        exact hgap j hj1 (by omega)
      · rw [← get?_ins_high (t := t) hja]
        exact hgap (j + t.length) (by omega) (by omega)
  · rcases locS q hq with ⟨hqa, hqo⟩ | ⟨q0, rfl, hqo⟩
    · exfalso
      omega
    · refine ⟨a.length + p0, a.length + q0, occAt_append_r a hpo,
        occAt_append_r a hqo, by omega, ?_⟩
      intro j hj1 hj2
      have hja : a.length ≤ j := by omega
      rw [← get?_ins_high (t := t) hja]
      exact hgap (j + t.length) (by omega) (by omega)

/-- Absence of a match of edit 3's pattern is preserved by an insertion
whose text cannot host or straddle either literal part of the pattern. -/
theorem hasScript_abs_insert {a t b : Str} (ht2 : 2 ≤ t.length)
    (locA : ∀ i, occAt scriptA (a ++ (t ++ b)) i →
      (i + scriptA.length ≤ a.length ∧ occAt scriptA a i)
      ∨ (∃ j, i = a.length + t.length + j ∧ occAt scriptA b j))
    (locB : ∀ i, occAt scriptB (a ++ (t ++ b)) i →
      (i + scriptB.length ≤ a.length ∧ occAt scriptB a i)
      ∨ (∃ j, i = a.length + t.length + j ∧ occAt scriptB b j))
    (h : ¬ HasScript (a ++ b)) : ¬ HasScript (a ++ (t ++ b)) := by
  intro hc
  rcases (hasScript_iff_pair _).1 hc with ⟨p, hA, hB, c, hget, hcn⟩
  apply h
  rw [hasScript_iff_pair]
  have hBpos : 0 < scriptB.length := by decide
  rcases locA p hA with ⟨hpa, hpo⟩ | ⟨p0, rfl, hpo⟩
  · rcases locB (p + scriptA.length + 1) hB with ⟨hqa, hqo⟩ | ⟨q0, hqe, hqo⟩
    · refine ⟨p, occAt_append_l hpo b, ?_, c, ?_, hcn⟩
      · exact occAt_append_l hqo b
      · have hlt : p + scriptA.length < a.length := by omega
        rw [← get?_ins_low (t := t) hlt]
        exact hget
    · exfalso
      omega
  · rcases locB (a.length + t.length + p0 + scriptA.length + 1) hB
        with ⟨hqa, hqo⟩ | ⟨q0, hqe, hqo⟩
    · exfalso
      omega
    · have hq0 : q0 = p0 + scriptA.length + 1 := by omega
      subst hq0
      refine ⟨a.length + p0, occAt_append_r a hpo, ?_, c, ?_, hcn⟩
      · have he : a.length + p0 + scriptA.length + 1
            = a.length + (p0 + scriptA.length + 1) := by omega
        rw [he]
        exact occAt_append_r a hqo
      · have hja : a.length ≤ a.length + p0 + scriptA.length := by omega
        rw [← get?_ins_high (t := t) hja]
        have he : a.length + p0 + scriptA.length + t.length
            = a.length + t.length + p0 + scriptA.length := by omega
        rw [he]
        exact hget

end UpdateStructure

theorem infx_ins {w t : Str} (a b : Str) (h : w <:+: t) : w <:+: a ++ (t ++ b) :=
  infx_append_right a (infx_append_left h b)

namespace UpdateStructure

theorem hasLink_of_findLink_some {s : Str} {e : Nat} (h : findLink s = some e) :
    HasLink s := by
  rcases findLink_some_decomp h with ⟨i, mid, v, hd, hmid, _⟩
  exact ⟨s.take i, mid, v, by rw [← hd, List.take_append_drop], hmid⟩

theorem hasScript_of_findScript_some {s : Str} {i : Nat} (h : findScript s = some i) :
    HasScript s := by
  have hm := findFirstIdx_some (fun i => matchScriptAt s i) s 0 i h
  exact (hasScript_iff s).2 ⟨i, hm⟩

theorem subLink_self_of_not_has {t s : Str} (h : ¬ HasLink s) :
    subLink t s = s := by
  rw [subLink]
  cases hf : findLink s with
  | none => rfl
  | some e => exact absurd (hasLink_of_findLink_some hf) h

theorem subScriptAfter_self_of_not_has {t s : Str} (h : ¬ HasScript s) :
    subScriptAfter t s = s := by
  rw [subScriptAfter]
  cases hf : findScript s with
  | none => rfl
  | some i => exact absurd (hasScript_of_findScript_some hf) h

theorem subBefore_self_of_not_infx {anchor t s : Str} (h : ¬ anchor <:+: s) :
    subBefore anchor t s = s := by
  rw [subBefore, (firstOcc_none_iff anchor s).2 h]

theorem subAfter_self_of_not_infx {anchor t s : Str} (h : ¬ anchor <:+: s) :
    subAfter anchor t s = s := by
  rw [subAfter, (firstOcc_none_iff anchor s).2 h]

/-! ### Step shapes -/

theorem step1_shape (st : UsState) :
    (step1 st).content = st.content
    ∨ ∃ a b, st.content = a ++ b ∧ (step1 st).content = a ++ (tCss ++ b)
        ∧ linkSuf <:+ a := by
  rw [step1]
  by_cases hg : containsSub mEnh st.content = true
  · rw [if_pos hg]; exact Or.inl rfl
  · rw [if_neg hg]
    by_cases hnc : subLink tCss st.content = st.content
    · rw [if_pos hnc]; exact Or.inl rfl
    · rw [if_neg hnc]
      rcases subLink_shape tCss st.content with heq | ⟨a, b, hab, heq, hanc⟩
      · exact absurd heq hnc
      · exact Or.inr ⟨a, b, hab, heq, hanc⟩

theorem step2_shape (st : UsState) :
    (step2 st).content = st.content
    ∨ ∃ a b, st.content = a ++ b ∧ (step2 st).content = a ++ (tCour ++ b)
        ∧ aHead <+: b := by
  rw [step2]
  by_cases hg : containsSub mCour st.content = true
  · rw [if_pos hg]; exact Or.inl rfl
  · rw [if_neg hg]
    by_cases hh : containsSub aHead st.content = true
    · rw [if_pos hh]
      by_cases hnc : subBefore aHead tCour st.content = st.content
      · rw [if_pos hnc]; exact Or.inl rfl
      · rw [if_neg hnc]
        rcases subBefore_shape aHead tCour st.content (by decide) with heq | ⟨a, b, hab, heq, hanc⟩
        · exact absurd heq hnc
        · exact Or.inr ⟨a, b, hab, heq, hanc⟩
    · rw [if_neg hh]; exact Or.inl rfl

theorem step3_shape (st : UsState) :
    (step3 st).content = st.content
    ∨ (∃ a b, st.content = a ++ b ∧ (step3 st).content = a ++ (tClipA ++ b)
        ∧ scriptB <:+ a)
    ∨ (∃ a b, st.content = a ++ b ∧ (step3 st).content = a ++ (tClipB ++ b)
        ∧ aHead <+: b) := by
  rw [step3]
  by_cases hg : containsSub mClip st.content = true
  · rw [if_pos hg]; exact Or.inl rfl
  · rw [if_neg hg]
    by_cases hnc : step3sub st.content = st.content
    · rw [if_pos hnc]; exact Or.inl rfl
    · rw [if_neg hnc]
      rw [step3sub] at hnc ⊢
      by_cases hco : containsSub mCour st.content = true
      · rw [if_pos hco] at hnc ⊢
        rcases subScriptAfter_shape tClipA st.content with heq | ⟨a, b, hab, heq, hanc⟩
        · exact absurd heq hnc
        · exact Or.inr (Or.inl ⟨a, b, hab, heq, hanc⟩)
      · rw [if_neg hco] at hnc ⊢
        rcases subBefore_shape aHead tClipB st.content (by decide) with heq | ⟨a, b, hab, heq, hanc⟩
        · exact absurd heq hnc
        · exact Or.inr (Or.inr ⟨a, b, hab, heq, hanc⟩)

theorem step4_shape (st : UsState) :
    (step4 st).content = st.content
    ∨ ∃ a b, st.content = a ++ b ∧ (step4 st).content = a ++ (tSkip ++ b)
        ∧ aBody <:+ a := by
  rw [step4]
  by_cases hg : (!containsSub mSkip st.content && containsSub aBody st.content) = true
  · rw [if_pos hg]
    by_cases hnc : subAfter aBody tSkip st.content = st.content
    · rw [if_pos hnc]; exact Or.inl rfl
    · rw [if_neg hnc]
      rcases subAfter_shape aBody tSkip st.content (by decide) with heq | ⟨a, b, hab, heq, hanc⟩
      · exact absurd heq hnc
      · exact Or.inr ⟨a, b, hab, heq, hanc⟩
  · rw [if_neg hg]; exact Or.inl rfl

theorem step5_shape (st : UsState) :
    (step5 st).content = st.content
    ∨ ∃ a b, st.content = a ++ b ∧ (step5 st).content = a ++ (tProg ++ b)
        ∧ skipLine <:+ a := by
  rw [step5]
  by_cases hg : (!containsSub mProg st.content && containsSub mSkip st.content) = true
  · rw [if_pos hg]
    by_cases hnc : subAfter skipLine tProg st.content = st.content
    · rw [if_pos hnc]; exact Or.inl rfl
    · rw [if_neg hnc]
      rcases subAfter_shape skipLine tProg st.content (by decide) with heq | ⟨a, b, hab, heq, hanc⟩
      · exact absurd heq hnc
      · exact Or.inr ⟨a, b, hab, heq, hanc⟩
  · rw [if_neg hg]; exact Or.inl rfl

theorem step6_shape (st : UsState) :
    (step6 st).content = st.content
    ∨ ∃ c1, (∃ a b, st.content = a ++ b ∧ c1 = a ++ (tMainOpen ++ b) ∧ aH1 <+: b)
        ∧ ((step6 st).content = c1
            ∨ ∃ a2 b2, c1 = a2 ++ b2 ∧ (step6 st).content = a2 ++ (tMainClose ++ b2)
                ∧ aBodyClose <+: b2) := by
  rw [step6]
  by_cases hg : (!containsSub mMain st.content && containsSub wH1 st.content) = true
  · rw [if_pos hg]
    by_cases hnc : subH1Before tMainOpen st.content = st.content
    · rw [if_pos hnc]; exact Or.inl rfl
    · rw [if_neg hnc]
      rcases subH1Before_shape tMainOpen st.content with heq | ⟨a, b, hab, heq, hanc⟩
      · exact absurd heq hnc
      · refine Or.inr ⟨subH1Before tMainOpen st.content, ⟨a, b, hab, heq, hanc⟩, ?_⟩
        rcases subBefore_shape aBodyClose tMainClose (subH1Before tMainOpen st.content)
            (by decide) with heq2 | ⟨a2, b2, hab2, heq2, hanc2⟩
        · exact Or.inl heq2
        · exact Or.inr ⟨a2, b2, hab2, heq2, hanc2⟩
  · rw [if_neg hg]; exact Or.inl rfl

end UpdateStructure

namespace UpdateStructure

/-! ### Word transport through each step -/

theorem step1_pres {st : UsState} {w : Str}
    (hc : ∀ k, k < w.length → 0 < k → ¬ (w.take k <:+ linkSuf) ∧ ¬ (linkSuf <:+ w.take k))
    (h : w <:+: st.content) : w <:+: (step1 st).content := by
  rcases step1_shape st with heq | ⟨a, b, hab, heq, hanc⟩
  · rw [heq]; exact h
  · rw [heq]; exact pres_insert_after hanc (ballSwap hc) (hab ▸ h)

theorem step2_pres {st : UsState} {w : Str}
    (hc : ∀ k, k < w.length → 0 < k → ¬ (w.drop k <+: aHead) ∧ ¬ (aHead <+: w.drop k))
    (h : w <:+: st.content) : w <:+: (step2 st).content := by
  rcases step2_shape st with heq | ⟨a, b, hab, heq, hanc⟩
  · rw [heq]; exact h
  · rw [heq]; exact pres_insert_before hanc (ballSwap hc) (hab ▸ h)

theorem step3_pres {st : UsState} {w : Str}
    (hcA : ∀ k, k < w.length → 0 < k → ¬ (w.take k <:+ scriptB) ∧ ¬ (scriptB <:+ w.take k))
    (hcB : ∀ k, k < w.length → 0 < k → ¬ (w.drop k <+: aHead) ∧ ¬ (aHead <+: w.drop k))
    (h : w <:+: st.content) : w <:+: (step3 st).content := by
  rcases step3_shape st with heq | ⟨a, b, hab, heq, hanc⟩ | ⟨a, b, hab, heq, hanc⟩
  · rw [heq]; exact h
  · rw [heq]; exact pres_insert_after hanc (ballSwap hcA) (hab ▸ h)
  · rw [heq]; exact pres_insert_before hanc (ballSwap hcB) (hab ▸ h)

theorem step4_pres {st : UsState} {w : Str}
    (hc : ∀ k, k < w.length → 0 < k → ¬ (w.take k <:+ aBody) ∧ ¬ (aBody <:+ w.take k))
    (h : w <:+: st.content) : w <:+: (step4 st).content := by
  rcases step4_shape st with heq | ⟨a, b, hab, heq, hanc⟩
  · rw [heq]; exact h
  · rw [heq]; exact pres_insert_after hanc (ballSwap hc) (hab ▸ h)

theorem step5_pres {st : UsState} {w : Str}
    (hc : ∀ k, k < w.length → 0 < k → ¬ (w.take k <:+ skipLine) ∧ ¬ (skipLine <:+ w.take k))
    (h : w <:+: st.content) : w <:+: (step5 st).content := by
  rcases step5_shape st with heq | ⟨a, b, hab, heq, hanc⟩
  · rw [heq]; exact h
  · rw [heq]; exact pres_insert_after hanc (ballSwap hc) (hab ▸ h)

theorem step6_pres {st : UsState} {w : Str}
    (hcO : ∀ k, k < w.length → 0 < k → ¬ (w.drop k <+: aH1) ∧ ¬ (aH1 <+: w.drop k))
    (hcC : ∀ k, k < w.length → 0 < k → ¬ (w.drop k <+: aBodyClose) ∧ ¬ (aBodyClose <+: w.drop k))
    (h : w <:+: st.content) : w <:+: (step6 st).content := by
  rcases step6_shape st with heq | ⟨c1, ⟨a, b, hab, hc1, hanc⟩, hrest⟩
  · rw [heq]; exact h
  · have h1 : w <:+: c1 := by
      rw [hc1]; exact pres_insert_before hanc (ballSwap hcO) (hab ▸ h)
    rcases hrest with heq | ⟨a2, b2, hab2, heq, hanc2⟩
    · rw [heq]; exact h1
    · rw [heq]; exact pres_insert_before hanc2 (ballSwap hcC) (hab2 ▸ h1)

theorem step3_abs {st : UsState} {w : Str}
    (hA1 : ¬ w <:+: tClipA) (hA2 : ¬ tClipA <:+: w)
    (hA3 : ∀ k, k < w.length → 0 < k → ¬ (w.drop k <+: tClipA))
    (hA4 : ∀ k, k < w.length → 0 < k → ¬ (w.take k <:+ tClipA))
    (hB1 : ¬ w <:+: tClipB) (hB2 : ¬ tClipB <:+: w)
    (hB3 : ∀ k, k < w.length → 0 < k → ¬ (w.drop k <+: tClipB))
    (hB4 : ∀ k, k < w.length → 0 < k → ¬ (w.take k <:+ tClipB))
    (h : ¬ w <:+: st.content) : ¬ w <:+: (step3 st).content := by
  rcases step3_shape st with heq | ⟨a, b, hab, heq, hanc⟩ | ⟨a, b, hab, heq, hanc⟩
  · rw [heq]; exact h
  · rw [heq]; exact abs_insert_plain hA1 hA2 (ballSwap hA3) (ballSwap hA4) (hab ▸ h)
  · rw [heq]; exact abs_insert_plain hB1 hB2 (ballSwap hB3) (ballSwap hB4) (hab ▸ h)

theorem step4_abs {st : UsState} {w : Str}
    (h1 : ¬ w <:+: tSkip) (h2 : ¬ tSkip <:+: w)
    (h3 : ∀ k, k < w.length → 0 < k → ¬ (w.drop k <+: tSkip))
    (h4 : ∀ k, k < w.length → 0 < k → ¬ (w.take k <:+ tSkip))
    (h : ¬ w <:+: st.content) : ¬ w <:+: (step4 st).content := by
  rcases step4_shape st with heq | ⟨a, b, hab, heq, hanc⟩
  · rw [heq]; exact h
  · rw [heq]; exact abs_insert_plain h1 h2 (ballSwap h3) (ballSwap h4) (hab ▸ h)

theorem step5_abs {st : UsState} {w : Str}
    (h1 : ¬ w <:+: tProg) (h2 : ¬ tProg <:+: w)
    (h3 : ∀ k, k < w.length → 0 < k → ¬ (w.drop k <+: tProg))
    (h4 : ∀ k, k < w.length → 0 < k → ¬ (w.take k <:+ tProg))
    (h : ¬ w <:+: st.content) : ¬ w <:+: (step5 st).content := by
  rcases step5_shape st with heq | ⟨a, b, hab, heq, hanc⟩
  · rw [heq]; exact h
  · rw [heq]; exact abs_insert_plain h1 h2 (ballSwap h3) (ballSwap h4) (hab ▸ h)

theorem step6_abs {st : UsState} {w : Str}
    (hO1 : ¬ w <:+: tMainOpen) (hO2 : ¬ tMainOpen <:+: w)
    (hO3 : ∀ k, k < w.length → 0 < k → ¬ (w.drop k <+: tMainOpen))
    (hO4 : ∀ k, k < w.length → 0 < k → w.take k <:+ tMainOpen →
        ¬ (w.drop k <+: aH1) ∧ ¬ (aH1 <+: w.drop k))
    (hC1 : ¬ w <:+: tMainClose) (hC2 : ¬ tMainClose <:+: w)
    (hC3 : ∀ k, k < w.length → 0 < k → ¬ (w.drop k <+: tMainClose))
    (hC4 : ∀ k, k < w.length → 0 < k → ¬ (w.take k <:+ tMainClose))
    (h : ¬ w <:+: st.content) : ¬ w <:+: (step6 st).content := by
  rcases step6_shape st with heq | ⟨c1, ⟨a, b, hab, hc1, hanc⟩, hrest⟩
  · rw [heq]; exact h
  · have h1 : ¬ w <:+: c1 := by
      rw [hc1]
      exact abs_insert_before hanc hO1 hO2 (ballSwap hO3)
        (fun k hk0 hk1 htk => hO4 k hk1 hk0 htk) (hab ▸ h)
    rcases hrest with heq | ⟨a2, b2, hab2, heq, hanc2⟩
    · rw [heq]; exact h1
    · rw [heq]; exact abs_insert_plain hC1 hC2 (ballSwap hC3) (ballSwap hC4) (hab2 ▸ h1)

end UpdateStructure

theorem loc_of_conds {w t b : Str}
    (hwt : ¬ w <:+: t) (htw : ¬ t <:+: w)
    (hdrop : ∀ k, k < w.length → 0 < k → ¬ (w.drop k <+: t))
    (htake : ∀ k, k < w.length → 0 < k → ¬ (w.take k <:+ t)) :
    ∀ (a : Str) (i : Nat), occAt w (a ++ (t ++ b)) i →
      (i + w.length ≤ a.length ∧ occAt w a i)
      ∨ (∃ j, i = a.length + t.length + j ∧ occAt w b j) :=
  fun a i h => occAt_ins_cases hwt htw (ballSwap hdrop)
    (fun k hk0 hk1 htk _ => htake k hk1 hk0 htk) h

theorem loc_of_conds_before {w t b A : Str} (hA : A <+: b)
    (hwt : ¬ w <:+: t) (htw : ¬ t <:+: w)
    (hdrop : ∀ k, k < w.length → 0 < k → ¬ (w.drop k <+: t))
    (hsp : ∀ k, k < w.length → 0 < k → w.take k <:+ t →
        ¬ (w.drop k <+: A) ∧ ¬ (A <+: w.drop k)) :
    ∀ (a : Str) (i : Nat), occAt w (a ++ (t ++ b)) i →
      (i + w.length ≤ a.length ∧ occAt w a i)
      ∨ (∃ j, i = a.length + t.length + j ∧ occAt w b j) := by
  intro a i h
  refine occAt_ins_cases hwt htw (ballSwap hdrop) (fun k hk0 hk1 htk hdk => ?_) h
  rcases pref_total hdk hA with hc | hc
  · exact (hsp k hk1 hk0 htk).1 hc
  · exact (hsp k hk1 hk0 htk).2 hc

namespace UpdateStructure

theorem step2_absHasLink {st : UsState} (h : ¬ HasLink st.content) :
    ¬ HasLink (step2 st).content := by
  rcases step2_shape st with heq | ⟨a, b, hab, heq, hanc⟩
  · rw [heq]; exact h
  · rw [heq]
    exact hasLink_abs_insert (by decide)
      (loc_of_conds (by decide) (by decide) (by decide) (by decide) a)
      (loc_of_conds (by decide) (by decide) (by decide) (by decide) a)
      (hab ▸ h)

theorem step3_absHasLink {st : UsState} (h : ¬ HasLink st.content) :
    ¬ HasLink (step3 st).content := by
  rcases step3_shape st with heq | ⟨a, b, hab, heq, hanc⟩ | ⟨a, b, hab, heq, hanc⟩
  · rw [heq]; exact h
  · rw [heq]
    exact hasLink_abs_insert (by decide)
      (loc_of_conds (by decide) (by decide) (by decide) (by decide) a)
      (loc_of_conds (by decide) (by decide) (by decide) (by decide) a)
      (hab ▸ h)
  · rw [heq]
    exact hasLink_abs_insert (by decide)
      (loc_of_conds (by decide) (by decide) (by decide) (by decide) a)
      (loc_of_conds (by decide) (by decide) (by decide) (by decide) a)
      (hab ▸ h)

theorem step4_absHasLink {st : UsState} (h : ¬ HasLink st.content) :
    ¬ HasLink (step4 st).content := by
  rcases step4_shape st with heq | ⟨a, b, hab, heq, hanc⟩
  · rw [heq]; exact h
  · rw [heq]
    exact hasLink_abs_insert (by decide)
      (loc_of_conds (by decide) (by decide) (by decide) (by decide) a)
      (loc_of_conds (by decide) (by decide) (by decide) (by decide) a)
      (hab ▸ h)

theorem step5_absHasLink {st : UsState} (h : ¬ HasLink st.content) :
    ¬ HasLink (step5 st).content := by
  rcases step5_shape st with heq | ⟨a, b, hab, heq, hanc⟩
  · rw [heq]; exact h
  · rw [heq]
    exact hasLink_abs_insert (by decide)
      (loc_of_conds (by decide) (by decide) (by decide) (by decide) a)
      (loc_of_conds (by decide) (by decide) (by decide) (by decide) a)
      (hab ▸ h)

theorem step6_absHasLink {st : UsState} (h : ¬ HasLink st.content) :
    ¬ HasLink (step6 st).content := by
  rcases step6_shape st with heq | ⟨c1, ⟨a, b, hab, hc1, hanc⟩, hrest⟩
  · rw [heq]; exact h
  · have h1 : ¬ HasLink c1 := by
      rw [hc1]
      exact hasLink_abs_insert (by decide)
        (loc_of_conds (by decide) (by decide) (by decide) (by decide) a)
        (loc_of_conds (by decide) (by decide) (by decide) (by decide) a)
        (hab ▸ h)
    rcases hrest with heq | ⟨a2, b2, hab2, heq, hanc2⟩
    · rw [heq]; exact h1
    · rw [heq]
      exact hasLink_abs_insert (by decide)
        (loc_of_conds (by decide) (by decide) (by decide) (by decide) a2)
        (loc_of_conds (by decide) (by decide) (by decide) (by decide) a2)
        (hab2 ▸ h1)

theorem step4_absHasScript {st : UsState} (h : ¬ HasScript st.content) :
    ¬ HasScript (step4 st).content := by
  rcases step4_shape st with heq | ⟨a, b, hab, heq, hanc⟩
  · rw [heq]; exact h
  · rw [heq]
    exact hasScript_abs_insert (by decide)
      (loc_of_conds (by decide) (by decide) (by decide) (by decide) a)
      (loc_of_conds (by decide) (by decide) (by decide) (by decide) a)
      (hab ▸ h)

theorem step5_absHasScript {st : UsState} (h : ¬ HasScript st.content) :
    ¬ HasScript (step5 st).content := by
  rcases step5_shape st with heq | ⟨a, b, hab, heq, hanc⟩
  · rw [heq]; exact h
  · rw [heq]
    exact hasScript_abs_insert (by decide)
      (loc_of_conds (by decide) (by decide) (by decide) (by decide) a)
      (loc_of_conds (by decide) (by decide) (by decide) (by decide) a)
      (hab ▸ h)

theorem step6_absHasScript {st : UsState} (h : ¬ HasScript st.content) :
    ¬ HasScript (step6 st).content := by
  rcases step6_shape st with heq | ⟨c1, ⟨a, b, hab, hc1, hanc⟩, hrest⟩
  · rw [heq]; exact h
  · have h1 : ¬ HasScript c1 := by
      rw [hc1]
      exact hasScript_abs_insert (by decide)
        (loc_of_conds_before hanc (by decide) (by decide) (by decide) (by decide) a)
        (loc_of_conds (by decide) (by decide) (by decide) (by decide) a)
        (hab ▸ h)
    rcases hrest with heq | ⟨a2, b2, hab2, heq, hanc2⟩
    · rw [heq]; exact h1
    · rw [heq]
      exact hasScript_abs_insert (by decide)
        (loc_of_conds (by decide) (by decide) (by decide) (by decide) a2)
        (loc_of_conds (by decide) (by decide) (by decide) (by decide) a2)
        (hab2 ▸ h1)

end UpdateStructure

theorem containsSub_eq_false {w s : Str} (h : ¬ w <:+: s) : containsSub w s = false := by
  cases hb : containsSub w s with
  | false => rfl
  | true => exact absurd ((containsSub_iff w s).1 hb) h

namespace UpdateStructure

/-! ### Conditions under which each step does nothing -/

theorem step1_inert {st : UsState}
    (h : containsSub mEnh st.content = true ∨ subLink tCss st.content = st.content) :
    step1 st = st := by
  rw [step1]
  by_cases hg : containsSub mEnh st.content = true
  · rw [if_pos hg]
  · rcases h with h | h
    · exact absurd h hg
    · rw [if_neg hg, if_pos h]

theorem step2_inert {st : UsState}
    (h : containsSub mCour st.content = true ∨ containsSub aHead st.content = false) :
    step2 st = st := by
  rw [step2]
  by_cases hg : containsSub mCour st.content = true
  · rw [if_pos hg]
  · rcases h with h | h
    · exact absurd h hg
    · rw [if_neg hg, h]
      simp

theorem step3_inert {st : UsState}
    (h : containsSub mClip st.content = true ∨ step3sub st.content = st.content) :
    step3 st = st := by
  rw [step3]
  by_cases hg : containsSub mClip st.content = true
  · rw [if_pos hg]
  · rcases h with h | h
    · exact absurd h hg
    · rw [if_neg hg, if_pos h]

theorem step4_inert {st : UsState}
    (h : containsSub mSkip st.content = true ∨ containsSub aBody st.content = false) :
    step4 st = st := by
  rw [step4]
  rcases h with h | h
  · rw [h]
    simp
  · rw [h, Bool.and_false]
    simp

theorem step5_inert {st : UsState}
    (h : containsSub mProg st.content = true ∨ containsSub mSkip st.content = false
        ∨ subAfter skipLine tProg st.content = st.content) :
    step5 st = st := by
  rw [step5]
  rcases h with h | h | h
  · rw [h]
    simp
  · rw [h, Bool.and_false]
    simp
  · by_cases hg : (!containsSub mProg st.content && containsSub mSkip st.content) = true
    · rw [if_pos hg, if_pos h]
    · rw [if_neg hg]

theorem step6_inert {st : UsState}
    (h : containsSub mMain st.content = true ∨ containsSub wH1 st.content = false) :
    step6 st = st := by
  rw [step6]
  rcases h with h | h
  · rw [h]
    simp
  · rw [h, Bool.and_false]
    simp

/-! ### Postconditions of each step on the first run -/

theorem step1_post (st : UsState) :
    mEnh <:+: (step1 st).content
    ∨ ((step1 st).content = st.content ∧ ¬ HasLink st.content) := by
  rw [step1]
  by_cases hg : containsSub mEnh st.content = true
  · rw [if_pos hg]
    exact Or.inl ((containsSub_iff _ _).1 hg)
  · rw [if_neg hg]
    by_cases hnc : subLink tCss st.content = st.content
    · rw [if_pos hnc]
      exact Or.inr ⟨rfl, findLink_none ((subLink_eq_self_iff (by decide)).1 hnc)⟩
    · rw [if_neg hnc]
      rcases subLink_shape tCss st.content with heq | ⟨a, b, hab, heq, hanc⟩
      · exact absurd heq hnc
      · left
        show mEnh <:+: subLink tCss st.content
        rw [heq]
        exact infx_ins a b (by decide)

theorem step2_post (st : UsState) :
    mCour <:+: (step2 st).content
    ∨ ((step2 st).content = st.content ∧ ¬ aHead <:+: st.content) := by
  rw [step2]
  by_cases hg : containsSub mCour st.content = true
  · rw [if_pos hg]
    exact Or.inl ((containsSub_iff _ _).1 hg)
  · rw [if_neg hg]
    by_cases hh : containsSub aHead st.content = true
    · rw [if_pos hh]
      by_cases hnc : subBefore aHead tCour st.content = st.content
      · exfalso
        have := (firstOcc_none_iff aHead st.content).1
          ((subBefore_eq_self_iff (by decide) (by decide)).1 hnc)
        exact this ((containsSub_iff _ _).1 hh)
      · rw [if_neg hnc]
        rcases subBefore_shape aHead tCour st.content (by decide)
            with heq | ⟨a, b, hab, heq, hanc⟩
        · exact absurd heq hnc
        · left
          show mCour <:+: subBefore aHead tCour st.content
          rw [heq]
          exact infx_ins a b (by decide)
    · rw [if_neg hh]
      exact Or.inr ⟨rfl, fun hc => hh ((containsSub_iff _ _).2 hc)⟩

theorem step3_post (st : UsState) :
    mClip <:+: (step3 st).content
    ∨ ((step3 st).content = st.content ∧ containsSub mCour st.content = true
        ∧ ¬ HasScript st.content)
    ∨ ((step3 st).content = st.content ∧ containsSub mCour st.content = false
        ∧ ¬ aHead <:+: st.content) := by
  rw [step3]
  by_cases hg : containsSub mClip st.content = true
  · rw [if_pos hg]
    exact Or.inl ((containsSub_iff _ _).1 hg)
  · rw [if_neg hg]
    by_cases hnc : step3sub st.content = st.content
    · rw [if_pos hnc]
      rw [step3sub] at hnc
      by_cases hco : containsSub mCour st.content = true
      · rw [if_pos hco] at hnc
        exact Or.inr (Or.inl ⟨rfl, hco,
          findScript_none ((subScriptAfter_eq_self_iff (by decide)).1 hnc)⟩)
      · rw [if_neg hco] at hnc
        refine Or.inr (Or.inr ⟨rfl, Bool.eq_false_iff.2 hco, ?_⟩)
        exact (firstOcc_none_iff aHead st.content).1
          ((subBefore_eq_self_iff (by decide) (by decide)).1 hnc)
    · rw [if_neg hnc]
      left
      show mClip <:+: step3sub st.content
      rw [step3sub] at hnc ⊢
      by_cases hco : containsSub mCour st.content = true
      · rw [if_pos hco] at hnc ⊢
        rcases subScriptAfter_shape tClipA st.content with heq | ⟨a, b, hab, heq, hanc⟩
        · exact absurd heq hnc
        · rw [heq]
          exact infx_ins a b (by decide)
      · rw [if_neg hco] at hnc ⊢
        rcases subBefore_shape aHead tClipB st.content (by decide)
            with heq | ⟨a, b, hab, heq, hanc⟩
        · exact absurd heq hnc
        · rw [heq]
          exact infx_ins a b (by decide)

theorem step4_post (st : UsState) :
    mSkip <:+: (step4 st).content
    ∨ ((step4 st).content = st.content ∧ ¬ aBody <:+: st.content) := by
  rw [step4]
  by_cases hsk : containsSub mSkip st.content = true
  · rw [hsk]
    simp only [Bool.not_true, Bool.false_and, Bool.false_eq_true, if_false]
    exact Or.inl ((containsSub_iff _ _).1 hsk)
  · by_cases hb : containsSub aBody st.content = true
    · have hg : (!containsSub mSkip st.content && containsSub aBody st.content) = true := by
        rw [Bool.eq_false_iff.2 hsk, hb]
        rfl
      rw [if_pos hg]
      by_cases hnc : subAfter aBody tSkip st.content = st.content
      · exfalso
        have := (firstOcc_none_iff aBody st.content).1
          ((subAfter_eq_self_iff (by decide) (by decide)).1 hnc)
        exact this ((containsSub_iff _ _).1 hb)
      · rw [if_neg hnc]
        rcases subAfter_shape aBody tSkip st.content (by decide)
            with heq | ⟨a, b, hab, heq, hanc⟩
        · exact absurd heq hnc
        · left
          show mSkip <:+: subAfter aBody tSkip st.content
          rw [heq]
          exact infx_ins a b (by decide)
    · have hg : (!containsSub mSkip st.content && containsSub aBody st.content) = false := by
        rw [Bool.eq_false_iff.2 hb, Bool.and_false]
      rw [hg, if_neg (by decide : ¬ (false = true))]
      exact Or.inr ⟨rfl, fun hc => hb ((containsSub_iff _ _).2 hc)⟩

theorem step5_post (st : UsState) :
    mProg <:+: (step5 st).content
    ∨ ((step5 st).content = st.content ∧ containsSub mSkip st.content = false)
    ∨ ((step5 st).content = st.content ∧ ¬ skipLine <:+: st.content) := by
  rw [step5]
  by_cases hp : containsSub mProg st.content = true
  · rw [hp]
    simp only [Bool.not_true, Bool.false_and, Bool.false_eq_true, if_false]
    exact Or.inl ((containsSub_iff _ _).1 hp)
  · by_cases hsk : containsSub mSkip st.content = true
    · have hg : (!containsSub mProg st.content && containsSub mSkip st.content) = true := by
        rw [Bool.eq_false_iff.2 hp, hsk]
        rfl
      rw [if_pos hg]
      by_cases hnc : subAfter skipLine tProg st.content = st.content
      · rw [if_pos hnc]
        refine Or.inr (Or.inr ⟨rfl, ?_⟩)
        exact (firstOcc_none_iff skipLine st.content).1
          ((subAfter_eq_self_iff (by decide) (by decide)).1 hnc)
      · rw [if_neg hnc]
        rcases subAfter_shape skipLine tProg st.content (by decide)
            with heq | ⟨a, b, hab, heq, hanc⟩
        · exact absurd heq hnc
        · left
          show mProg <:+: subAfter skipLine tProg st.content
          rw [heq]
          exact infx_ins a b (by decide)
    · have hg : (!containsSub mProg st.content && containsSub mSkip st.content) = false := by
        rw [Bool.eq_false_iff.2 hsk, Bool.and_false]
      rw [hg, if_neg (by decide : ¬ (false = true))]
      exact Or.inr (Or.inl ⟨rfl, Bool.eq_false_iff.2 hsk⟩)

theorem step6_post (st : UsState) :
    mMain <:+: (step6 st).content
    ∨ ((step6 st).content = st.content ∧ containsSub wH1 st.content = false) := by
  rw [step6]
  by_cases hm : containsSub mMain st.content = true
  · rw [hm]
    simp only [Bool.not_true, Bool.false_and, Bool.false_eq_true, if_false]
    exact Or.inl ((containsSub_iff _ _).1 hm)
  · by_cases hh : containsSub wH1 st.content = true
    · have hg : (!containsSub mMain st.content && containsSub wH1 st.content) = true := by
        rw [Bool.eq_false_iff.2 hm, hh]
        rfl
      rw [if_pos hg]
      by_cases hnc : subH1Before tMainOpen st.content = st.content
      · exfalso
        exact findH1_isSome_of_wH1 ((containsSub_iff _ _).1 hh)
          ((subH1Before_eq_self_iff (by decide)).1 hnc)
      · rw [if_neg hnc]
        left
        show mMain <:+: subBefore aBodyClose tMainClose (subH1Before tMainOpen st.content)
        rcases subH1Before_shape tMainOpen st.content with heq | ⟨a, b, hab, heq, hanc⟩
        · exact absurd heq hnc
        · have h1 : mMain <:+: subH1Before tMainOpen st.content := by
            rw [heq]
            exact infx_ins a b (by decide)
          rcases subBefore_shape aBodyClose tMainClose (subH1Before tMainOpen st.content)
              (by decide) with heq2 | ⟨a2, b2, hab2, heq2, hanc2⟩
          · rw [heq2]
            exact h1
          · rw [heq2]
            exact pres_insert_before hanc2 (ballSwap (by decide)) (hab2 ▸ h1)
    · have hg : (!containsSub mMain st.content && containsSub wH1 st.content) = false := by
        rw [Bool.eq_false_iff.2 hh, Bool.and_false]
      rw [hg, if_neg (by decide : ¬ (false = true))]
      exact Or.inr ⟨rfl, Bool.eq_false_iff.2 hh⟩

end UpdateStructure

namespace UpdateStructure

/-! ### After one full run, every edit's guard (or fallback) blocks a second firing -/

theorem run2_step1cond (c : Str) :
    containsSub mEnh (update_html_content c).content = true
    ∨ ¬ HasLink (update_html_content c).content := by
  rcases step1_post ⟨c, []⟩ with h | ⟨heq, hnl⟩
  · left
    refine (containsSub_iff _ _).2 ?_
    exact step6_pres (by decide) (by decide)
      (step5_pres (by decide)
      (step4_pres (by decide)
      (step3_pres (by decide) (by decide)
      (step2_pres (by decide) h))))
  · right
    have h1 : ¬ HasLink (step1 ⟨c, []⟩).content := by
      rw [heq]; exact hnl
    exact step6_absHasLink (step5_absHasLink (step4_absHasLink
      (step3_absHasLink (step2_absHasLink h1))))

theorem run2_step2cond (c : Str) :
    containsSub mCour (update_html_content c).content = true
    ∨ containsSub aHead (update_html_content c).content = false := by
  rcases step2_post (step1 ⟨c, []⟩) with h | ⟨heq, hna⟩
  · left
    refine (containsSub_iff _ _).2 ?_
    exact step6_pres (by decide) (by decide)
      (step5_pres (by decide)
      (step4_pres (by decide)
      (step3_pres (by decide) (by decide) h)))
  · right
    have h2 : ¬ aHead <:+: (step2 (step1 ⟨c, []⟩)).content := by
      rw [heq]; exact hna
    refine containsSub_eq_false ?_
    exact step6_abs (by decide) (by decide) (by decide) (by decide)
      (by decide) (by decide) (by decide) (by decide)
      (step5_abs (by decide) (by decide) (by decide) (by decide)
      (step4_abs (by decide) (by decide) (by decide) (by decide)
      (step3_abs (by decide) (by decide) (by decide) (by decide)
        (by decide) (by decide) (by decide) (by decide) h2)))

theorem run2_step3cond (c : Str) :
    containsSub mClip (update_html_content c).content = true
    ∨ step3sub (update_html_content c).content = (update_html_content c).content := by
  rcases step3_post (step2 (step1 ⟨c, []⟩)) with h | ⟨heq, hco, hns⟩ | ⟨heq, hco, hna⟩
  · left
    refine (containsSub_iff _ _).2 ?_
    exact step6_pres (by decide) (by decide)
      (step5_pres (by decide)
      (step4_pres (by decide) h))
  · right
    have hpc : mCour <:+: (update_html_content c).content := by
      have h0 : mCour <:+: (step3 (step2 (step1 ⟨c, []⟩))).content := by
        rw [heq]; exact (containsSub_iff _ _).1 hco
      exact step6_pres (by decide) (by decide)
        (step5_pres (by decide)
        (step4_pres (by decide) h0))
    have hnsF : ¬ HasScript (update_html_content c).content := by
      have h0 : ¬ HasScript (step3 (step2 (step1 ⟨c, []⟩))).content := by
        rw [heq]; exact hns
      exact step6_absHasScript (step5_absHasScript (step4_absHasScript h0))
    rw [step3sub, if_pos ((containsSub_iff _ _).2 hpc)]
    exact subScriptAfter_self_of_not_has hnsF
  · right
    have hpcF : ¬ mCour <:+: (update_html_content c).content := by
      have h0 : ¬ mCour <:+: (step3 (step2 (step1 ⟨c, []⟩))).content := by
        rw [heq]
        exact fun hc => (Bool.eq_false_iff.1 hco) ((containsSub_iff _ _).2 hc)
      exact step6_abs (by decide) (by decide) (by decide) (by decide)
        (by decide) (by decide) (by decide) (by decide)
        (step5_abs (by decide) (by decide) (by decide) (by decide)
        (step4_abs (by decide) (by decide) (by decide) (by decide) h0))
    have hnaF : ¬ aHead <:+: (update_html_content c).content := by
      have h0 : ¬ aHead <:+: (step3 (step2 (step1 ⟨c, []⟩))).content := by
        rw [heq]; exact hna
      exact step6_abs (by decide) (by decide) (by decide) (by decide)
        (by decide) (by decide) (by decide) (by decide)
        (step5_abs (by decide) (by decide) (by decide) (by decide)
        (step4_abs (by decide) (by decide) (by decide) (by decide) h0))
    rw [step3sub, if_neg ?hg]
    case hg =>
      rw [containsSub_eq_false hpcF]
      exact Bool.false_ne_true
    exact subBefore_self_of_not_infx hnaF

theorem run2_step4cond (c : Str) :
    containsSub mSkip (update_html_content c).content = true
    ∨ containsSub aBody (update_html_content c).content = false := by
  rcases step4_post (step3 (step2 (step1 ⟨c, []⟩))) with h | ⟨heq, hnb⟩
  · left
    refine (containsSub_iff _ _).2 ?_
    exact step6_pres (by decide) (by decide) (step5_pres (by decide) h)
  · right
    have h0 : ¬ aBody <:+: (step4 (step3 (step2 (step1 ⟨c, []⟩)))).content := by
      rw [heq]; exact hnb
    refine containsSub_eq_false ?_
    exact step6_abs (by decide) (by decide) (by decide) (by decide)
      (by decide) (by decide) (by decide) (by decide)
      (step5_abs (by decide) (by decide) (by decide) (by decide) h0)

theorem run2_step5cond (c : Str) :
    containsSub mProg (update_html_content c).content = true
    ∨ containsSub mSkip (update_html_content c).content = false
    ∨ subAfter skipLine tProg (update_html_content c).content
        = (update_html_content c).content := by
  rcases step5_post (step4 (step3 (step2 (step1 ⟨c, []⟩))))
      with h | ⟨heq, hskF⟩ | ⟨heq, hnsl⟩
  · left
    refine (containsSub_iff _ _).2 ?_
    exact step6_pres (by decide) (by decide) h
  · refine Or.inr (Or.inl ?_)
    have h0 : ¬ mSkip <:+: (step5 (step4 (step3 (step2 (step1 ⟨c, []⟩))))).content := by
      rw [heq]
      exact fun hc => (Bool.eq_false_iff.1 hskF) ((containsSub_iff _ _).2 hc)
    refine containsSub_eq_false ?_
    exact step6_abs (by decide) (by decide) (by decide) (by decide)
      (by decide) (by decide) (by decide) (by decide) h0
  · refine Or.inr (Or.inr ?_)
    have h0 : ¬ skipLine <:+: (step5 (step4 (step3 (step2 (step1 ⟨c, []⟩))))).content := by
      rw [heq]; exact hnsl
    refine subAfter_self_of_not_infx ?_
    exact step6_abs (by decide) (by decide) (by decide) (by decide)
      (by decide) (by decide) (by decide) (by decide) h0

theorem run2_step6cond (c : Str) :
    containsSub mMain (update_html_content c).content = true
    ∨ containsSub wH1 (update_html_content c).content = false := by
  rcases step6_post (step5 (step4 (step3 (step2 (step1 ⟨c, []⟩))))) with h | ⟨heq, hw⟩
  · exact Or.inl ((containsSub_iff _ _).2 h)
  · right
    show containsSub wH1 (step6 (step5 (step4 (step3 (step2 (step1 ⟨c, []⟩)))))).content
        = false
    rw [heq]
    exact hw

/-- A second full run over already-updated content changes nothing and records
no change messages. -/
theorem us_idem (c : Str) :
    update_html_content (update_html_content c).content
      = ⟨(update_html_content c).content, []⟩ := by
  have i1 := run2_step1cond c
  have i2 := run2_step2cond c
  have i3 := run2_step3cond c
  have i4 := run2_step4cond c
  have i5 := run2_step5cond c
  have i6 := run2_step6cond c
  have e1 : step1 ⟨(update_html_content c).content, []⟩
      = ⟨(update_html_content c).content, []⟩ := by
    refine step1_inert ?_
    rcases i1 with h | h
    · exact Or.inl h
    · exact Or.inr (subLink_self_of_not_has h)
  have e2 : step2 ⟨(update_html_content c).content, []⟩
      = ⟨(update_html_content c).content, []⟩ := step2_inert i2
  have e3 : step3 ⟨(update_html_content c).content, []⟩
      = ⟨(update_html_content c).content, []⟩ := step3_inert i3
  have e4 : step4 ⟨(update_html_content c).content, []⟩
      = ⟨(update_html_content c).content, []⟩ := step4_inert i4
  have e5 : step5 ⟨(update_html_content c).content, []⟩
      = ⟨(update_html_content c).content, []⟩ := step5_inert i5
  have e6 : step6 ⟨(update_html_content c).content, []⟩
      = ⟨(update_html_content c).content, []⟩ := step6_inert i6
  show step6 (step5 (step4 (step3 (step2 (step1
      ⟨(update_html_content c).content, []⟩))))) = ⟨(update_html_content c).content, []⟩
  rw [e1, e2, e3, e4, e5, e6]

/-! ### Each edit, applied alone, is idempotent -/

theorem step1_idem (st : UsState) : step1 (step1 st) = step1 st := by
  rcases step1_post st with h | ⟨heq, hnl⟩
  · exact step1_inert (Or.inl ((containsSub_iff _ _).2 h))
  · refine step1_inert (Or.inr ?_)
    rw [heq]
    exact subLink_self_of_not_has hnl

theorem step2_idem (st : UsState) : step2 (step2 st) = step2 st := by
  rcases step2_post st with h | ⟨heq, hna⟩
  · exact step2_inert (Or.inl ((containsSub_iff _ _).2 h))
  · refine step2_inert (Or.inr ?_)
    rw [heq]
    exact containsSub_eq_false hna

theorem step3_idem (st : UsState) : step3 (step3 st) = step3 st := by
  rcases step3_post st with h | ⟨heq, hco, hns⟩ | ⟨heq, hco, hna⟩
  · exact step3_inert (Or.inl ((containsSub_iff _ _).2 h))
  · refine step3_inert (Or.inr ?_)
    rw [heq, step3sub, if_pos hco]
    exact subScriptAfter_self_of_not_has hns
  · refine step3_inert (Or.inr ?_)
    rw [heq, step3sub, if_neg ?hg]
    case hg =>
      rw [hco]
      exact Bool.false_ne_true
    exact subBefore_self_of_not_infx hna

theorem step4_idem (st : UsState) : step4 (step4 st) = step4 st := by
  rcases step4_post st with h | ⟨heq, hnb⟩
  · exact step4_inert (Or.inl ((containsSub_iff _ _).2 h))
  · refine step4_inert (Or.inr ?_)
    rw [heq]
    exact containsSub_eq_false hnb

theorem step5_idem (st : UsState) : step5 (step5 st) = step5 st := by
  rcases step5_post st with h | ⟨heq, hskF⟩ | ⟨heq, hnsl⟩
  · exact step5_inert (Or.inl ((containsSub_iff _ _).2 h))
  · refine step5_inert (Or.inr (Or.inl ?_))
    rw [heq]
    exact hskF
  · refine step5_inert (Or.inr (Or.inr ?_))
    rw [heq]
    exact subAfter_self_of_not_infx hnsl

theorem step6_idem (st : UsState) : step6 (step6 st) = step6 st := by
  rcases step6_post st with h | ⟨heq, hw⟩
  · exact step6_inert (Or.inl ((containsSub_iff _ _).2 h))
  · refine step6_inert (Or.inr ?_)
    rw [heq]
    exact hw

end UpdateStructure

namespace UpdateStructure

/-! ### The file-level wrapper of `update_structure.update_html_file` -/

/-- A file as `update_html_file` sees it: `read` is the content delivered by
the `open(...).read()` call (`none` when reading raises), `writeFails` says
whether the `open(...).write()` call raises. -/
structure UsFile where
  read : Option Str
  writeFails : Bool
deriving DecidableEq, Repr

/-- The `(success, result)` pair returned by `update_html_file`, with the
result strings collapsed to their four possible shapes. -/
inductive UsResult where
  | readError
  | noChanges
  | writeError
  | updated (changes : List String)
deriving DecidableEq, Repr

/-- Outcome of one `update_html_file` call: the returned `success` flag,
the returned result, and the on-disk content afterwards (`none` when the
file was unreadable; a raising write is modeled as leaving the old
content). -/
structure UsFileOutcome where
  success : Bool
  result : UsResult
  disk : Option Str
deriving DecidableEq, Repr

/-- The body of `update_html_file` after a successful read. -/
def us_uhf_content (writeFails : Bool) (content : Str) : UsFileOutcome :=
  if (update_html_content content).changes = [] then
    ⟨false, UsResult.noChanges, some content⟩
  else if writeFails then
    ⟨false, UsResult.writeError, some content⟩
  else
    ⟨true, UsResult.updated (update_html_content content).changes,
      some (update_html_content content).content⟩

/-- `update_structure.update_html_file`. -/
def us_update_html_file (f : UsFile) : UsFileOutcome :=
  match f.read with
  | none => ⟨false, UsResult.readError, none⟩
  | some content => us_uhf_content f.writeFails content

theorem us_uhf_none {f : UsFile} (h : f.read = none) :
    us_update_html_file f = ⟨false, UsResult.readError, none⟩ := by
  obtain ⟨r, w⟩ := f
  cases r with
  | none => rfl
  | some c2 => exact Option.noConfusion h

theorem us_uhf_some {f : UsFile} {content : Str} (h : f.read = some content) :
    us_update_html_file f = us_uhf_content f.writeFails content := by
  obtain ⟨r, w⟩ := f
  cases r with
  | none => exact Option.noConfusion h
  | some c2 =>
    have hc : c2 = content := Option.some.inj h
    subst hc
    rfl

/-! ### A step fires exactly when it changes the content -/

theorem step1_dicho (st : UsState) :
    step1 st = st
    ∨ ((step1 st).changes = st.changes ++ ["added enhanced.css"]
        ∧ st.content.length < (step1 st).content.length) := by
  rw [step1]
  by_cases hg : containsSub mEnh st.content = true
  · rw [if_pos hg]; exact Or.inl rfl
  · rw [if_neg hg]
    by_cases hnc : subLink tCss st.content = st.content
    · rw [if_pos hnc]; exact Or.inl rfl
    · rw [if_neg hnc]
      refine Or.inr ⟨rfl, ?_⟩
      rcases subLink_shape tCss st.content with heq | ⟨a, b, hab, heq, hanc⟩
      · exact absurd heq hnc
      · show st.content.length < (subLink tCss st.content).length
        rw [heq, hab]
        simp only [List.length_append]
        have h0 : 0 < tCss.length := by decide
        omega

theorem step2_dicho (st : UsState) :
    step2 st = st
    ∨ ((step2 st).changes = st.changes ++ ["added course-enhancements.js"]
        ∧ st.content.length < (step2 st).content.length) := by
  rw [step2]
  by_cases hg : containsSub mCour st.content = true
  · rw [if_pos hg]; exact Or.inl rfl
  · rw [if_neg hg]
    by_cases hh : containsSub aHead st.content = true
    · rw [if_pos hh]
      by_cases hnc : subBefore aHead tCour st.content = st.content
      · rw [if_pos hnc]; exact Or.inl rfl
      · rw [if_neg hnc]
        refine Or.inr ⟨rfl, ?_⟩
        rcases subBefore_shape aHead tCour st.content (by decide)
            with heq | ⟨a, b, hab, heq, hanc⟩
        · exact absurd heq hnc
        · show st.content.length < (subBefore aHead tCour st.content).length
          rw [heq, hab]
          simp only [List.length_append]
          have h0 : 0 < tCour.length := by decide
          omega
    · rw [if_neg hh]; exact Or.inl rfl

theorem step3_dicho (st : UsState) :
    step3 st = st
    ∨ ((step3 st).changes = st.changes ++ ["added clipboard.js"]
        ∧ st.content.length < (step3 st).content.length) := by
  rw [step3]
  by_cases hg : containsSub mClip st.content = true
  · rw [if_pos hg]; exact Or.inl rfl
  · rw [if_neg hg]
    by_cases hnc : step3sub st.content = st.content
    · rw [if_pos hnc]; exact Or.inl rfl
    · rw [if_neg hnc]
      refine Or.inr ⟨rfl, ?_⟩
      show st.content.length < (step3sub st.content).length
      rw [step3sub] at hnc ⊢
      by_cases hco : containsSub mCour st.content = true
      · rw [if_pos hco] at hnc ⊢
        rcases subScriptAfter_shape tClipA st.content with heq | ⟨a, b, hab, heq, hanc⟩
        · exact absurd heq hnc
        · rw [heq, hab]
          simp only [List.length_append]
          have h0 : 0 < tClipA.length := by decide
          omega
      · rw [if_neg hco] at hnc ⊢
        rcases subBefore_shape aHead tClipB st.content (by decide)
            with heq | ⟨a, b, hab, heq, hanc⟩
        · exact absurd heq hnc
        · rw [heq, hab]
          simp only [List.length_append]
          have h0 : 0 < tClipB.length := by decide
          omega

theorem step4_dicho (st : UsState) :
    step4 st = st
    ∨ ((step4 st).changes = st.changes ++ ["added skip-to-main link"]
        ∧ st.content.length < (step4 st).content.length) := by
  rw [step4]
  by_cases hg : (!containsSub mSkip st.content && containsSub aBody st.content) = true
  · rw [if_pos hg]
    by_cases hnc : subAfter aBody tSkip st.content = st.content
    · rw [if_pos hnc]; exact Or.inl rfl
    · rw [if_neg hnc]
      refine Or.inr ⟨rfl, ?_⟩
      rcases subAfter_shape aBody tSkip st.content (by decide)
          with heq | ⟨a, b, hab, heq, hanc⟩
      · exact absurd heq hnc
      · show st.content.length < (subAfter aBody tSkip st.content).length
        rw [heq, hab]
        simp only [List.length_append]
        have h0 : 0 < tSkip.length := by decide
        omega
  · rw [if_neg hg]; exact Or.inl rfl

theorem step5_dicho (st : UsState) :
    step5 st = st
    ∨ ((step5 st).changes = st.changes ++ ["added progress indicator"]
        ∧ st.content.length < (step5 st).content.length) := by
  rw [step5]
  by_cases hg : (!containsSub mProg st.content && containsSub mSkip st.content) = true
  · rw [if_pos hg]
    by_cases hnc : subAfter skipLine tProg st.content = st.content
    · rw [if_pos hnc]; exact Or.inl rfl
    · rw [if_neg hnc]
      refine Or.inr ⟨rfl, ?_⟩
      rcases subAfter_shape skipLine tProg st.content (by decide)
          with heq | ⟨a, b, hab, heq, hanc⟩
      · exact absurd heq hnc
      · show st.content.length < (subAfter skipLine tProg st.content).length
        rw [heq, hab]
        simp only [List.length_append]
        have h0 : 0 < tProg.length := by decide
        omega
  · rw [if_neg hg]; exact Or.inl rfl

theorem step6_dicho (st : UsState) :
    step6 st = st
    ∨ ((step6 st).changes = st.changes ++ ["added main wrapper"]
        ∧ st.content.length < (step6 st).content.length) := by
  rw [step6]
  by_cases hg : (!containsSub mMain st.content && containsSub wH1 st.content) = true
  · rw [if_pos hg]
    by_cases hnc : subH1Before tMainOpen st.content = st.content
    · rw [if_pos hnc]; exact Or.inl rfl
    · rw [if_neg hnc]
      refine Or.inr ⟨rfl, ?_⟩
      show st.content.length
          < (subBefore aBodyClose tMainClose (subH1Before tMainOpen st.content)).length
      have h1 : st.content.length < (subH1Before tMainOpen st.content).length := by
        rcases subH1Before_shape tMainOpen st.content with heq | ⟨a, b, hab, heq, hanc⟩
        · exact absurd heq hnc
        · rw [heq, hab]
          simp only [List.length_append]
          have h0 : 0 < tMainOpen.length := by decide
          omega
      rcases subBefore_shape aBodyClose tMainClose (subH1Before tMainOpen st.content)
          (by decide) with heq2 | ⟨a2, b2, hab2, heq2, hanc2⟩
      · rw [heq2]; exact h1
      · rw [heq2]
        have h2 := congrArg List.length hab2
        simp only [List.length_append] at h1 h2 ⊢
        omega
  · rw [if_neg hg]; exact Or.inl rfl

theorem us_accum {c : Str} {st st' : UsState} {m : String}
    (hd : st' = st ∨ (st'.changes = st.changes ++ [m]
        ∧ st.content.length < st'.content.length))
    (hinv : st = ⟨c, []⟩ ∨ (st.changes ≠ [] ∧ c.length < st.content.length)) :
    st' = ⟨c, []⟩ ∨ (st'.changes ≠ [] ∧ c.length < st'.content.length) := by
  rcases hd with rfl | ⟨hch, hlt⟩
  · exact hinv
  · right
    refine ⟨?_, ?_⟩
    · rw [hch]
      intro hnil
      have hlen := congrArg List.length hnil
      simp at hlen
    · rcases hinv with rfl | ⟨_, hlt2⟩
      · exact hlt
      · omega

theorem us_changes_dicho (c : Str) :
    update_html_content c = ⟨c, []⟩
    ∨ ((update_html_content c).changes ≠ []
        ∧ c.length < (update_html_content c).content.length) := by
  have h1 := us_accum (step1_dicho ⟨c, []⟩) (Or.inl rfl)
  have h2 := us_accum (step2_dicho _) h1
  have h3 := us_accum (step3_dicho _) h2
  have h4 := us_accum (step4_dicho _) h3
  have h5 := us_accum (step5_dicho _) h4
  exact us_accum (step6_dicho _) h5

/-- The `changes_made` list is empty precisely when the content is still
byte-identical to what was read. -/
theorem us_changes_nil_iff (c : Str) :
    (update_html_content c).changes = [] ↔ (update_html_content c).content = c := by
  rcases us_changes_dicho c with heq | ⟨hne, hlt⟩
  · rw [heq]
    exact ⟨fun _ => rfl, fun _ => rfl⟩
  · constructor
    · intro h
      exact absurd h hne
    · intro h
      rw [h] at hlt
      omega

end UpdateStructure

/-- C9: `update_structure.update_html_file` writes only when an edit changed
the content: the change list is empty iff the content is unchanged; with no
change the file is not rewritten, the disk keeps the original bytes and the
call reports "no changes needed"; with a change and a working write the new
content is written and the changes reported; a read error modifies nothing
and reports the read failure. -/
theorem C9_write_only_on_change (f : UpdateStructure.UsFile) (content : Str)
    (h : f.read = some content) :
    ((UpdateStructure.update_html_content content).changes = []
        ↔ (UpdateStructure.update_html_content content).content = content)
    ∧ ((UpdateStructure.update_html_content content).content = content →
        UpdateStructure.us_update_html_file f
          = ⟨false, UpdateStructure.UsResult.noChanges, some content⟩)
    ∧ (f.writeFails = false →
        (UpdateStructure.update_html_content content).content ≠ content →
        UpdateStructure.us_update_html_file f
          = ⟨true, UpdateStructure.UsResult.updated
                (UpdateStructure.update_html_content content).changes,
              some (UpdateStructure.update_html_content content).content⟩)
    ∧ (∀ g : UpdateStructure.UsFile, g.read = none →
        UpdateStructure.us_update_html_file g
          = ⟨false, UpdateStructure.UsResult.readError, none⟩) := by
  refine ⟨UpdateStructure.us_changes_nil_iff content, ?_, ?_, ?_⟩
  · intro hcc
    rw [UpdateStructure.us_uhf_some h]
    simp only [UpdateStructure.us_uhf_content]
    rw [if_pos ((UpdateStructure.us_changes_nil_iff content).2 hcc)]
  · intro hw hcc
    have hne : ¬ (UpdateStructure.update_html_content content).changes = [] :=
      fun hnil => hcc ((UpdateStructure.us_changes_nil_iff content).1 hnil)
    rw [UpdateStructure.us_uhf_some h]
    simp only [UpdateStructure.us_uhf_content]
    rw [if_neg hne, hw, if_neg (by decide : ¬ (false = true))]
  · intro g hg
    exact UpdateStructure.us_uhf_none hg

/-- Witness for C9: a one-character file needs no edits, is not rewritten,
and reports "no changes needed". -/
theorem C9_write_only_on_change_witness :
    UpdateStructure.us_update_html_file ⟨some (lit "x"), false⟩
      = ⟨false, UpdateStructure.UsResult.noChanges, some (lit "x")⟩ :=
  (C9_write_only_on_change ⟨some (lit "x"), false⟩ (lit "x") rfl).2.1 (by decide)

/-! ## Tree model of the BeautifulSoup documents of `fix_navigation` -/

/-- A forest of sibling HTML nodes, as `BeautifulSoup` holds them. An
element carries its tag, its raw attribute text (reproduced verbatim by
the serializer), the parsed class list (what `class_=` matching sees),
its children and its following siblings. -/
inductive Forest where
  | nil : Forest
  | textC (s : Str) (rest : Forest) : Forest
  | elemC (tag : Str) (attrs : Str) (cls : List Str) (children : Forest)
      (rest : Forest) : Forest
deriving DecidableEq, Repr

namespace FixNavigation

/-- `str(soup)`: serialize the document back to text. -/
def serializeF : Forest → Str
  | Forest.nil => []
  | Forest.textC s r => s ++ serializeF r
  | Forest.elemC t a _ ch r =>
      lit "<" ++ t ++ a ++ lit ">" ++ serializeF ch ++ lit "</" ++ t ++ lit ">"
        ++ serializeF r

/-- Does any element of the forest satisfy the tag/class/children test?
(`soup.find(...) is not None`). -/
def exF (p : Str → List Str → Forest → Bool) : Forest → Bool
  | Forest.nil => false
  | Forest.textC _ r => exF p r
  | Forest.elemC t _ c ch r => p t c ch || exF p ch || exF p r

/-- `soup.find(...).replace_with(new)`: replace the first matching element
(document order) with the element `(nt, na, nc, nch)`. -/
def replF (p : Str → List Str → Forest → Bool)
    (nt : Str) (na : Str) (nc : List Str) (nch : Forest) : Forest → Forest
  | Forest.nil => Forest.nil
  | Forest.textC s r => Forest.textC s (replF p nt na nc nch r)
  | Forest.elemC t a c ch r =>
      if p t c ch then Forest.elemC nt na nc nch r
      else if exF p ch then Forest.elemC t a c (replF p nt na nc nch ch) r
      else Forest.elemC t a c ch (replF p nt na nc nch r)

/-- Apply `f` to the children of the first matching element (document
order); identity when nothing matches (`body = soup.find('body'); if body:`). -/
def modifyFirst (p : Str → List Str → Forest → Bool) (f : Forest → Forest) :
    Forest → Forest
  | Forest.nil => Forest.nil
  | Forest.textC s r => Forest.textC s (modifyFirst p f r)
  | Forest.elemC t a c ch r =>
      if p t c ch then Forest.elemC t a c (f ch) r
      else if exF p ch then Forest.elemC t a c (modifyFirst p f ch) r
      else Forest.elemC t a c ch (modifyFirst p f r)

/-- Concatenate two sibling forests (`body.append(...)` appends at the
end of the children forest). -/
def appF : Forest → Forest → Forest
  | Forest.nil, b => b
  | Forest.textC s r, b => Forest.textC s (appF r b)
  | Forest.elemC t a c ch r, b => Forest.elemC t a c ch (appF r b)

/-- `soup.find('nav', class_='breadcrumb')`. -/
def isBC (t : Str) (c : List Str) (_ : Forest) : Bool :=
  decide (t = lit "nav") && decide (lit "breadcrumb" ∈ c)

/-- `soup.find('footer')`. -/
def isFooterT (t : Str) (_ : List Str) (_ : Forest) : Bool :=
  decide (t = lit "footer")

/-- `soup.find('body')`. -/
def isBodyT (t : Str) (_ : List Str) (_ : Forest) : Bool :=
  decide (t = lit "body")

/-- `soup.find('head')`. -/
def isHeadT (t : Str) (_ : List Str) (_ : Forest) : Bool :=
  decide (t = lit "head")

/-- A tag's `.string`: its single text child, or the `.string` of its
single element child, else nothing. -/
def chString : Forest → Option Str
  | Forest.nil => none
  | Forest.textC s rest =>
      match rest with
      | Forest.nil => some s
      | _ => none
  | Forest.elemC _ _ _ ch rest =>
      match rest with
      | Forest.nil => chString ch
      | _ => none

/-- The `re.compile('breadcrumb|navigation-links')` filter. -/
def hasNavMarker (s : Str) : Bool :=
  containsSub (lit "breadcrumb") s || containsSub (lit "navigation-links") s

/-- `soup.find('style', string=re.compile('breadcrumb|navigation-links'))`. -/
def isNavStyle (t : Str) (_ : List Str) (ch : Forest) : Bool :=
  decide (t = lit "style")
    && (match chString ch with
        | some s => hasNavMarker s
        | none => false)

/-- Attribute text of the generated breadcrumb `nav`. -/
def bcAttrs : Str := lit " class=\"breadcrumb\""

/-- Class list of the generated breadcrumb `nav`. -/
def bcCls : List Str := [lit "breadcrumb"]

/-- Children of the parsed `create_breadcrumb_html(lesson)` fragment's
`nav` element. -/
def bcChildren (lesson : Lesson) : Forest :=
  Forest.textC (lit "\n        ")
    (Forest.elemC (lit "a") (lit " href=\"index.html\"") []
      (Forest.textC (lit "Home") Forest.nil)
      (Forest.textC (lit " &gt; \n        ")
        (Forest.elemC (lit "a")
          (lit " href=\"index.html#module" ++ (toString lesson.module_num).toList
            ++ lit "\"") []
          (Forest.textC lesson.module_name.toList Forest.nil)
          (Forest.textC (lit " &gt; \n        ")
            (Forest.elemC (lit "span") (lit "") []
              (Forest.textC lesson.title.toList Forest.nil)
              (Forest.textC (lit "\n    ") Forest.nil))))))

/-- The previous-lesson slot of the parsed footer fragment. -/
def fnPrevNode (lesson : Lesson) (rest : Forest) : Forest :=
  match get_previous_lesson lesson with
  | some prev =>
      Forest.elemC (lit "a")
        (lit " href=\"" ++ prev.filename.toList ++ lit "\" class=\"nav-prev\"")
        [lit "nav-prev"]
        (Forest.textC (lit "&larr; Previous: " ++ prev.title.toList) Forest.nil) rest
  | none => Forest.elemC (lit "span") (lit " class=\"nav-prev\"") [lit "nav-prev"]
      Forest.nil rest

/-- The home slot of the parsed footer fragment. -/
def fnHomeNode (rest : Forest) : Forest :=
  Forest.elemC (lit "a") (lit " href=\"index.html\" class=\"nav-home\"")
    [lit "nav-home"]
    (Forest.textC (lit "🏠 Course Home") Forest.nil) rest

/-- The next-lesson slot of the parsed footer fragment. -/
def fnNextNode (lesson : Lesson) (rest : Forest) : Forest :=
  match get_next_lesson lesson with
  | some next =>
      Forest.elemC (lit "a")
        (lit " href=\"" ++ next.filename.toList ++ lit "\" class=\"nav-next\"")
        [lit "nav-next"]
        (Forest.textC (lit "Next: " ++ next.title.toList ++ lit " &rarr;") Forest.nil)
        rest
  | none => Forest.elemC (lit "span") (lit " class=\"nav-next\"") [lit "nav-next"]
      Forest.nil rest

/-- Children of the parsed `create_footer_navigation(lesson)` fragment's
`footer` element (the `'\n    '.join` whitespace becomes text nodes). -/
def footChildren (lesson : Lesson) : Forest :=
  Forest.textC (lit "\n    ")
    (Forest.elemC (lit "div") (lit " class=\"navigation-links\"")
      [lit "navigation-links"]
      (Forest.textC (lit "\n    ")
        (fnPrevNode lesson
          (Forest.textC (lit "\n    ")
            (fnHomeNode
              (Forest.textC (lit "\n    ")
                (fnNextNode lesson
                  (Forest.textC (lit "\n    ") Forest.nil)))))))
      (Forest.textC (lit "\n    ") Forest.nil))

/-- The CSS payload put into the generated `style` tag. -/
def navCss : Str := lit "\n        .breadcrumb \x7b\n            background: #f8f9fa;\n            padding: 1rem;\n            border-radius: 5px;\n            margin-bottom: 2rem;\n            font-size: 0.9rem;\n        \x7d\n        \n        .breadcrumb a \x7b\n            color: #667eea;\n            text-decoration: none;\n        \x7d\n        \n        .breadcrumb a:hover \x7b\n            text-decoration: underline;\n        \x7d\n        \n        .navigation-links \x7b\n            display: flex;\n            justify-content: space-between;\n            align-items: center;\n            padding: 2rem 0;\n            margin-top: 3rem;\n            border-top: 2px solid #e0e0e0;\n        \x7d\n        \n        .navigation-links a \x7b\n            color: #667eea;\n            text-decoration: none;\n            font-weight: 500;\n            padding: 0.5rem 1rem;\n            border-radius: 5px;\n            transition: all 0.3s ease;\n        \x7d\n        \n        .navigation-links a:hover \x7b\n            background: #f0f0f0;\n        \x7d\n        \n        .nav-prev, .nav-next \x7b\n            flex: 1;\n        \x7d\n        \n        .nav-next \x7b\n            text-align: right;\n        \x7d\n        \n        .nav-home \x7b\n            text-align: center;\n        \x7d\n        "

/-- The generated `style` tag as a single-element forest. -/
def styleNodeF (rest : Forest) : Forest :=
  Forest.elemC (lit "style") (lit "") [] (Forest.textC navCss Forest.nil) rest

/-- Breadcrumb pass of `update_html_file`: replace the first breadcrumb
nav, else insert one as the first child of the first `body`. -/
def navStep (lesson : Lesson) (d : Forest) : Forest :=
  if exF isBC d then
    replF isBC (lit "nav") bcAttrs bcCls (bcChildren lesson) d
  else
    modifyFirst isBodyT
      (fun ch => Forest.elemC (lit "nav") bcAttrs bcCls (bcChildren lesson) ch) d

/-- Footer pass: replace the first `footer`, else append one to the first
`body`. -/
def footStep (lesson : Lesson) (d : Forest) : Forest :=
  if exF isFooterT d then
    replF isFooterT (lit "footer") (lit "") [] (footChildren lesson) d
  else
    modifyFirst isBodyT
      (fun ch => appF ch (Forest.elemC (lit "footer") (lit "") []
        (footChildren lesson) Forest.nil)) d

/-- Style pass: if no style tag carries the navigation marker text, append
the CSS payload to the first `head`. -/
def styleStep (d : Forest) : Forest :=
  if exF isNavStyle d then d
  else modifyFirst isHeadT (fun ch => appF ch (styleNodeF Forest.nil)) d

/-- The in-memory transformation of `CourseNavigationFixer.update_html_file`:
breadcrumb, then footer, then style. -/
def fnUpdateDoc (lesson : Lesson) (d : Forest) : Forest :=
  styleStep (footStep lesson (navStep lesson d))

/-- `CourseNavigationFixer.update_html_file`: skip (returning `False`) when
the filename has no catalog entry, else transform and write the document
back, returning `True`. -/
def fn_update_html_file (name : String) (d : Forest) : Bool × Option Forest :=
  match get_lesson_by_filename name with
  | none => (false, none)
  | some lesson => (true, some (fnUpdateDoc lesson d))

end FixNavigation

namespace FixNavigation

/-! ### Find / replace / modify machinery facts -/

theorem exF_appF (p : Str → List Str → Forest → Bool) (x y : Forest) :
    exF p (appF x y) = (exF p x || exF p y) := by
  induction x with
  | nil => simp [appF, exF]
  | textC s r ih => simp [appF, exF, ih]
  | elemC t a c ch r ih1 ih2 => simp [appF, exF, ih2, Bool.or_assoc]

theorem modifyFirst_id {p : Str → List Str → Forest → Bool} {f : Forest → Forest}
    {d : Forest} (h : exF p d = false) : modifyFirst p f d = d := by
  induction d with
  | nil => rfl
  | textC s r ih =>
    simp only [exF] at h
    simp only [modifyFirst, ih h]
  | elemC t a c ch r ih1 ih2 =>
    simp only [exF, Bool.or_eq_false_iff] at h
    obtain ⟨⟨h1, h2⟩, h3⟩ := h
    simp only [modifyFirst]
    rw [if_neg (by rw [h1]; exact Bool.false_ne_true),
        if_neg (by rw [h2]; exact Bool.false_ne_true), ih2 h3]

theorem exF_replF {p : Str → List Str → Forest → Bool} {nt na : Str}
    {nc : List Str} {nch : Forest} (hr : p nt nc nch = true) {d : Forest}
    (h : exF p d = true) : exF p (replF p nt na nc nch d) = true := by
  induction d with
  | nil => exact absurd h (by simp [exF])
  | textC s r ih =>
    simp only [exF] at h
    simp only [replF, exF]
    exact ih h
  | elemC t a c ch r ih1 ih2 =>
    simp only [replF]
    by_cases h1 : p t c ch = true
    · rw [if_pos h1]
      simp [exF, hr]
    · rw [if_neg h1]
      by_cases h2 : exF p ch = true
      · rw [if_pos h2]
        simp [exF, ih1 h2]
      · rw [if_neg h2]
        simp only [exF, Bool.eq_false_iff.2 h1, Bool.eq_false_iff.2 h2,
          Bool.false_or] at h
        simp [exF, ih2 h]

theorem replF_idem {p : Str → List Str → Forest → Bool} {nt na : Str}
    {nc : List Str} {nch : Forest}
    (hp : ∀ t c ch ch2, p t c ch = p t c ch2)
    (hr : p nt nc nch = true) (d : Forest) :
    replF p nt na nc nch (replF p nt na nc nch d) = replF p nt na nc nch d := by
  induction d with
  | nil => rfl
  | textC s r ih => simp only [replF, ih]
  | elemC t a c ch r ih1 ih2 =>
    simp only [replF]
    by_cases h1 : p t c ch = true
    · rw [if_pos h1]
      simp only [replF, if_pos hr]
    · rw [if_neg h1]
      by_cases h2 : exF p ch = true
      · rw [if_pos h2]
        simp only [replF]
        have hc1 : ¬ (p t c (replF p nt na nc nch ch) = true) := by
          rw [hp t c (replF p nt na nc nch ch) ch]
          exact h1
        rw [if_neg hc1, if_pos (exF_replF hr h2), ih1]
      · rw [if_neg h2]
        simp only [replF]
        rw [if_neg h1, if_neg h2, ih2]

theorem exF_modifyFirst {p q : Str → List Str → Forest → Bool}
    {f : Forest → Forest} (hf : ∀ ch, exF p (f ch) = true) {d : Forest}
    (h : exF q d = true) : exF p (modifyFirst q f d) = true := by
  induction d with
  | nil => exact absurd h (by simp [exF])
  | textC s r ih =>
    simp only [exF] at h
    simp only [modifyFirst, exF]
    exact ih h
  | elemC t a c ch r ih1 ih2 =>
    simp only [modifyFirst]
    by_cases h1 : q t c ch = true
    · rw [if_pos h1]
      simp [exF, hf ch]
    · rw [if_neg h1]
      by_cases h2 : exF q ch = true
      · rw [if_pos h2]
        simp [exF, ih1 h2]
      · rw [if_neg h2]
        simp only [exF, Bool.eq_false_iff.2 h1, Bool.eq_false_iff.2 h2,
          Bool.false_or] at h
        simp [exF, ih2 h]

theorem exF_modifyFirst_pres {p q : Str → List Str → Forest → Bool}
    {f : Forest → Forest}
    (hp : ∀ t c ch ch2, p t c ch = p t c ch2)
    (hf : ∀ ch, exF p ch = false → exF p (f ch) = false) {d : Forest}
    (h : exF p d = false) : exF p (modifyFirst q f d) = false := by
  induction d with
  | nil => exact h
  | textC s r ih =>
    simp only [exF] at h
    simp only [modifyFirst, exF]
    exact ih h
  | elemC t a c ch r ih1 ih2 =>
    simp only [exF, Bool.or_eq_false_iff] at h
    obtain ⟨⟨h1, h2⟩, h3⟩ := h
    simp only [modifyFirst]
    by_cases hq1 : q t c ch = true
    · rw [if_pos hq1]
      simp only [exF, Bool.or_eq_false_iff]
      exact ⟨⟨by rw [hp t c (f ch) ch]; exact h1, hf ch h2⟩, h3⟩
    · rw [if_neg hq1]
      by_cases hq2 : exF q ch = true
      · rw [if_pos hq2]
        simp only [exF, Bool.or_eq_false_iff]
        exact ⟨⟨by rw [hp t c (modifyFirst q f ch) ch]; exact h1, ih1 h2⟩, h3⟩
      · rw [if_neg hq2]
        simp only [exF, Bool.or_eq_false_iff]
        exact ⟨⟨h1, h2⟩, ih2 h3⟩

theorem replF_appF {p : Str → List Str → Forest → Bool} {nt na : Str}
    {nc : List Str} {nch : Forest} {x : Forest} (hx : exF p x = false)
    (y : Forest) :
    replF p nt na nc nch (appF x y) = appF x (replF p nt na nc nch y) := by
  induction x with
  | nil => rfl
  | textC s r ih =>
    simp only [exF] at hx
    simp only [appF, replF, ih hx]
  | elemC t a c ch r ih1 ih2 =>
    simp only [exF, Bool.or_eq_false_iff] at hx
    obtain ⟨⟨h1, h2⟩, h3⟩ := hx
    simp only [appF, replF]
    rw [if_neg (by rw [h1]; exact Bool.false_ne_true),
        if_neg (by rw [h2]; exact Bool.false_ne_true), ih2 h3]

theorem replF_modifyFirst {p q : Str → List Str → Forest → Bool}
    {nt na : Str} {nc : List Str} {nch : Forest} {f : Forest → Forest}
    (hp : ∀ t c ch ch2, p t c ch = p t c ch2)
    (hf : ∀ ch, exF p (f ch) = true)
    (hin : ∀ ch, exF p ch = false → replF p nt na nc nch (f ch) = f ch)
    {d : Forest} (hd : exF p d = false) :
    replF p nt na nc nch (modifyFirst q f d) = modifyFirst q f d := by
  induction d with
  | nil => rfl
  | textC s r ih =>
    simp only [exF] at hd
    simp only [modifyFirst, replF, ih hd]
  | elemC t a c ch r ih1 ih2 =>
    simp only [exF, Bool.or_eq_false_iff] at hd
    obtain ⟨⟨h1, h2⟩, h3⟩ := hd
    simp only [modifyFirst]
    by_cases hq1 : q t c ch = true
    · rw [if_pos hq1]
      simp only [replF]
      have hc1 : ¬ (p t c (f ch) = true) := by
        rw [hp t c (f ch) ch, h1]
        exact Bool.false_ne_true
      rw [if_neg hc1, if_pos (hf ch), hin ch h2]
    · rw [if_neg hq1]
      by_cases hq2 : exF q ch = true
      · rw [if_pos hq2]
        simp only [replF]
        have hc1 : ¬ (p t c (modifyFirst q f ch) = true) := by
          rw [hp t c (modifyFirst q f ch) ch, h1]
          exact Bool.false_ne_true
        rw [if_neg hc1, if_pos (exF_modifyFirst hf hq2), ih1 h2]
      · rw [if_neg hq2]
        simp only [replF]
        rw [if_neg (by rw [h1]; exact Bool.false_ne_true),
            if_neg (by rw [h2]; exact Bool.false_ne_true), ih2 h3]

/-! ### The generated fragments match their own search patterns -/

theorem isBC_indep (t : Str) (c : List Str) (ch ch2 : Forest) :
    isBC t c ch = isBC t c ch2 := rfl

theorem isFooterT_indep (t : Str) (c : List Str) (ch ch2 : Forest) :
    isFooterT t c ch = isFooterT t c ch2 := rfl

theorem bc_node_isBC (ch : Forest) : isBC (lit "nav") bcCls ch = true := rfl

theorem foot_node_isFooter (ch : Forest) :
    isFooterT (lit "footer") ([] : List Str) ch = true := rfl

theorem exF_bc_elem (lesson : Lesson) (ch : Forest) :
    exF isBC (Forest.elemC (lit "nav") bcAttrs bcCls (bcChildren lesson) ch)
      = true := by
  simp [exF, bc_node_isBC]

theorem exF_foot_elem (lesson : Lesson) (rest : Forest) :
    exF isFooterT (Forest.elemC (lit "footer") (lit "") []
      (footChildren lesson) rest) = true := by
  simp [exF, foot_node_isFooter]

theorem style_node_matches :
    isNavStyle (lit "style") [] (Forest.textC navCss Forest.nil) = true := by
  decide

theorem exF_style_elem : exF isNavStyle (styleNodeF Forest.nil) = true := by
  simp [styleNodeF, exF, style_node_matches]

/-! ### Each edit class of `fix_navigation`, applied alone, is idempotent -/

theorem navStep_idem (lesson : Lesson) (d : Forest) :
    navStep lesson (navStep lesson d) = navStep lesson d := by
  by_cases h : exF isBC d = true
  · have e1 : navStep lesson d
        = replF isBC (lit "nav") bcAttrs bcCls (bcChildren lesson) d := by
      rw [navStep, if_pos h]
    have h2 : exF isBC (replF isBC (lit "nav") bcAttrs bcCls (bcChildren lesson) d)
        = true := exF_replF (bc_node_isBC (bcChildren lesson)) h
    rw [e1, navStep, if_pos h2]
    exact replF_idem isBC_indep (bc_node_isBC (bcChildren lesson)) d
  · have hd : exF isBC d = false := Bool.eq_false_iff.2 h
    have e1 : navStep lesson d
        = modifyFirst isBodyT
            (fun ch => Forest.elemC (lit "nav") bcAttrs bcCls (bcChildren lesson) ch)
            d := by
      rw [navStep, if_neg h]
    by_cases hb : exF isBodyT d = true
    · have h2 := exF_modifyFirst (fun ch => exF_bc_elem lesson ch) hb
      rw [e1, navStep, if_pos h2]
      exact replF_modifyFirst isBC_indep (fun ch => exF_bc_elem lesson ch)
        (fun ch hch => by
          simp only [replF]
          rw [if_pos (bc_node_isBC (bcChildren lesson))]) hd
    · have e2 : navStep lesson d = d := by
        rw [e1]
        exact modifyFirst_id (Bool.eq_false_iff.2 hb)
      rw [e2]
      exact e2

theorem footStep_idem (lesson : Lesson) (d : Forest) :
    footStep lesson (footStep lesson d) = footStep lesson d := by
  by_cases h : exF isFooterT d = true
  · have e1 : footStep lesson d
        = replF isFooterT (lit "footer") (lit "") [] (footChildren lesson) d := by
      rw [footStep, if_pos h]
    have h2 : exF isFooterT (replF isFooterT (lit "footer") (lit "") []
        (footChildren lesson) d) = true :=
      exF_replF (foot_node_isFooter (footChildren lesson)) h
    rw [e1, footStep, if_pos h2]
    exact replF_idem isFooterT_indep (foot_node_isFooter (footChildren lesson)) d
  · have hd : exF isFooterT d = false := Bool.eq_false_iff.2 h
    have e1 : footStep lesson d
        = modifyFirst isBodyT
            (fun ch => appF ch (Forest.elemC (lit "footer") (lit "") []
              (footChildren lesson) Forest.nil)) d := by
      rw [footStep, if_neg h]
    by_cases hb : exF isBodyT d = true
    · have hf : ∀ ch, exF isFooterT (appF ch (Forest.elemC (lit "footer") (lit "") []
          (footChildren lesson) Forest.nil)) = true := by
        intro ch
        rw [exF_appF, exF_foot_elem]
        exact Bool.or_true _
      have h2 := exF_modifyFirst hf hb
      rw [e1, footStep, if_pos h2]
      refine replF_modifyFirst isFooterT_indep hf ?_ hd
      intro ch hch
      rw [replF_appF hch]
      congr 1
    · have e2 : footStep lesson d = d := by
        rw [e1]
        exact modifyFirst_id (Bool.eq_false_iff.2 hb)
      rw [e2]
      exact e2

theorem styleStep_idem (d : Forest) : styleStep (styleStep d) = styleStep d := by
  by_cases h : exF isNavStyle d = true
  · have e1 : styleStep d = d := by rw [styleStep, if_pos h]
    rw [e1]
    exact e1
  · have e1 : styleStep d
        = modifyFirst isHeadT (fun ch => appF ch (styleNodeF Forest.nil)) d := by
      rw [styleStep, if_neg h]
    by_cases hh : exF isHeadT d = true
    · have hf : ∀ ch, exF isNavStyle (appF ch (styleNodeF Forest.nil)) = true := by
        intro ch
        rw [exF_appF, exF_style_elem]
        exact Bool.or_true _
      have h2 := exF_modifyFirst hf hh
      rw [e1, styleStep, if_pos h2]
    · have e2 : styleStep d = d := by
        rw [e1]
        exact modifyFirst_id (Bool.eq_false_iff.2 hh)
      rw [e2]
      exact e2

end FixNavigation

namespace FixNavigation

theorem fn_uhf_some {name : String} {lesson : Lesson}
    (h : get_lesson_by_filename name = some lesson) (d : Forest) :
    fn_update_html_file name d = (true, some (fnUpdateDoc lesson d)) := by
  simp only [fn_update_html_file, h]

theorem fn_uhf_none {name : String}
    (h : get_lesson_by_filename name = none) (d : Forest) :
    fn_update_html_file name d = (false, none) := by
  simp only [fn_update_html_file, h]

/-! ### The batch loop of `process_all_files` -/

/-- One file of the fix_navigation batch: its name, its parsed document,
and whether handling it raises an exception. -/
structure FnFile where
  name : String
  doc : Forest
  raises : Bool
deriving DecidableEq, Repr

/-- The boolean `update_html_file` hands the loop: `False` both for an
exception (caught inside) and for a filename with no catalog entry. -/
def fn_file_result (f : FnFile) : Bool :=
  if f.raises then false else (fn_update_html_file f.name f.doc).1

/-- The tallies of `process_all_files`: one success counter, one combined
Skipped/Failed counter, and the processed files in order. -/
structure FnReport where
  success : Nat
  skippedFailed : Nat
  attempted : List String
deriving DecidableEq, Repr

/-- The `process_all_files` loop over the sorted file list. -/
def fn_process_all (files : List FnFile) : FnReport :=
  files.foldl
    (fun acc f =>
      if fn_file_result f then
        ⟨acc.success + 1, acc.skippedFailed, acc.attempted ++ [f.name]⟩
      else
        ⟨acc.success, acc.skippedFailed + 1, acc.attempted ++ [f.name]⟩)
    ⟨0, 0, []⟩

theorem fn_process_all_go (files : List FnFile) (acc : FnReport) :
    List.foldl
      (fun acc f =>
        if fn_file_result f then
          FnReport.mk (acc.success + 1) acc.skippedFailed (acc.attempted ++ [f.name])
        else
          FnReport.mk acc.success (acc.skippedFailed + 1) (acc.attempted ++ [f.name]))
      acc files
      = ⟨acc.success + files.countP (fun f => fn_file_result f),
         acc.skippedFailed + files.countP (fun f => !fn_file_result f),
         acc.attempted ++ files.map FnFile.name⟩ := by
  induction files generalizing acc with
  | nil => simp
  | cons f fs ih =>
    rw [List.foldl_cons, ih]
    by_cases h : fn_file_result f = true
    · rw [if_pos h]
      simp only [List.countP_cons, h, Bool.not_true, List.map_cons,
        FnReport.mk.injEq]
      refine ⟨by simp only [if_true, if_false, Bool.false_eq_true]; omega, by simp only [if_true, if_false, Bool.false_eq_true]; omega, by simp⟩
    · have h2 : fn_file_result f = false := Bool.eq_false_iff.2 h
      rw [if_neg h]
      simp only [List.countP_cons, h2, Bool.not_false, List.map_cons,
        FnReport.mk.injEq]
      refine ⟨by simp only [if_true, if_false, Bool.false_eq_true]; omega, by simp only [if_true, if_false, Bool.false_eq_true]; omega, by simp⟩

theorem fn_file_result_false_iff (f : FnFile) :
    fn_file_result f = false
      ↔ (f.raises = true ∨ get_lesson_by_filename f.name = none) := by
  rw [fn_file_result]
  cases hr : f.raises with
  | true => simp
  | false =>
    simp only [Bool.false_eq_true, if_false, false_or]
    cases hl : get_lesson_by_filename f.name with
    | none => simp [fn_update_html_file, hl]
    | some l => simp [fn_update_html_file, hl]

end FixNavigation

namespace UpdateStructure

/-! ### The batch loop of `process_all_html_files` -/

/-- One file of the update_structure batch. -/
structure UsBatchFile where
  name : String
  read : Option Str
  writeFails : Bool
deriving DecidableEq, Repr

/-- The outcome `update_html_file` produces for one batch file. -/
def us_outcome (f : UsBatchFile) : UsFileOutcome :=
  us_update_html_file ⟨f.read, f.writeFails⟩

/-- Whether handling the file raises (read fails, or a write is attempted
and fails). -/
def us_raises (f : UsBatchFile) : Bool :=
  match f.read with
  | none => true
  | some content =>
      if (update_html_content content).changes = [] then false else f.writeFails

/-- The tallies of `process_all_html_files`. -/
structure UsReport where
  updated : Nat
  skipped : Nat
  failed : List String
  attempted : List String
deriving DecidableEq, Repr

/-- The `process_all_html_files` loop over the sorted file list. -/
def us_process_all (files : List UsBatchFile) : UsReport :=
  files.foldl
    (fun acc f =>
      if (us_outcome f).success then
        ⟨acc.updated + 1, acc.skipped, acc.failed, acc.attempted ++ [f.name]⟩
      else if (us_outcome f).result = UsResult.noChanges then
        ⟨acc.updated, acc.skipped + 1, acc.failed, acc.attempted ++ [f.name]⟩
      else
        ⟨acc.updated, acc.skipped, acc.failed ++ [f.name],
         acc.attempted ++ [f.name]⟩)
    ⟨0, 0, [], []⟩

/-- Per-file success test. -/
def usSuccessB (f : UsBatchFile) : Bool := (us_outcome f).success

/-- Per-file already-updated test. -/
def usNoChangeB (f : UsBatchFile) : Bool :=
  !(us_outcome f).success && decide ((us_outcome f).result = UsResult.noChanges)

theorem us_file_trichotomy (f : UsBatchFile) :
    ((us_outcome f).success = true ∧ us_raises f = false)
    ∨ ((us_outcome f).success = false
        ∧ (us_outcome f).result = UsResult.noChanges ∧ us_raises f = false)
    ∨ ((us_outcome f).success = false
        ∧ ¬ (us_outcome f).result = UsResult.noChanges ∧ us_raises f = true) := by
  obtain ⟨n, r, w⟩ := f
  cases r with
  | none =>
    right; right
    exact ⟨rfl, fun hc => UsResult.noConfusion hc, rfl⟩
  | some content =>
    by_cases hch : (update_html_content content).changes = []
    · right; left
      have e : us_outcome ⟨n, some content, w⟩
          = ⟨false, UsResult.noChanges, some content⟩ := by
        show us_uhf_content w content = _
        simp only [us_uhf_content]
        rw [if_pos hch]
      rw [e]
      refine ⟨rfl, rfl, ?_⟩
      show (if (update_html_content content).changes = [] then false else w) = false
      rw [if_pos hch]
    · cases w with
      | true =>
        right; right
        have e : us_outcome ⟨n, some content, true⟩
            = ⟨false, UsResult.writeError, some content⟩ := by
          show us_uhf_content true content = _
          simp only [us_uhf_content]
          rw [if_neg hch]
          rfl
        rw [e]
        refine ⟨rfl, fun hc => UsResult.noConfusion hc, ?_⟩
        show (if (update_html_content content).changes = [] then false else true) = true
        rw [if_neg hch]
      | false =>
        left
        have e : us_outcome ⟨n, some content, false⟩
            = ⟨true, UsResult.updated (update_html_content content).changes,
               some (update_html_content content).content⟩ := by
          show us_uhf_content false content = _
          simp only [us_uhf_content]
          rw [if_neg hch]
          rfl
        rw [e]
        refine ⟨rfl, ?_⟩
        show (if (update_html_content content).changes = [] then false else false) = false
        rw [if_neg hch]

theorem us_process_all_go (files : List UsBatchFile) (acc : UsReport) :
    List.foldl
      (fun acc f =>
        if (us_outcome f).success then
          UsReport.mk (acc.updated + 1) acc.skipped acc.failed
            (acc.attempted ++ [f.name])
        else if (us_outcome f).result = UsResult.noChanges then
          UsReport.mk acc.updated (acc.skipped + 1) acc.failed
            (acc.attempted ++ [f.name])
        else
          UsReport.mk acc.updated acc.skipped (acc.failed ++ [f.name])
            (acc.attempted ++ [f.name]))
      acc files
      = ⟨acc.updated + files.countP usSuccessB,
         acc.skipped + files.countP usNoChangeB,
         acc.failed ++ (files.filter us_raises).map UsBatchFile.name,
         acc.attempted ++ files.map UsBatchFile.name⟩ := by
  induction files generalizing acc with
  | nil => simp
  | cons f fs ih =>
    rw [List.foldl_cons, ih, List.filter_cons]
    rcases us_file_trichotomy f with ⟨h1, h2⟩ | ⟨h1, h2, h3⟩ | ⟨h1, h2, h3⟩
    · rw [if_pos h1]
      have hs : usSuccessB f = true := h1
      have hn : usNoChangeB f = false := by
        rw [usNoChangeB, h1]
        rfl
      rw [if_neg (by rw [h2]; exact Bool.false_ne_true)]
      simp only [List.countP_cons, hs, hn, List.map_cons, UsReport.mk.injEq]
      refine ⟨by simp only [if_true, if_false, Bool.false_eq_true]; omega, by simp only [if_true, if_false, Bool.false_eq_true]; omega, trivial, by simp⟩
    · rw [if_neg (by rw [h1]; exact Bool.false_ne_true), if_pos h2]
      have hs : usSuccessB f = false := h1
      have hn : usNoChangeB f = true := by
        rw [usNoChangeB, h1]
        simp [h2]
      rw [if_neg (by rw [h3]; exact Bool.false_ne_true)]
      simp only [List.countP_cons, hs, hn, List.map_cons, UsReport.mk.injEq]
      refine ⟨by simp only [if_true, if_false, Bool.false_eq_true]; omega, by simp only [if_true, if_false, Bool.false_eq_true]; omega, trivial, by simp⟩
    · rw [if_neg (by rw [h1]; exact Bool.false_ne_true), if_neg h2]
      have hs : usSuccessB f = false := h1
      have hn : usNoChangeB f = false := by
        rw [usNoChangeB, h1]
        simp [h2]
      rw [if_pos h3]
      simp only [List.countP_cons, hs, hn, List.map_cons, UsReport.mk.injEq]
      refine ⟨by simp only [if_true, if_false, Bool.false_eq_true]; omega, by simp only [if_true, if_false, Bool.false_eq_true]; omega, by simp, by simp⟩

end UpdateStructure

namespace FixNavigation

/-- The first catalog entry. -/
def lesson0 : Lesson :=
  ⟨1, 1, "filesystem_advanced_file_operations.html", "Advanced File Operations",
   "File and System Automation"⟩

/-- A document whose breadcrumb nav sits inside its footer: the footer
replacement of the first run deletes the freshly replaced breadcrumb, and
the second run re-inserts one at the top of the body. -/
def fnDoc0 : Forest :=
  Forest.elemC (lit "html") (lit "") []
    (Forest.elemC (lit "head") (lit "") []
      (Forest.elemC (lit "style") (lit "") []
        (Forest.textC (lit ".breadcrumb") Forest.nil) Forest.nil)
      (Forest.elemC (lit "body") (lit "") []
        (Forest.elemC (lit "footer") (lit "") []
          (Forest.elemC (lit "nav") (lit " class=\"breadcrumb\"") [lit "breadcrumb"]
            (Forest.textC (lit "x") Forest.nil) Forest.nil)
          Forest.nil)
        Forest.nil))
    Forest.nil

end FixNavigation

/-- C10: a catalogued document with no `body` element and no existing
breadcrumb or footer is processed without error: neither fragment is
inserted (only the style pass may touch the head), the document is still
re-serialized and written back, and the call returns `True`. -/
theorem C10_bodyless_doc_still_written (name : String) (lesson : Lesson)
    (d : Forest)
    (hlk : get_lesson_by_filename name = some lesson)
    (hbc : FixNavigation.exF FixNavigation.isBC d = false)
    (hft : FixNavigation.exF FixNavigation.isFooterT d = false)
    (hbd : FixNavigation.exF FixNavigation.isBodyT d = false) :
    FixNavigation.fn_update_html_file name d
      = (true, some (FixNavigation.styleStep d))
    ∧ FixNavigation.exF FixNavigation.isBC (FixNavigation.styleStep d) = false
    ∧ FixNavigation.exF FixNavigation.isFooterT (FixNavigation.styleStep d)
        = false := by
  have hnav : FixNavigation.navStep lesson d = d := by
    rw [FixNavigation.navStep, if_neg (by rw [hbc]; exact Bool.false_ne_true)]
    exact FixNavigation.modifyFirst_id hbd
  have hfoot : FixNavigation.footStep lesson d = d := by
    rw [FixNavigation.footStep, if_neg (by rw [hft]; exact Bool.false_ne_true)]
    exact FixNavigation.modifyFirst_id hbd
  refine ⟨?_, ?_, ?_⟩
  · rw [FixNavigation.fn_uhf_some hlk d, FixNavigation.fnUpdateDoc, hnav, hfoot]
  · rw [FixNavigation.styleStep]
    by_cases hs : FixNavigation.exF FixNavigation.isNavStyle d = true
    · rw [if_pos hs]
      exact hbc
    · rw [if_neg hs]
      refine FixNavigation.exF_modifyFirst_pres FixNavigation.isBC_indep ?_ hbc
      intro ch hch
      rw [FixNavigation.exF_appF, hch]
      rfl
  · rw [FixNavigation.styleStep]
    by_cases hs : FixNavigation.exF FixNavigation.isNavStyle d = true
    · rw [if_pos hs]
      exact hft
    · rw [if_neg hs]
      refine FixNavigation.exF_modifyFirst_pres FixNavigation.isFooterT_indep ?_ hft
      intro ch hch
      rw [FixNavigation.exF_appF, hch]
      rfl

/-- Witness for C10 at a concrete headless, bodyless document. -/
theorem C10_bodyless_doc_still_written_witness :
    FixNavigation.fn_update_html_file "filesystem_advanced_file_operations.html"
        (Forest.elemC (lit "html") (lit "") []
          (Forest.textC (lit "hi") Forest.nil) Forest.nil)
      = (true, some (FixNavigation.styleStep
          (Forest.elemC (lit "html") (lit "") []
            (Forest.textC (lit "hi") Forest.nil) Forest.nil))) :=
  (C10_bodyless_doc_still_written "filesystem_advanced_file_operations.html"
    ⟨1, 1, "filesystem_advanced_file_operations.html", "Advanced File Operations",
     "File and System Automation"⟩
    (Forest.elemC (lit "html") (lit "") []
      (Forest.textC (lit "hi") Forest.nil) Forest.nil)
    (by decide) (by decide) (by decide) (by decide)).1

/-- C1 counterexample: for a document whose breadcrumb nav lives inside
the footer, running the fix_navigation patcher twice does not reproduce
the bytes of the first run (the footer replacement deletes the breadcrumb,
the second run re-inserts it at the top of the body). -/
theorem C1_counterexample :
    FixNavigation.serializeF
        (FixNavigation.fnUpdateDoc FixNavigation.lesson0
          (FixNavigation.fnUpdateDoc FixNavigation.lesson0 FixNavigation.fnDoc0))
      ≠ FixNavigation.serializeF
          (FixNavigation.fnUpdateDoc FixNavigation.lesson0 FixNavigation.fnDoc0) := by
  decide

/-- C1 (amended): each of the six textual edits of
`update_structure.update_html_file` is idempotent alone and their
composition is idempotent on every content (a second run changes nothing
and records no changes); each of the three edit classes of
`fix_navigation.update_html_file` is idempotent alone; but their
composition is not idempotent in general. -/
theorem C1_idempotence_amended :
    (∀ st, UpdateStructure.step1 (UpdateStructure.step1 st)
        = UpdateStructure.step1 st)
    ∧ (∀ st, UpdateStructure.step2 (UpdateStructure.step2 st)
        = UpdateStructure.step2 st)
    ∧ (∀ st, UpdateStructure.step3 (UpdateStructure.step3 st)
        = UpdateStructure.step3 st)
    ∧ (∀ st, UpdateStructure.step4 (UpdateStructure.step4 st)
        = UpdateStructure.step4 st)
    ∧ (∀ st, UpdateStructure.step5 (UpdateStructure.step5 st)
        = UpdateStructure.step5 st)
    ∧ (∀ st, UpdateStructure.step6 (UpdateStructure.step6 st)
        = UpdateStructure.step6 st)
    ∧ (∀ c, UpdateStructure.update_html_content
          ((UpdateStructure.update_html_content c).content)
        = ⟨(UpdateStructure.update_html_content c).content, []⟩)
    ∧ (∀ lesson d, FixNavigation.navStep lesson (FixNavigation.navStep lesson d)
        = FixNavigation.navStep lesson d)
    ∧ (∀ lesson d, FixNavigation.footStep lesson (FixNavigation.footStep lesson d)
        = FixNavigation.footStep lesson d)
    ∧ (∀ d, FixNavigation.styleStep (FixNavigation.styleStep d)
        = FixNavigation.styleStep d)
    ∧ (∃ lesson d,
        FixNavigation.serializeF
            (FixNavigation.fnUpdateDoc lesson (FixNavigation.fnUpdateDoc lesson d))
          ≠ FixNavigation.serializeF (FixNavigation.fnUpdateDoc lesson d)) :=
  ⟨UpdateStructure.step1_idem, UpdateStructure.step2_idem,
   UpdateStructure.step3_idem, UpdateStructure.step4_idem,
   UpdateStructure.step5_idem, UpdateStructure.step6_idem,
   UpdateStructure.us_idem,
   FixNavigation.navStep_idem, FixNavigation.footStep_idem,
   FixNavigation.styleStep_idem,
   ⟨FixNavigation.lesson0, FixNavigation.fnDoc0, by decide⟩⟩

/-- C4 counterexample: one uncatalogued file that raises no exception is
tallied in fix_navigation's combined Skipped/Failed counter, so that
counter (the only failure count the report has) is 1 while the number of
files that raised is 0. -/
theorem C4_counterexample :
    FixNavigation.fn_process_all
        [⟨"extra.html", Forest.nil, false⟩]
      = ⟨0, 1, ["extra.html"]⟩
    ∧ List.countP (fun f => f.raises)
        [(⟨"extra.html", Forest.nil, false⟩ : FixNavigation.FnFile)] = 0 := by
  constructor
  · decide
  · decide

/-- C4 (amended): both batch loops attempt every file in order and never
abort; in `update_structure.process_all_html_files` the failed list names
exactly the files that raised (read or write error); in
`fix_navigation.process_all_files` a single Skipped/Failed counter mixes
raising files with uncatalogued files that raised nothing. -/
theorem C4_failure_containment_amended (fns : List FixNavigation.FnFile)
    (usfs : List UpdateStructure.UsBatchFile) :
    FixNavigation.fn_process_all fns
      = ⟨fns.countP (fun f => FixNavigation.fn_file_result f),
         fns.countP (fun f => !FixNavigation.fn_file_result f),
         fns.map FixNavigation.FnFile.name⟩
    ∧ (∀ f : FixNavigation.FnFile,
        FixNavigation.fn_file_result f = false
          ↔ (f.raises = true ∨ get_lesson_by_filename f.name = none))
    ∧ UpdateStructure.us_process_all usfs
      = ⟨usfs.countP UpdateStructure.usSuccessB,
         usfs.countP UpdateStructure.usNoChangeB,
         (usfs.filter UpdateStructure.us_raises).map UpdateStructure.UsBatchFile.name,
         usfs.map UpdateStructure.UsBatchFile.name⟩ := by
  refine ⟨?_, FixNavigation.fn_file_result_false_iff, ?_⟩
  · rw [FixNavigation.fn_process_all, FixNavigation.fn_process_all_go]
    simp
  · rw [UpdateStructure.us_process_all, UpdateStructure.us_process_all_go]
    simp
